import Mathlib

/-!
AMOEBA CUDA kernels: host-side logic of `AmoebaCudaKernels.cpp`

A shallow embedding of the host code of
`plugins/amoeba/platforms/cuda2/src/AmoebaCudaKernels.cpp` and proofs about it.

Conventions of the embedding:

* C++ `int` values are integers (`Int`); an `int` that serves as the bound of
  a counting loop `for (int i = 0; i < n; i++)` (an atom count, the iteration
  cap) is a natural number.  Where a result can leave the 32-bit range
  (`findFFTDimension32`, `bondedRange`) it is wrapped with `wrapInt32`.
* `double`/`float` values are exact rationals (`ℚ`): the arithmetic is the
  exact arithmetic of the formulas, without rounding; a division by zero is
  treated apart (`convergenceTest`).
* Library functions the file calls but does not define (`sqrt`, the value of
  `M_PI`, OpenMM's `calcPMEParameters`) are parameters of the definitions that
  use them.
* Device kernels are not executed: a kernel launch is recorded as an event
  carrying the kernel and its argument list, in program order.  The device
  behind the events (`Device`, `applyEvent`) is modelled from the
  specification.
-/

namespace AmoebaCuda

/-! ## `findFFTDimension` (source lines 870-888) -/

/-- The inner loop `while (unfactored > 1 && unfactored%factor == 0) unfactored /= factor;`.
`%` and `/` are the truncating C++ operators.  The first argument after `factor`
bounds the number of iterations; `divideOut_spec` shows that `unfactored`
iterations always reach the loop exit. -/
def divideOut (factor : Int) : Nat → Int → Int
  | 0, unfactored => unfactored
  | fuel + 1, unfactored =>
    if unfactored > 1 ∧ unfactored.tmod factor = 0 then
      divideOut factor fuel (unfactored.tdiv factor)
    else unfactored

/-- The factoring attempt of one round of `findFFTDimension`:
`int unfactored = minimum; for (int factor = 2; factor < 8; factor++) while ...`. -/
def unfactoredPart (minimum : Int) : Int :=
  ([2, 3, 4, 5, 6, 7] : List Int).foldl
    (fun unfactored factor => divideOut factor unfactored.toNat unfactored) minimum

/-- The `while (true)` search loop of `findFFTDimension` over unbounded
integers (`minimum++` never overflows), run for at most the given number of
rounds; `none` means the loop has not returned yet.  The loop on the 32-bit
`int` of the source is `findFFTDimensionLoop32`. -/
def findFFTDimensionLoop : Nat → Int → Option Int
  | 0, _ => none
  | fuel + 1, minimum =>
    if unfactoredPart minimum = 1 then some minimum
    else findFFTDimensionLoop fuel (minimum + 1)

/-- The function `static int findFFTDimension(int minimum)` read over unbounded
integers.  The search loop is given `minimum` rounds, which is always enough
(`findFFTDimensionLoop_enough`); `none` would mean that the loop does not
return.  The function on the 32-bit `int` of the source is
`findFFTDimension32`; the two agree for `minimum ≤ 2144153025`. -/
def findFFTDimension (minimum : Int) : Option Int :=
  if minimum < 1 then some 1 else findFFTDimensionLoop minimum.toNat minimum

/-- All prime factors of the positive integer `n` lie in `{2, 3, 5, 7}`
(`n = 1` has no prime factor at all). -/
def OnlyFactors2357 (n : Int) : Prop :=
  1 ≤ n ∧ ∀ p : Nat, p.Prime → (p : Int) ∣ n → p = 2 ∨ p = 3 ∨ p = 5 ∨ p = 7


/-! ## 32-bit `int` arithmetic

Signed overflow is undefined behaviour in C++; it is modelled here as the
two's-complement wrap-around the compiled code performs. -/

/-- The value a 32-bit `int` holds after a computation whose exact result is
`x`: the representative of `x` modulo `2^32` in `[-2^31, 2^31)`. -/
def wrapInt32 (x : Int) : Int :=
  (x + 2147483648) % 4294967296 - 2147483648

/-- The `while (true)` search loop of `findFFTDimension` (lines 876-887) on a
32-bit `int`: `minimum++` wraps around at `2^31 - 1`.  Run for at most the given
number of rounds; `none` means the loop has not returned yet. -/
def findFFTDimensionLoop32 : Nat → Int → Option Int
  | 0, _ => none
  | fuel + 1, minimum =>
    if unfactoredPart minimum = 1 then some minimum
    else findFFTDimensionLoop32 fuel (wrapInt32 (minimum + 1))

/-- The function `static int findFFTDimension(int minimum)` (lines 873-888) on a
32-bit `int`.  The search loop is given `2^32` rounds, one for every value an
`int` can hold. -/
def findFFTDimension32 (minimum : Int) : Option Int :=
  if minimum < 1 then some 1 else findFFTDimensionLoop32 4294967296 minimum

/-! ## `CudaCalcAmoebaMultipoleForceKernel`: options recorded at set-up (source lines 990-1036, 1118-1121) -/

/-- The values of `AmoebaMultipoleForce::PolarizationType` the file refers to. -/
inductive PolarizationType
  | Mutual
  | Direct
  deriving DecidableEq, Repr

/-- The values of the nonbonded method the file distinguishes (`usePME`). -/
inductive NonbondedMethod
  | NoCutoff
  | PME
  deriving DecidableEq, Repr

/-- The settings of an `AmoebaMultipoleForce` that the option-recording part of
the set-up reads through its getters. -/
structure AmoebaMultipoleForce where
  polarizationType : PolarizationType
  mutualInducedMaxIterations : Nat
  mutualInducedTargetEpsilon : ℚ
  nonbondedMethod : NonbondedMethod
  aEwald : ℚ
  pmeGridDimension : Int × Int × Int
  ewaldErrorTolerance : ℚ
  cutoffDistance : ℚ

/-- What `NonbondedForceImpl::calcPMEParameters` (OpenMM core) writes to its
output arguments `alpha`, `xsize`, `ysize`, `zsize`. -/
structure PMEParameters where
  alpha : ℚ
  xsize : Int
  ysize : Int
  zsize : Int

/-- The locals `alpha`, `gridSizeX`, `gridSizeY`, `gridSizeZ` after lines 1012-1029;
they size `pmeGrid`, fill `EWALD_ALPHA` and `GRID_SIZE_X/Y/Z` and are passed to
`cufftPlan3d`. -/
structure PmeSettings where
  alpha : ℚ
  gridSizeX : Int
  gridSizeY : Int
  gridSizeZ : Int
  deriving DecidableEq

/-- Collaborators of the set-up that live outside the file: `calcPMEParameters`
as a function of the Ewald error tolerance and cutoff given to the temporary
`NonbondedForce`, the status returned by `cufftPlan3d` for the three grid sizes
and the precision, and `cu.getUseDoublePrecision()`. -/
structure SetupEnvironment where
  calcPMEParameters : ℚ → ℚ → PMEParameters
  cufftPlan3d : Int → Int → Int → Bool → Int
  useDoublePrecision : Bool

/-- The value `CUFFT_SUCCESS`. -/
def CUFFT_SUCCESS : Int := 0

/-- Host-side members of `CudaCalcAmoebaMultipoleForceKernel` that steer
`execute`.  `pmeGrid = none` is the C++ `pmeGrid == NULL`. -/
structure MultipoleKernel where
  maxInducedIterations : Nat
  inducedEpsilon : ℚ
  hasInitializedScaleFactors : Bool
  hasInitializedFFT : Bool
  pmeGrid : Option PmeSettings

/-- Lines 1012-1029: the Ewald parameter and grid sizes used when `usePME` holds.
`none` would mean that a call of `findFFTDimension` does not return. -/
def selectPmeSettings (env : SetupEnvironment) (force : AmoebaMultipoleForce) :
    Option PmeSettings :=
  if force.pmeGridDimension.1 = 0 ∨ force.aEwald = 0 then
    let p := env.calcPMEParameters force.ewaldErrorTolerance force.cutoffDistance
    match findFFTDimension p.xsize, findFFTDimension p.ysize, findFFTDimension p.zsize with
    | some x, some y, some z => some { alpha := p.alpha, gridSizeX := x, gridSizeY := y, gridSizeZ := z }
    | _, _, _ => none
  else
    some { alpha := force.aEwald, gridSizeX := force.pmeGridDimension.1,
           gridSizeY := force.pmeGridDimension.2.1, gridSizeZ := force.pmeGridDimension.2.2 }

/-- Lines 992-999: the iteration cap and target epsilon recorded from the force. -/
def recordPolarizationOptions (force : AmoebaMultipoleForce) (k : MultipoleKernel) :
    MultipoleKernel :=
  if force.polarizationType = PolarizationType.Mutual then
    { k with maxInducedIterations := force.mutualInducedMaxIterations,
             inducedEpsilon := force.mutualInducedTargetEpsilon }
  else
    { k with maxInducedIterations := 0 }

/-- Outcome of the set-up: the kernel object as the call leaves it and the
message of the `OpenMMException` it threw, if any. -/
structure SetupResult where
  kernel : MultipoleKernel
  exception : Option String

/-- The option-recording and PME part of
`CudaCalcAmoebaMultipoleForceKernel::initialize` (lines 990-1036 and 1072-1121).
`none` would mean that a call of `findFFTDimension` does not return. -/
def initializeMultipoleForce (env : SetupEnvironment) (force : AmoebaMultipoleForce)
    (k : MultipoleKernel) : Option SetupResult :=
  let k1 := recordPolarizationOptions force k
  if force.nonbondedMethod = NonbondedMethod.PME then
    match selectPmeSettings env force with
    | none => none
    | some s =>
      let k2 := { k1 with pmeGrid := some s }
      let result := env.cufftPlan3d s.gridSizeX s.gridSizeY s.gridSizeZ env.useDoublePrecision
      if result ≠ CUFFT_SUCCESS then
        some { kernel := k2, exception := some ("Error initializing FFT: " ++ toString result) }
      else
        some { kernel := { k2 with hasInitializedFFT := true }, exception := none }
  else
    some { kernel := k1, exception := none }

/-- The kernel object as the constructor leaves it (lines 791-798); the two
members the constructor does not set are given the value `0`. -/
def MultipoleKernel.new : MultipoleKernel :=
  { maxInducedIterations := 0, inducedEpsilon := 0, hasInitializedScaleFactors := false,
    hasInitializedFFT := false, pmeGrid := none }


/-- A set-up environment whose collaborators always succeed: `calcPMEParameters`
proposes `alpha = 1` and an `11 x 11 x 11` grid, `cufftPlan3d` returns
`CUFFT_SUCCESS`. -/
def plainEnvironment : SetupEnvironment :=
  { calcPMEParameters := fun _ _ => { alpha := 1, xsize := 11, ysize := 11, zsize := 11 },
    cufftPlan3d := fun _ _ _ _ => CUFFT_SUCCESS,
    useDoublePrecision := false }

/-- A PME force whose user supplies both `aEwald = 1` and an `11 x 11 x 11` grid. -/
def explicitGridForce : AmoebaMultipoleForce :=
  { polarizationType := PolarizationType.Mutual,
    mutualInducedMaxIterations := 60,
    mutualInducedTargetEpsilon := 1/100000,
    nonbondedMethod := NonbondedMethod.PME,
    aEwald := 1,
    pmeGridDimension := (11, 11, 11),
    ewaldErrorTolerance := 1/10000,
    cutoffDistance := 1 }

/-- A force with direct polarization and no cutoff. -/
def directForce : AmoebaMultipoleForce :=
  { explicitGridForce with
    polarizationType := PolarizationType.Direct,
    nonbondedMethod := NonbondedMethod.NoCutoff }

/-- A set-up environment whose `cufftPlan3d` always fails with status 5
(`CUFFT_INTERNAL_ERROR`). -/
def failingPlanEnvironment : SetupEnvironment :=
  { plainEnvironment with cufftPlan3d := fun _ _ _ _ => 5 }

/-! ## `CudaCalcAmoebaMultipoleForceKernel::execute` (source lines 1284-1485) -/

/-- The device buffers and host scalars whose addresses `execute` puts in kernel
argument lists. -/
inductive Arg
  | posq | force | energyBuffer
  | multipoleParticles | molecularDipoles | molecularQuadrupoles
  | labFrameDipoles | labFrameQuadrupoles
  | field | fieldPolar | torque | dampingAndThole | polarizability
  | inducedDipole | inducedDipolePolar | inducedField | inducedFieldPolar | inducedDipoleErrors
  | covalentFlags | polarizationGroupFlags
  | exclusionIndices | exclusionRowIndices | startTileIndex | numTileIndices
  | interactingTiles | interactionCount | interactionFlags | maxTiles
  | periodicBoxSize | invPeriodicBoxSize
  | pmeGrid | pmeBsplineModuliX | pmeBsplineModuliY | pmeBsplineModuliZ
  | pmeTheta1 | pmeTheta2 | pmeTheta3 | pmeIgrid
  | pmePhi | pmePhid | pmePhip | pmePhidp | pmeAtomRange | pmeAtomGridIndex
  deriving DecidableEq, Repr

/-- The device kernels `execute` launches, under the names the set-up looks them
up by (`cu.getKernel(module, "...")`). -/
inductive Kernel
  | computeLabFrameMoments | recordInducedDipoles | mapTorqueToForce
  | computeFixedField | computeInducedField | updateInducedFieldBySOR
  | computeElectrostatics
  | updateBsplines | findAtomRangeForGrid | recordZIndex
  | gridSpreadFixedMultipoles | gridSpreadInducedDipoles | reciprocalConvolution
  | computeFixedPotentialFromGrid | computeInducedPotentialFromGrid
  | computeFixedMultipoleForceAndEnergy | computeInducedDipoleForceAndEnergy
  | recordInducedFieldDipoles
  deriving DecidableEq, Repr

/-- Direction of an in-place transform of `pmeGrid`. -/
inductive FFTDirection
  | CUFFT_FORWARD
  | CUFFT_INVERSE
  deriving DecidableEq, Repr

/-- One host action of `execute` that reaches the device, in program order:
the lazy `initializeScaleFactors()`, `cu.executeKernel`, `cu.clearBuffer`,
`sort->sort`, `cufftExecZ2Z`/`cufftExecC2C` on `pmeGrid` (the flag tells the
double-precision variant) and `CudaArray::download`. -/
inductive Event
  | initializeScaleFactors
  | executeKernel (kernel : Kernel) (args : List Arg)
  | clearBuffer (buffer : Arg)
  | sort (data : Arg)
  | cufftExec (doublePrecision : Bool) (direction : FFTDirection)
  | download (buffer : Arg)
  deriving DecidableEq, Repr

/-- What one call of `execute` reads from outside the kernel object:
`cu.getUseDoublePrecision()`, `cu.getNumAtoms()`, the library function `sqrt`,
and the contents `inducedDipoleErrors->download(errors)` yields in each
iteration of the loop (one `float2` per thread block: `x` primary, `y` polar). -/
structure ExecuteInput where
  useDoublePrecision : Bool
  numAtoms : Int
  sqrt : ℚ → ℚ
  errors : Nat → List (ℚ × ℚ)

/-- The sum `total1` of lines 1327-1331 / 1453-1457 for iteration `i`. -/
def total1 (input : ExecuteInput) (i : Nat) : ℚ :=
  (input.errors i).foldl (fun total e => total + e.1) 0

/-- The sum `total2` of lines 1327-1331 / 1453-1457 for iteration `i`. -/
def total2 (input : ExecuteInput) (i : Nat) : ℚ :=
  (input.errors i).foldl (fun total e => total + e.2) 0

/-- The test of lines 1332 and 1458:
`48.033324*sqrt(max(total1, total2)/cu.getNumAtoms()) < inducedEpsilon`.
With `cu.getNumAtoms() == 0` the `double` division yields an infinity or a NaN,
its square root is an infinity or a NaN, and the comparison is false. -/
def convergenceTest (input : ExecuteInput) (inducedEpsilon : ℚ) (i : Nat) : Bool :=
  if input.numAtoms = 0 then false
  else
    decide (48.033324 *
        input.sqrt (max (total1 input i) (total2 input i) / (input.numAtoms : ℚ))
      < inducedEpsilon)

/-- What a run of the loop `for (int i = 0; i < maxInducedIterations; i++)` leaves
behind: the events it issued, how many times its body ran, and whether it was
left through the `break`. -/
structure LoopResult where
  events : List Event
  iterations : Nat
  exitedByBreak : Bool

/-- The loop `for (int i = 0; i < maxInducedIterations; i++) { body; if (test) break; }`
from index `i` on, with `remaining = maxInducedIterations - i`. -/
def inducedLoop (body : List Event) (test : Nat → Bool) : Nat → Nat → LoopResult
  | 0, _ => { events := [], iterations := 0, exitedByBreak := false }
  | remaining + 1, i =>
    if test i then { events := body, iterations := 1, exitedByBreak := true }
    else
      let rest := inducedLoop body test remaining (i + 1)
      { events := body ++ rest.events, iterations := rest.iterations + 1,
        exitedByBreak := rest.exitedByBreak }

/-- The argument list `updateInducedFieldArgs` (lines 1322-1324, 1448-1450). -/
def updateInducedFieldArgs : List Arg :=
  [Arg.field, Arg.fieldPolar, Arg.inducedField, Arg.inducedFieldPolar, Arg.inducedDipole,
   Arg.inducedDipolePolar, Arg.polarizability, Arg.inducedDipoleErrors]

/-- The argument list `recordInducedDipolesArgs` (lines 1308-1309, 1398-1399). -/
def recordInducedDipolesArgs : List Arg :=
  [Arg.field, Arg.fieldPolar, Arg.inducedDipole, Arg.inducedDipolePolar, Arg.polarizability]

/-- The argument list `mapTorqueArgs` (lines 1347-1348, 1480-1481). -/
def mapTorqueArgs : List Arg :=
  [Arg.force, Arg.torque, Arg.posq, Arg.multipoleParticles]

/-- The argument list `pmeSpreadInducedDipolesArgs` (lines 1404-1406). -/
def pmeSpreadInducedDipolesArgs : List Arg :=
  [Arg.posq, Arg.inducedDipole, Arg.inducedDipolePolar, Arg.pmeGrid, Arg.pmeAtomGridIndex,
   Arg.pmeAtomRange, Arg.pmeTheta1, Arg.pmeTheta2, Arg.pmeTheta3, Arg.invPeriodicBoxSize]

/-- The argument list `pmeConvolutionArgs` (lines 1373-1374). -/
def pmeConvolutionArgs : List Arg :=
  [Arg.pmeGrid, Arg.pmeBsplineModuliX, Arg.pmeBsplineModuliY, Arg.pmeBsplineModuliZ,
   Arg.periodicBoxSize, Arg.invPeriodicBoxSize]

/-- The argument list `pmeInducedPotentialArgs` (lines 1417-1419). -/
def pmeInducedPotentialArgs : List Arg :=
  [Arg.pmeGrid, Arg.pmePhid, Arg.pmePhip, Arg.pmePhidp, Arg.pmeIgrid, Arg.pmeTheta1,
   Arg.pmeTheta2, Arg.pmeTheta3, Arg.invPeriodicBoxSize]

/-- Lines 1303-1310: the fixed field and the seeding of the induced dipoles when
`pmeGrid == NULL`. -/
def fixedFieldEvents : List Event :=
  [Event.executeKernel Kernel.computeFixedField
     [Arg.field, Arg.fieldPolar, Arg.posq, Arg.exclusionIndices, Arg.exclusionRowIndices,
      Arg.covalentFlags, Arg.polarizationGroupFlags, Arg.startTileIndex, Arg.numTileIndices,
      Arg.labFrameDipoles, Arg.labFrameQuadrupoles, Arg.dampingAndThole],
   Event.executeKernel Kernel.recordInducedDipoles recordInducedDipolesArgs]

/-- Lines 1316-1326: the body of the loop when `pmeGrid == NULL`, up to and
including the download of the errors. -/
def inducedBody : List Event :=
  [Event.clearBuffer Arg.inducedField,
   Event.clearBuffer Arg.inducedFieldPolar,
   Event.executeKernel Kernel.computeInducedField
     [Arg.inducedField, Arg.inducedFieldPolar, Arg.posq, Arg.inducedDipole,
      Arg.inducedDipolePolar, Arg.startTileIndex, Arg.numTileIndices, Arg.dampingAndThole],
   Event.executeKernel Kernel.updateInducedFieldBySOR updateInducedFieldArgs,
   Event.download Arg.inducedDipoleErrors]

/-- The argument list `electrostaticsArgs` of the branch without PME (lines 1338-1342). -/
def electrostaticsArgs : List Arg :=
  [Arg.force, Arg.torque, Arg.energyBuffer, Arg.posq, Arg.exclusionIndices,
   Arg.exclusionRowIndices, Arg.covalentFlags, Arg.polarizationGroupFlags,
   Arg.startTileIndex, Arg.numTileIndices, Arg.labFrameDipoles, Arg.labFrameQuadrupoles,
   Arg.inducedDipole, Arg.inducedDipolePolar, Arg.dampingAndThole]

/-- Lines 1338-1349: electrostatic force and torque mapping when `pmeGrid == NULL`. -/
def forceEvents : List Event :=
  [Event.executeKernel Kernel.computeElectrostatics electrostaticsArgs,
   Event.executeKernel Kernel.mapTorqueToForce mapTorqueArgs]

/-- Lines 1355-1420: everything the PME branch issues before its loop. -/
def pmeFixedFieldEvents (doublePrecision : Bool) : List Event :=
  [Event.executeKernel Kernel.updateBsplines
     [Arg.posq, Arg.pmeIgrid, Arg.pmeAtomGridIndex, Arg.pmeTheta1, Arg.pmeTheta2, Arg.pmeTheta3,
      Arg.periodicBoxSize, Arg.invPeriodicBoxSize],
   Event.sort Arg.pmeAtomGridIndex,
   Event.executeKernel Kernel.findAtomRangeForGrid
     [Arg.pmeAtomGridIndex, Arg.pmeAtomRange, Arg.posq, Arg.periodicBoxSize,
      Arg.invPeriodicBoxSize],
   Event.executeKernel Kernel.recordZIndex
     [Arg.pmeAtomGridIndex, Arg.posq, Arg.periodicBoxSize, Arg.invPeriodicBoxSize],
   Event.executeKernel Kernel.gridSpreadFixedMultipoles
     [Arg.posq, Arg.labFrameDipoles, Arg.labFrameQuadrupoles, Arg.pmeGrid,
      Arg.pmeAtomGridIndex, Arg.pmeAtomRange, Arg.pmeTheta1, Arg.pmeTheta2, Arg.pmeTheta3,
      Arg.invPeriodicBoxSize],
   Event.cufftExec doublePrecision FFTDirection.CUFFT_FORWARD,
   Event.executeKernel Kernel.reciprocalConvolution pmeConvolutionArgs,
   Event.cufftExec doublePrecision FFTDirection.CUFFT_INVERSE,
   Event.executeKernel Kernel.computeFixedPotentialFromGrid
     [Arg.pmeGrid, Arg.pmePhi, Arg.field, Arg.fieldPolar, Arg.pmeIgrid, Arg.pmeTheta1,
      Arg.pmeTheta2, Arg.pmeTheta3, Arg.labFrameDipoles, Arg.invPeriodicBoxSize],
   Event.executeKernel Kernel.computeFixedMultipoleForceAndEnergy
     [Arg.posq, Arg.force, Arg.torque, Arg.energyBuffer, Arg.labFrameDipoles,
      Arg.labFrameQuadrupoles, Arg.pmePhi, Arg.invPeriodicBoxSize],
   Event.executeKernel Kernel.computeFixedField
     [Arg.field, Arg.fieldPolar, Arg.posq, Arg.exclusionIndices, Arg.exclusionRowIndices,
      Arg.covalentFlags, Arg.polarizationGroupFlags, Arg.startTileIndex, Arg.numTileIndices,
      Arg.interactingTiles, Arg.interactionCount, Arg.periodicBoxSize, Arg.invPeriodicBoxSize,
      Arg.maxTiles, Arg.interactionFlags, Arg.labFrameDipoles, Arg.labFrameQuadrupoles,
      Arg.dampingAndThole],
   Event.executeKernel Kernel.recordInducedDipoles recordInducedDipolesArgs,
   Event.executeKernel Kernel.gridSpreadInducedDipoles pmeSpreadInducedDipolesArgs,
   Event.cufftExec doublePrecision FFTDirection.CUFFT_FORWARD,
   Event.executeKernel Kernel.reciprocalConvolution pmeConvolutionArgs,
   Event.cufftExec doublePrecision FFTDirection.CUFFT_INVERSE,
   Event.executeKernel Kernel.computeInducedPotentialFromGrid pmeInducedPotentialArgs]

/-- Lines 1426-1452: the body of the loop in the PME branch, up to and including
the download of the errors. -/
def pmeInducedBody (doublePrecision : Bool) : List Event :=
  [Event.clearBuffer Arg.inducedField,
   Event.clearBuffer Arg.inducedFieldPolar,
   Event.executeKernel Kernel.computeInducedField
     [Arg.inducedField, Arg.inducedFieldPolar, Arg.posq, Arg.inducedDipole,
      Arg.inducedDipolePolar, Arg.startTileIndex, Arg.numTileIndices, Arg.interactingTiles,
      Arg.interactionCount, Arg.periodicBoxSize, Arg.invPeriodicBoxSize, Arg.maxTiles,
      Arg.interactionFlags, Arg.dampingAndThole],
   Event.executeKernel Kernel.gridSpreadInducedDipoles pmeSpreadInducedDipolesArgs,
   Event.cufftExec doublePrecision FFTDirection.CUFFT_FORWARD,
   Event.executeKernel Kernel.reciprocalConvolution pmeConvolutionArgs,
   Event.cufftExec doublePrecision FFTDirection.CUFFT_INVERSE,
   Event.executeKernel Kernel.computeInducedPotentialFromGrid pmeInducedPotentialArgs,
   Event.executeKernel Kernel.recordInducedFieldDipoles
     [Arg.pmePhid, Arg.pmePhip, Arg.inducedField, Arg.inducedFieldPolar, Arg.invPeriodicBoxSize],
   Event.executeKernel Kernel.updateInducedFieldBySOR updateInducedFieldArgs,
   Event.download Arg.inducedDipoleErrors]

/-- The argument list `electrostaticsArgs` of the PME branch (lines 1464-1470). -/
def pmeElectrostaticsArgs : List Arg :=
  [Arg.force, Arg.torque, Arg.energyBuffer, Arg.posq, Arg.exclusionIndices,
   Arg.exclusionRowIndices, Arg.covalentFlags, Arg.polarizationGroupFlags,
   Arg.startTileIndex, Arg.numTileIndices, Arg.interactingTiles, Arg.interactionCount,
   Arg.periodicBoxSize, Arg.invPeriodicBoxSize, Arg.maxTiles, Arg.interactionFlags,
   Arg.labFrameDipoles, Arg.labFrameQuadrupoles, Arg.inducedDipole, Arg.inducedDipolePolar,
   Arg.dampingAndThole]

/-- The argument list `pmeInducedForceArgs` (lines 1472-1475). -/
def pmeInducedForceArgs : List Arg :=
  [Arg.posq, Arg.force, Arg.torque, Arg.energyBuffer, Arg.labFrameDipoles,
   Arg.labFrameQuadrupoles, Arg.inducedDipole, Arg.inducedDipolePolar, Arg.pmePhi,
   Arg.pmePhid, Arg.pmePhip, Arg.pmePhidp, Arg.invPeriodicBoxSize]

/-- Lines 1464-1482: electrostatic force, induced-dipole reciprocal force and
torque mapping in the PME branch. -/
def pmeForceEvents : List Event :=
  [Event.executeKernel Kernel.computeElectrostatics pmeElectrostaticsArgs,
   Event.executeKernel Kernel.computeInducedDipoleForceAndEnergy pmeInducedForceArgs,
   Event.executeKernel Kernel.mapTorqueToForce mapTorqueArgs]

/-- Lines 1285-1294: the lazy scale-factor set-up and the lab-frame moments. -/
def momentsEvents (k : MultipoleKernel) : List Event :=
  (if k.hasInitializedScaleFactors then [] else [Event.initializeScaleFactors]) ++
  [Event.executeKernel Kernel.computeLabFrameMoments
     [Arg.posq, Arg.multipoleParticles, Arg.molecularDipoles, Arg.molecularQuadrupoles,
      Arg.labFrameDipoles, Arg.labFrameQuadrupoles]]

/-- The loop of `execute` in the branch the kernel object selects. -/
def scfLoop (k : MultipoleKernel) (input : ExecuteInput) : LoopResult :=
  inducedLoop
    (if k.pmeGrid.isNone then inducedBody else pmeInducedBody input.useDoublePrecision)
    (convergenceTest input k.inducedEpsilon) k.maxInducedIterations 0

/-- What one call of `execute` does: the events it issues in order, the kernel
object afterwards, the run of its loop, and the value it returns. -/
structure ExecuteResult where
  events : List Event
  kernel : MultipoleKernel
  loop : LoopResult
  returnValue : ℚ

/-- The method `CudaCalcAmoebaMultipoleForceKernel::execute`. -/
def execute (k : MultipoleKernel) (input : ExecuteInput) : ExecuteResult :=
  let loop := scfLoop k input
  { events :=
      momentsEvents k ++
      (if k.pmeGrid.isNone then fixedFieldEvents ++ loop.events ++ forceEvents
       else pmeFixedFieldEvents input.useDoublePrecision ++ loop.events ++ pmeForceEvents),
    kernel := { k with hasInitializedScaleFactors := true },
    loop := loop,
    returnValue := 0 }

/-- The kernel object after a series of `execute` calls, one per input. -/
def executeAll (k : MultipoleKernel) (inputs : List ExecuteInput) : MultipoleKernel :=
  inputs.foldl (fun k input => (execute k input).kernel) k

/-- Whether an event launches the given device kernel. -/
def Event.launches (kernel : Kernel) : Event → Bool
  | Event.executeKernel k _ => decide (k = kernel)
  | _ => false

/-- The number of iterations of the loop that a sequence of events shows: its
launches of `updateInducedFieldBySOR`, of which each iteration issues one. -/
def scfIterationsRun (events : List Event) : Nat :=
  events.countP (Event.launches Kernel.updateInducedFieldBySOR)

/-- An input under which the convergence test never succeeds: the errors stay at
`(1, 1)` for a single atom and `sqrt` is taken as the identity. -/
def stubbornInput : ExecuteInput :=
  { useDoublePrecision := false, numAtoms := 1, sqrt := fun x => x,
    errors := fun _ => [(1, 1)] }

/-- An input whose errors vanish, so that the convergence test succeeds at once
for a positive target epsilon. -/
def settledInput : ExecuteInput :=
  { useDoublePrecision := false, numAtoms := 1, sqrt := fun x => x,
    errors := fun _ => [(0, 0)] }

/-- A kernel object set up for mutual polarization without PME, with an
iteration cap of 3 and target epsilon 1/100. -/
def mutualKernel : MultipoleKernel :=
  { maxInducedIterations := 3, inducedEpsilon := 1/100, hasInitializedScaleFactors := false,
    hasInitializedFFT := false, pmeGrid := none }

/-- An input with two atoms and two blocks of errors per iteration: in iteration
0 each primary error alone would pass the test against `1/100` but their sum
does not, in iteration 1 the same holds for the polar errors, and from
iteration 2 on both sums pass. -/
def twoBlockInput : ExecuteInput :=
  { useDoublePrecision := false, numAtoms := 2, sqrt := fun x => x,
    errors := fun i =>
      if i = 0 then [(3/10000, 0), (3/10000, 0)]
      else if i = 1 then [(0, 3/10000), (0, 3/10000)]
      else [(1/10000, 0), (0, 1/10000)] }

/-! ## Reading the event trace of `execute` -/

/-- The buffers and scalars an event hands to the device: the argument list of
a launch, the buffer of a clear, sort or download, `pmeGrid` for a transform. -/
def Event.args : Event → List Arg
  | Event.initializeScaleFactors => []
  | Event.executeKernel _ args => args
  | Event.clearBuffer buffer => [buffer]
  | Event.sort data => [data]
  | Event.cufftExec _ _ => [Arg.pmeGrid]
  | Event.download buffer => [buffer]

/-- Whether an event is a kernel launch (`cu.executeKernel`). -/
def Event.isLaunch : Event → Bool
  | Event.executeKernel _ _ => true
  | _ => false

/-- One reciprocal-space pass as the specification describes it: spread, forward
FFT, reciprocal convolution, inverse FFT, potential gather. -/
def reciprocalPass (doublePrecision : Bool) (spread gather : Event) : List Event :=
  [spread,
   Event.cufftExec doublePrecision FFTDirection.CUFFT_FORWARD,
   Event.executeKernel Kernel.reciprocalConvolution pmeConvolutionArgs,
   Event.cufftExec doublePrecision FFTDirection.CUFFT_INVERSE,
   gather]

/-- Whether an event is a step of a reciprocal-space pass: a grid spread, a
transform, the reciprocal convolution or a potential gather. -/
def Event.isPassEvent : Event → Bool
  | Event.executeKernel kernel _ =>
    decide (kernel = Kernel.gridSpreadFixedMultipoles) ||
    decide (kernel = Kernel.gridSpreadInducedDipoles) ||
    decide (kernel = Kernel.reciprocalConvolution) ||
    decide (kernel = Kernel.computeFixedPotentialFromGrid) ||
    decide (kernel = Kernel.computeInducedPotentialFromGrid)
  | Event.cufftExec _ _ => true
  | _ => false

/-- The spread launch of the fixed multipoles (lines 1365-1368). -/
def spreadFixedEvent : Event :=
  Event.executeKernel Kernel.gridSpreadFixedMultipoles
    [Arg.posq, Arg.labFrameDipoles, Arg.labFrameQuadrupoles, Arg.pmeGrid,
     Arg.pmeAtomGridIndex, Arg.pmeAtomRange, Arg.pmeTheta1, Arg.pmeTheta2, Arg.pmeTheta3,
     Arg.invPeriodicBoxSize]

/-- The potential gather of the fixed multipoles (lines 1380-1383). -/
def gatherFixedEvent : Event :=
  Event.executeKernel Kernel.computeFixedPotentialFromGrid
    [Arg.pmeGrid, Arg.pmePhi, Arg.field, Arg.fieldPolar, Arg.pmeIgrid, Arg.pmeTheta1,
     Arg.pmeTheta2, Arg.pmeTheta3, Arg.labFrameDipoles, Arg.invPeriodicBoxSize]

/-- The spread launch of the induced dipoles (lines 1407, 1434). -/
def spreadInducedEvent : Event :=
  Event.executeKernel Kernel.gridSpreadInducedDipoles pmeSpreadInducedDipolesArgs

/-- The potential gather of the induced dipoles (lines 1420, 1444). -/
def gatherInducedEvent : Event :=
  Event.executeKernel Kernel.computeInducedPotentialFromGrid pmeInducedPotentialArgs

/-- Whether an event launches one of the kernels of the fixed-field stage:
`computeFixedField`, `recordInducedDipoles`, and with PME
`gridSpreadFixedMultipoles` and `computeFixedPotentialFromGrid`. -/
def Event.isFixedFieldLaunch (e : Event) : Bool :=
  e.launches Kernel.computeFixedField || e.launches Kernel.recordInducedDipoles ||
  e.launches Kernel.gridSpreadFixedMultipoles ||
  e.launches Kernel.computeFixedPotentialFromGrid

/-- Whether an event launches one of the kernels only the loop uses:
`computeInducedField`, `updateInducedFieldBySOR`, and with PME
`recordInducedFieldDipoles`. -/
def Event.isScfLaunch (e : Event) : Bool :=
  e.launches Kernel.computeInducedField || e.launches Kernel.updateInducedFieldBySOR ||
  e.launches Kernel.recordInducedFieldDipoles

/-- A kernel object set up for mutual polarization with PME on an
`11 x 11 x 11` grid, with an iteration cap of 3 and target epsilon 1/100. -/
def pmeMutualKernel : MultipoleKernel :=
  { maxInducedIterations := 3, inducedEpsilon := 1/100, hasInitializedScaleFactors := false,
    hasInitializedFFT := true,
    pmeGrid := some { alpha := 1, gridSizeX := 11, gridSizeY := 11, gridSizeZ := 11 } }

/-! ## `computeSystemMultipoleMoments` (source lines 1527-1636) -/

/-- A `double4`/`float4` value. -/
structure Real4 where
  x : ℚ
  y : ℚ
  z : ℚ
  w : ℚ

/-- A `Vec3` value. -/
structure Vec3 where
  x : ℚ
  y : ℚ
  z : ℚ

/-- What `computeSystemMultipoleMoments` reads from the context: `cu.getNumAtoms()`
and the downloaded contents of `posq`, `velm`, `labFrameDipoles`, `inducedDipole`
and `labFrameQuadrupoles`, each as a map from index to element. -/
structure MomentsInput where
  numAtoms : Nat
  posq : Nat → Real4
  velm : Nat → Real4
  labDipoleVec : Nat → ℚ
  inducedDipoleVec : Nat → ℚ
  quadrupoleVec : Nat → ℚ

/-- The accumulators `totalMass` and `centerOfMass` of lines 1534-1542. -/
structure MassSums where
  totalMass : ℚ
  centerOfMass : Vec3

/-- The `mass` of atom `i` (line 1537): `velm[i].w > 0 ? 1.0/velm[i].w : 0.0`. -/
def atomMass (s : MomentsInput) (i : Nat) : ℚ :=
  if (s.velm i).w > 0 then 1 / (s.velm i).w else 0

/-- The body of the loop of lines 1536-1542. -/
def massStep (s : MomentsInput) (acc : MassSums) (i : Nat) : MassSums :=
  let mass := atomMass s i
  { totalMass := acc.totalMass + mass,
    centerOfMass :=
      { x := acc.centerOfMass.x + mass * (s.posq i).x,
        y := acc.centerOfMass.y + mass * (s.posq i).y,
        z := acc.centerOfMass.z + mass * (s.posq i).z } }

/-- The loop of lines 1534-1542. -/
def massSums (s : MomentsInput) : MassSums :=
  (List.range s.numAtoms).foldl (massStep s)
    { totalMass := 0, centerOfMass := { x := 0, y := 0, z := 0 } }

/-- The variable `centerOfMass` after lines 1543-1547. -/
def centerOfMass (s : MomentsInput) : Vec3 :=
  let acc := massSums s
  if acc.totalMass > 0 then
    { x := acc.centerOfMass.x / acc.totalMass,
      y := acc.centerOfMass.y / acc.totalMass,
      z := acc.centerOfMass.z / acc.totalMass }
  else acc.centerOfMass

/-- The entry `posqLocal[i]` of lines 1548-1554. -/
def posqLocal (s : MomentsInput) (i : Nat) : Real4 :=
  { x := (s.posq i).x - (centerOfMass s).x,
    y := (s.posq i).y - (centerOfMass s).y,
    z := (s.posq i).z - (centerOfMass s).z,
    w := (s.posq i).w }

/-- The thirteen accumulators of lines 1558-1570. -/
structure Moments where
  totalCharge : ℚ
  xdpl : ℚ
  ydpl : ℚ
  zdpl : ℚ
  xxqdp : ℚ
  xyqdp : ℚ
  xzqdp : ℚ
  yxqdp : ℚ
  yyqdp : ℚ
  yzqdp : ℚ
  zxqdp : ℚ
  zyqdp : ℚ
  zzqdp : ℚ

/-- The body of the loop of lines 1575-1592, on local coordinates `p`. -/
def momentsStep (p : Nat → Real4) (labDipoleVec inducedDipoleVec : Nat → ℚ)
    (m : Moments) (i : Nat) : Moments :=
  let netDipoleX := labDipoleVec (3*i) + inducedDipoleVec (3*i)
  let netDipoleY := labDipoleVec (3*i+1) + inducedDipoleVec (3*i+1)
  let netDipoleZ := labDipoleVec (3*i+2) + inducedDipoleVec (3*i+2)
  { totalCharge := m.totalCharge + (p i).w,
    xdpl := m.xdpl + ((p i).x*(p i).w + netDipoleX),
    ydpl := m.ydpl + ((p i).y*(p i).w + netDipoleY),
    zdpl := m.zdpl + ((p i).z*(p i).w + netDipoleZ),
    xxqdp := m.xxqdp + ((p i).x*(p i).x*(p i).w + 2*(p i).x*netDipoleX),
    xyqdp := m.xyqdp + ((p i).x*(p i).y*(p i).w + (p i).x*netDipoleY + (p i).y*netDipoleX),
    xzqdp := m.xzqdp + ((p i).x*(p i).z*(p i).w + (p i).x*netDipoleZ + (p i).z*netDipoleX),
    yxqdp := m.yxqdp + ((p i).y*(p i).x*(p i).w + (p i).y*netDipoleX + (p i).x*netDipoleY),
    yyqdp := m.yyqdp + ((p i).y*(p i).y*(p i).w + 2*(p i).y*netDipoleY),
    yzqdp := m.yzqdp + ((p i).y*(p i).z*(p i).w + (p i).y*netDipoleZ + (p i).z*netDipoleY),
    zxqdp := m.zxqdp + ((p i).z*(p i).x*(p i).w + (p i).z*netDipoleX + (p i).x*netDipoleZ),
    zyqdp := m.zyqdp + ((p i).z*(p i).y*(p i).w + (p i).z*netDipoleY + (p i).y*netDipoleZ),
    zzqdp := m.zzqdp + ((p i).z*(p i).z*(p i).w + 2*(p i).z*netDipoleZ) }

/-- Lines 1596-1605: the conversion from traced to traceless form. -/
def tracelessForm (m : Moments) : Moments :=
  let qave := (m.xxqdp + m.yyqdp + m.zzqdp)/3
  { m with
    xxqdp := 1.5*(m.xxqdp - qave),
    xyqdp := 1.5*m.xyqdp,
    xzqdp := 1.5*m.xzqdp,
    yxqdp := 1.5*m.yxqdp,
    yyqdp := 1.5*(m.yyqdp - qave),
    yzqdp := 1.5*m.yzqdp,
    zxqdp := 1.5*m.zxqdp,
    zyqdp := 1.5*m.zyqdp,
    zzqdp := 1.5*(m.zzqdp - qave) }

/-- The body of the loop of lines 1609-1619. -/
def atomicQuadrupoleStep (quadrupoleVec : Nat → ℚ) (m : Moments) (i : Nat) : Moments :=
  { m with
    xxqdp := m.xxqdp + 3*quadrupoleVec (5*i),
    xyqdp := m.xyqdp + 3*quadrupoleVec (5*i+1),
    xzqdp := m.xzqdp + 3*quadrupoleVec (5*i+2),
    yxqdp := m.yxqdp + 3*quadrupoleVec (5*i+1),
    yyqdp := m.yyqdp + 3*quadrupoleVec (5*i+3),
    yzqdp := m.yzqdp + 3*quadrupoleVec (5*i+4),
    zxqdp := m.zxqdp + 3*quadrupoleVec (5*i+2),
    zyqdp := m.zyqdp + 3*quadrupoleVec (5*i+4),
    zzqdp := m.zzqdp + -3*(quadrupoleVec (5*i) + quadrupoleVec (5*i+3)) }

/-- The accumulators with their initial value `0.0`. -/
def Moments.zero : Moments :=
  { totalCharge := 0, xdpl := 0, ydpl := 0, zdpl := 0, xxqdp := 0, xyqdp := 0, xzqdp := 0,
    yxqdp := 0, yyqdp := 0, yzqdp := 0, zxqdp := 0, zyqdp := 0, zzqdp := 0 }

/-- Lines 1556-1619 on given local coordinates: the accumulators before the
conversion to output units. -/
def momentsOfLocal (numAtoms : Nat) (p : Nat → Real4)
    (labDipoleVec inducedDipoleVec quadrupoleVec : Nat → ℚ) : Moments :=
  (List.range numAtoms).foldl (atomicQuadrupoleStep quadrupoleVec)
    (tracelessForm
      ((List.range numAtoms).foldl (momentsStep p labDipoleVec inducedDipoleVec) Moments.zero))

/-- The constant `debye` of line 1621. -/
def debye : ℚ := 4.80321

/-- Lines 1621-1635: the output vector. -/
def outputMoments (m : Moments) : List ℚ :=
  [m.totalCharge, m.xdpl*debye, m.ydpl*debye, m.zdpl*debye,
   m.xxqdp*debye, m.xyqdp*debye, m.xzqdp*debye,
   m.yxqdp*debye, m.yyqdp*debye, m.yzqdp*debye,
   m.zxqdp*debye, m.zyqdp*debye, m.zzqdp*debye]

/-- The method `computeSystemMultipoleMoments`: the contents of
`outputMultipoleMoments` on return.  The argument `origin` is not used by the
body. -/
def computeSystemMultipoleMoments (s : MomentsInput) (_origin : Vec3) : List ℚ :=
  outputMoments
    (momentsOfLocal s.numAtoms (posqLocal s) s.labDipoleVec s.inducedDipoleVec s.quadrupoleVec)

/-- The same system with every atom position moved by the vector `t`. -/
def translatePositions (s : MomentsInput) (t : Vec3) : MomentsInput :=
  { s with posq := fun i =>
      { x := (s.posq i).x + t.x, y := (s.posq i).y + t.y, z := (s.posq i).z + t.z,
        w := (s.posq i).w } }

/-- A single massless unit charge at the origin, without dipoles or quadrupoles. -/
def masslessCharge : MomentsInput :=
  { numAtoms := 1,
    posq := fun _ => { x := 0, y := 0, z := 0, w := 1 },
    velm := fun _ => { x := 0, y := 0, z := 0, w := 0 },
    labDipoleVec := fun _ => 0,
    inducedDipoleVec := fun _ => 0,
    quadrupoleVec := fun _ => 0 }

/-- Component `c` (0 = x, 1 = y, 2 = z) of the position part of a `Real4`. -/
def Real4.coord (p : Real4) (c : Fin 3) : ℚ :=
  match c with
  | 0 => p.x
  | 1 => p.y
  | 2 => p.z

/-- Component `c` of the net dipole of atom `i`: its lab-frame dipole plus its
primary induced dipole, three consecutive entries per atom. -/
def netDipole (s : MomentsInput) (i : Nat) (c : Fin 3) : ℚ :=
  s.labDipoleVec (3*i + c.val) + s.inducedDipoleVec (3*i + c.val)

/-- Entry `(r, c)` of the traced second moment of the charges and net dipoles
about the reference point:
the sum over atoms of `l_r l_c q + l_r mu_c + l_c mu_r`. -/
def tracedQuadrupole (s : MomentsInput) (r c : Fin 3) : ℚ :=
  ∑ i ∈ Finset.range s.numAtoms,
    ((posqLocal s i).coord r * (posqLocal s i).coord c * (s.posq i).w +
      (posqLocal s i).coord r * netDipole s i c + (posqLocal s i).coord c * netDipole s i r)

/-- Entry `(r, c)` of the symmetric traceless quadrupole the method reads for
atom `i` from `quadrupoleVec`: components `xx, xy, xz, yy, yz` at offsets
`0..4` from `5*i`, and `zz = -(xx + yy)`. -/
def atomicQuadrupole (s : MomentsInput) (i : Nat) (r c : Fin 3) : ℚ :=
  match r, c with
  | 0, 0 => s.quadrupoleVec (5*i)
  | 0, 1 => s.quadrupoleVec (5*i+1)
  | 0, 2 => s.quadrupoleVec (5*i+2)
  | 1, 0 => s.quadrupoleVec (5*i+1)
  | 1, 1 => s.quadrupoleVec (5*i+3)
  | 1, 2 => s.quadrupoleVec (5*i+4)
  | 2, 0 => s.quadrupoleVec (5*i+2)
  | 2, 1 => s.quadrupoleVec (5*i+4)
  | 2, 2 => -(s.quadrupoleVec (5*i) + s.quadrupoleVec (5*i+3))

/-- Entry `(r, c)` of the quadrupole of the system, before the conversion to
output units: `3/2` times the traced second moment with a third of its trace
taken off the diagonal, plus three times the atomic quadrupoles. -/
def systemQuadrupole (s : MomentsInput) (r c : Fin 3) : ℚ :=
  3/2 * (tracedQuadrupole s r c -
      (if r = c then
        (tracedQuadrupole s 0 0 + tracedQuadrupole s 1 1 + tracedQuadrupole s 2 2)/3
       else 0)) +
    3 * ∑ i ∈ Finset.range s.numAtoms, atomicQuadrupole s i r c

/-- Two unit masses with charges `1` and `-1` on the x axis, with a dipole and a
quadrupole on the first. -/
def twoAtoms : MomentsInput :=
  { numAtoms := 2,
    posq := fun i => if i = 0 then { x := 0, y := 0, z := 0, w := 1 }
                     else { x := 2, y := 0, z := 0, w := -1 },
    velm := fun _ => { x := 0, y := 0, z := 0, w := 1 },
    labDipoleVec := fun i => if i = 0 then 1 else 0,
    inducedDipoleVec := fun _ => 0,
    quadrupoleVec := fun i => if i = 0 then 1 else 0 }

/-- The local `jcut` of line 1171. -/
def jcut : Nat := 50

/-- The local `k` of lines 1173-1175 for loop index `i` on an axis of `ndata`
points: `k = i - 1; if (i > ndata/2) k = k - ndata;`. -/
def zetaWaveNumber (ndata i : Int) : Int :=
  if i > ndata.tdiv 2 then (i - 1) - ndata else i - 1

/-- The value `factor = M_PI*k/ndata` of line 1182. -/
def zetaFactor (pi : ℚ) (k ndata : Int) : ℚ :=
  pi * (k : ℚ) / (ndata : ℚ)

/-- The pair `(sum1, sum2)` after the two loops of lines 1183-1192. -/
def zetaSums (pi : ℚ) (PmeOrder : Nat) (factor : ℚ) : ℚ × ℚ :=
  (List.range' 1 jcut).foldl
    (fun (sums : ℚ × ℚ) (j : Nat) =>
      (sums.1 + (factor / (factor - pi * (j : ℚ))) ^ PmeOrder,
       sums.2 + (factor / (factor - pi * (j : ℚ))) ^ (2 * PmeOrder)))
    ((List.range' 1 jcut).foldl
      (fun (sums : ℚ × ℚ) (j : Nat) =>
        (sums.1 + (factor / (factor + pi * (j : ℚ))) ^ PmeOrder,
         sums.2 + (factor / (factor + pi * (j : ℚ))) ^ (2 * PmeOrder)))
      ((1 : ℚ), (1 : ℚ)))

/-- The value `zeta` of lines 1176-1194 for loop index `i`. -/
def zeta (pi : ℚ) (PmeOrder : Nat) (ndata i : Int) : ℚ :=
  if zetaWaveNumber ndata i = 0 then 1
  else
    (zetaSums pi PmeOrder (zetaFactor pi (zetaWaveNumber ndata i) ndata)).2 /
      (zetaSums pi PmeOrder (zetaFactor pi (zetaWaveNumber ndata i) ndata)).1

/-- The divisors evaluated by one round `i` of the loop of lines 1172-1196, in
program order: `ndata` (line 1182), `factor + M_PI*j` for `j = 1..jcut`
(line 1184), `factor - M_PI*j` for `j = 1..jcut` (line 1189) and `sum1`
(line 1193); none when `k == 0`. -/
def zetaDivisors (pi : ℚ) (PmeOrder : Nat) (ndata i : Int) : List ℚ :=
  if zetaWaveNumber ndata i = 0 then []
  else
    [(ndata : ℚ)] ++
    (List.range' 1 jcut).map
      (fun (j : Nat) => zetaFactor pi (zetaWaveNumber ndata i) ndata + pi * (j : ℚ)) ++
    (List.range' 1 jcut).map
      (fun (j : Nat) => zetaFactor pi (zetaWaveNumber ndata i) ndata - pi * (j : ℚ)) ++
    [(zetaSums pi PmeOrder (zetaFactor pi (zetaWaveNumber ndata i) ndata)).1]

/-- All divisors the modulus construction evaluates for one axis of `ndata`
points (lines 1146-1196), in program order: `ndata` (line 1146), then those of
the rounds `i = 1..ndata` of the zeta loop. -/
def moduliDivisors (pi : ℚ) (PmeOrder : Nat) (ndata : Int) : List ℚ :=
  [(ndata : ℚ)] ++
  ((List.range' 1 ndata.toNat).map (fun (i : Nat) => zetaDivisors pi PmeOrder ndata (i : Int))).flatten

/-! ## `CudaCalcAmoebaVdwForceKernel`: set-up (source lines 1745-1846) -/

/-- The settings of an `AmoebaVdwForce` that decide how the set-up ends. -/
structure AmoebaVdwForce where
  sigmaCombiningRule : String
  epsilonCombiningRule : String
  useDispersionCorrection : Bool

/-- A device array as the set-up creates it: its number of elements and the
label passed to `CudaArray::create` / `new CudaArray`. -/
structure DeviceArray where
  size : Nat
  name : String
  deriving DecidableEq

/-- The `CudaNonbondedUtilities` object owned by the kernel: the names of the
parameters added to it and, once `addInteraction` has been called, the
combining-rule replacements of the interaction source. -/
structure VdwNonbonded where
  parameters : List String
  interaction : Option (List (String × String))
  deriving DecidableEq

/-- Members of `CudaCalcAmoebaVdwForceKernel`; `none` is the C++ `NULL`, for the
two kernel handles "not yet looked up". -/
structure VdwKernel where
  hasInitializedNonbonded : Bool
  sigmaEpsilon : Option DeviceArray
  bondReductionAtoms : Option DeviceArray
  bondReductionFactors : Option DeviceArray
  tempPosq : Option DeviceArray
  tempForces : Option DeviceArray
  nonbonded : Option VdwNonbonded
  dispersionCoefficient : ℚ
  prepareKernel : Option String
  spreadKernel : Option String
  deriving DecidableEq

/-- The kernel object as the constructor leaves it (lines 1745-1748);
`dispersionCoefficient`, which the constructor does not set, is given the
value `0`. -/
def VdwKernel.new : VdwKernel :=
  { hasInitializedNonbonded := false, sigmaEpsilon := none, bondReductionAtoms := none,
    bondReductionFactors := none, tempPosq := none, tempForces := none, nonbonded := none,
    dispersionCoefficient := 0, prepareKernel := none, spreadKernel := none }

/-- What the set-up reads from outside the file: `cu.getPaddedNumAtoms()` and the
value of `AmoebaVdwForceImpl::calcDispersionCorrection(system, force)`. -/
structure VdwEnvironment where
  paddedNumAtoms : Nat
  calcDispersionCorrection : ℚ

/-- Lines 1809-1816: the value stored under `SIGMA_COMBINING_RULE`, or `none`
where the code throws. -/
def sigmaRuleCode (sigmaCombiningRule : String) : Option String :=
  if sigmaCombiningRule = "ARITHMETIC" then some "1"
  else if sigmaCombiningRule = "GEOMETRIC" then some "2"
  else if sigmaCombiningRule = "CUBIC-MEAN" then some "3"
  else none

/-- Lines 1818-1827: the value stored under `EPSILON_COMBINING_RULE`, or `none`
where the code throws. -/
def epsilonRuleCode (epsilonCombiningRule : String) : Option String :=
  if epsilonCombiningRule = "ARITHMETIC" then some "1"
  else if epsilonCombiningRule = "GEOMETRIC" then some "2"
  else if epsilonCombiningRule = "HARMONIC" then some "3"
  else if epsilonCombiningRule = "HHG" then some "4"
  else none

/-- Outcome of the set-up: the kernel object as the call leaves it, the message
of the `OpenMMException` it threw, if any, and the combining-rule entries of the
local map `replacements` at that point. -/
structure VdwSetupResult where
  kernel : VdwKernel
  exception : Option String
  replacements : List (String × String)

/-- The method `CudaCalcAmoebaVdwForceKernel::initialize`, as far as the kernel
object, the combining rules and the exception are concerned (the contents
uploaded to the arrays and the cutoff and taper replacements are left out). -/
def initializeVdwForce (env : VdwEnvironment) (force : AmoebaVdwForce) (k : VdwKernel) :
    VdwSetupResult :=
  let k1 : VdwKernel :=
    { k with
      sigmaEpsilon := some { size := env.paddedNumAtoms, name := "sigmaEpsilon" },
      bondReductionAtoms := some { size := env.paddedNumAtoms, name := "bondReductionAtoms" },
      bondReductionFactors := some { size := env.paddedNumAtoms, name := "sigmaEpsilon" },
      tempPosq := some { size := env.paddedNumAtoms, name := "tempPosq" },
      tempForces := some { size := 3 * env.paddedNumAtoms, name := "tempForces" } }
  let k2 : VdwKernel :=
    { k1 with
      dispersionCoefficient :=
        if force.useDispersionCorrection then env.calcDispersionCorrection else 0 }
  let k3 : VdwKernel :=
    { k2 with nonbonded := some { parameters := ["sigmaEpsilon"], interaction := none } }
  match sigmaRuleCode force.sigmaCombiningRule with
  | none =>
    { kernel := k3,
      exception := some ("Illegal combining rule for sigma: " ++ force.sigmaCombiningRule),
      replacements := [] }
  | some s =>
    match epsilonRuleCode force.epsilonCombiningRule with
    | none =>
      { kernel := k3,
        exception := some ("Illegal combining rule for sigma: " ++ force.sigmaCombiningRule),
        replacements := [("SIGMA_COMBINING_RULE", s)] }
    | some e =>
      { kernel :=
          { k3 with
            nonbonded := some
              { parameters := ["sigmaEpsilon"],
                interaction := some [("SIGMA_COMBINING_RULE", s), ("EPSILON_COMBINING_RULE", e)] },
            prepareKernel := some "prepareToComputeForce",
            spreadKernel := some "spreadForces" },
        exception := none,
        replacements := [("SIGMA_COMBINING_RULE", s), ("EPSILON_COMBINING_RULE", e)] }

/-- A set-up environment with 32 padded atoms. -/
def vdwEnvironment : VdwEnvironment :=
  { paddedNumAtoms := 32, calcDispersionCorrection := 1 }

/-- A force whose sigma rule is not supported. -/
def badSigmaForce : AmoebaVdwForce :=
  { sigmaCombiningRule := "cubic-mean", epsilonCombiningRule := "HHG",
    useDispersionCorrection := true }

/-- A force whose sigma rule is supported and whose epsilon rule is not. -/
def badEpsilonForce : AmoebaVdwForce :=
  { sigmaCombiningRule := "ARITHMETIC", epsilonCombiningRule := "W-H",
    useDispersionCorrection := true }

/-- A force with supported rules. -/
def goodVdwForce : AmoebaVdwForce :=
  { sigmaCombiningRule := "CUBIC-MEAN", epsilonCombiningRule := "HHG",
    useDispersionCorrection := true }

/-! ## Per-atom parameter tables of the multipole set-up (source lines 895-943) -/

/-- What `force.getMultipoleParameters(i, ...)` returns for one multipole: the
charge, the dipole (3 entries) and quadrupole (9 entries) vectors by index, the
axis type with the three axis atoms, and thole, damping and polarity. -/
structure MultipoleParameters where
  charge : ℚ
  dipole : Nat → ℚ
  quadrupole : Nat → ℚ
  axisType : Int
  atomZ : Int
  atomX : Int
  atomY : Int
  thole : ℚ
  damping : ℚ
  polarity : ℚ

/-- An `int4` value. -/
structure Int4 where
  x : Int
  y : Int
  z : Int
  w : Int
  deriving DecidableEq

/-- The five host vectors filled by the loops of lines 899-933 (a `float2` is a
pair). -/
structure ParameterVectors where
  dampingAndTholeVec : List (ℚ × ℚ)
  polarizabilityVec : List ℚ
  molecularDipolesVec : List ℚ
  molecularQuadrupolesVec : List ℚ
  multipoleParticlesVec : List Int4

/-- The vectors as declared, empty. -/
def ParameterVectors.empty : ParameterVectors :=
  { dampingAndTholeVec := [], polarizabilityVec := [], molecularDipolesVec := [],
    molecularQuadrupolesVec := [], multipoleParticlesVec := [] }

/-- The body of the loop of lines 904-923 for multipole `i`: one `push_back` per
line of the source. -/
def recordMultipole (getMultipoleParameters : Nat → MultipoleParameters)
    (v : ParameterVectors) (i : Nat) : ParameterVectors :=
  let p := getMultipoleParameters i
  { dampingAndTholeVec := v.dampingAndTholeVec ++ [(p.damping, p.thole)],
    polarizabilityVec := v.polarizabilityVec ++ [p.polarity],
    multipoleParticlesVec :=
      v.multipoleParticlesVec ++ [{ x := p.atomX, y := p.atomY, z := p.atomZ, w := p.axisType }],
    molecularDipolesVec := v.molecularDipolesVec ++ [p.dipole 0, p.dipole 1, p.dipole 2],
    molecularQuadrupolesVec :=
      v.molecularQuadrupolesVec ++
        [p.quadrupole 0, p.quadrupole 1, p.quadrupole 2, p.quadrupole 4, p.quadrupole 5] }

/-- The body of the padding loop of lines 925-933. -/
def padMultipole (v : ParameterVectors) (_i : Nat) : ParameterVectors :=
  { dampingAndTholeVec := v.dampingAndTholeVec ++ [(0, 0)],
    polarizabilityVec := v.polarizabilityVec ++ [0],
    multipoleParticlesVec := v.multipoleParticlesVec ++ [{ x := 0, y := 0, z := 0, w := 0 }],
    molecularDipolesVec := v.molecularDipolesVec ++ [0, 0, 0],
    molecularQuadrupolesVec := v.molecularQuadrupolesVec ++ [0, 0, 0, 0, 0] }

/-- The five vectors as uploaded by lines 939-943: the loop over
`i = 0 .. numMultipoles-1` followed by the loop over
`i = numMultipoles .. paddedNumAtoms-1`. -/
def parameterVectors (numMultipoles paddedNumAtoms : Nat)
    (getMultipoleParameters : Nat → MultipoleParameters) : ParameterVectors :=
  (List.range' numMultipoles (paddedNumAtoms - numMultipoles)).foldl padMultipole
    ((List.range numMultipoles).foldl (recordMultipole getMultipoleParameters)
      ParameterVectors.empty)

/-- A multipole whose every parameter is derived from its index. -/
def sampleMultipole (i : Nat) : MultipoleParameters :=
  { charge := 1, dipole := fun j => (i : ℚ) + (j : ℚ), quadrupole := fun j => (j : ℚ),
    axisType := 1, atomZ := (i : Int) + 1, atomX := (i : Int) + 2, atomY := (i : Int) + 3,
    thole := 2, damping := 3, polarity := 4 }

/-! ## B-spline moduli: the transform and the near-zero pass (source lines 1136-1167)

`cos` and `sin` are parameters, like `M_PI`. -/

/-- The vector `bsplines_data` after lines 1137-1139: `maxSize+1` zeros with
`data[i-2]` stored at `i = 2 .. PmeOrder+1`.  (A store outside the vector is
dropped here; whether all stores are inside is a separate question.) -/
def bsplinesData (maxSize PmeOrder : Nat) (data : List ℚ) : List ℚ :=
  (List.range' 2 PmeOrder).foldl (fun (v : List ℚ) (i : Nat) => v.set i (data.getD (i - 2) 0))
    (List.replicate (maxSize + 1) 0)

/-- The pair `(sc, ss)` after the loop of lines 1150-1154 for entry `i` of an
axis of `ndata` points, with `factor = 2.0*M_PI/ndata` of line 1146. -/
def transformSums (cos sin : ℚ → ℚ) (pi : ℚ) (bsplines_data : List ℚ) (ndata i : Nat) :
    ℚ × ℚ :=
  (List.range' 1 ndata).foldl
    (fun (sums : ℚ × ℚ) (j : Nat) =>
      (sums.1 + bsplines_data.getD j 0 *
          cos (2 * pi / (ndata : ℚ) * (i : ℚ) * ((j : ℚ) - 1)),
       sums.2 + bsplines_data.getD j 0 *
          sin (2 * pi / (ndata : ℚ) * (i : ℚ) * ((j : ℚ) - 1))))
    ((0 : ℚ), (0 : ℚ))

/-- The vector `moduli` after the loop of lines 1147-1156: entry `i` is
`sc*sc + ss*ss`. -/
def transformModuli (cos sin : ℚ → ℚ) (pi : ℚ) (bsplines_data : List ℚ) (ndata : Nat) :
    List ℚ :=
  (List.range ndata).map
    (fun (i : Nat) =>
      (transformSums cos sin pi bsplines_data ndata i).1 *
          (transformSums cos sin pi bsplines_data ndata i).1 +
        (transformSums cos sin pi bsplines_data ndata i).2 *
          (transformSums cos sin pi bsplines_data ndata i).2)

/-- The local `eps` of line 1160. -/
def moduliEps : ℚ := 1.0e-7

/-- A read `moduli[i]` with a C++ `int` index; `none` when the index lies
outside the vector. -/
def readAt (moduli : List ℚ) (i : Int) : Option ℚ :=
  if i < 0 then none else moduli[i.toNat]?

/-- Lines 1161-1162: `if (moduli[0] < eps) moduli[0] = 0.9*moduli[1];`. -/
def substituteFirst (moduli : List ℚ) : Option (List ℚ) :=
  match readAt moduli 0 with
  | none => none
  | some m0 =>
    if m0 < moduliEps then
      match readAt moduli 1 with
      | none => none
      | some m1 => some (moduli.set 0 (0.9 * m1))
    else some moduli

/-- Lines 1164-1165 for one `i` of the loop:
`if (moduli[i] < eps) moduli[i] = 0.9*(moduli[i-1]+moduli[i+1]);`. -/
def substituteInterior (moduli : List ℚ) (i : Nat) : Option (List ℚ) :=
  match readAt moduli (i : Int) with
  | none => none
  | some m =>
    if m < moduliEps then
      match readAt moduli ((i : Int) - 1), readAt moduli ((i : Int) + 1) with
      | some left, some right => some (moduli.set i (0.9 * (left + right)))
      | _, _ => none
    else some moduli

/-- Lines 1166-1167:
`if (moduli[ndata-1] < eps) moduli[ndata-1] = 0.9*moduli[ndata-2];`. -/
def substituteLast (moduli : List ℚ) : Option (List ℚ) :=
  match readAt moduli ((moduli.length : Int) - 1) with
  | none => none
  | some m =>
    if m < moduliEps then
      match readAt moduli ((moduli.length : Int) - 2) with
      | none => none
      | some left => some (moduli.set (moduli.length - 1) (0.9 * left))
    else some moduli

/-- The near-zero pass of lines 1160-1167 on a vector of `ndata` entries;
`none` when it reads outside the vector. -/
def substituteNearZero (moduli : List ℚ) : Option (List ℚ) :=
  match substituteFirst moduli with
  | none => none
  | some v =>
    match (List.range' 1 (moduli.length - 2)).foldlM substituteInterior v with
    | none => none
    | some w => substituteLast w

/-! ## Rounds of the search loop of `findFFTDimension` (source lines 876-887) -/

/-- The number of times the statement `minimum++` of line 886 is executed by the
`while (true)` loop of `findFFTDimension` before the `return minimum` of line
885, for a loop given at most the stated number of rounds; `none` means the
loop has not returned yet. -/
def findFFTDimensionIncrements : Nat → Int → Option Nat
  | 0, _ => none
  | fuel + 1, minimum =>
    if unfactoredPart minimum = 1 then some 0
    else (findFFTDimensionIncrements fuel (minimum + 1)).map (fun c => c + 1)

/-! ## The bonded-term kernels (source lines 45-756) -/

/-- The seven bonded-term kernel classes of the file, in source order. -/
inductive BondedKernel
  | harmonicBond
  | harmonicAngle
  | harmonicInPlaneAngle
  | piTorsion
  | stretchBend
  | outOfPlaneBend
  | torsionTorsion
  deriving DecidableEq, Repr

/-- The local variables `startIndex`, `endIndex` and the member that holds their
difference (`numBonds`, `numAngles`, ...) after the first lines of a
bonded-term `initialize` (lines 97-100, 241-244, 316-319, 487-490, 555-558,
624-627, 702-705). -/
structure BondedRange where
  startIndex : Int
  endIndex : Int
  count : Int
  deriving DecidableEq, Repr

/-- Lines 97-100 (and their six copies): `contextIndex` is
`cu.getContextIndex()`, `numInteractions` the `force.getNum...()` value and
`numContexts` the size of `contexts`; the products, the sum and the difference
are computed in 32-bit `int`, `/` is the truncating C++ division. -/
def bondedRange (contextIndex numInteractions numContexts : Int) : BondedRange :=
  let startIndex := (wrapInt32 (contextIndex * numInteractions)).tdiv numContexts
  let endIndex :=
    (wrapInt32 (wrapInt32 (contextIndex + 1) * numInteractions)).tdiv numContexts
  { startIndex := startIndex, endIndex := endIndex,
    count := wrapInt32 (endIndex - startIndex) }

/-- The interaction indices `startIndex+i` whose parameters the loop of lines
106-110 reads, in loop order; none when the early `return` of lines 101-102 is
taken. -/
def assignedIndices (contextIndex numInteractions numContexts : Int) : List Int :=
  let r := bondedRange contextIndex numInteractions numContexts
  if r.count = 0 then []
  else (List.range r.count.toNat).map (fun (i : Nat) => r.startIndex + (i : Int))

/-- The value returned by the `execute` method of a bonded-term kernel for the
arguments `includeForces` and `includeEnergy` (the `context` argument is not
used by any of the bodies); `none` when control reaches the end of the body
without a `return` statement, which leaves the value undefined. -/
def BondedKernel.execute (k : BondedKernel) (_includeForces _includeEnergy : Bool) :
    Option ℚ :=
  match k with
  | .harmonicBond => some 0.0
  | .harmonicAngle => some 0.0
  | .harmonicInPlaneAngle => some 0.0
  | .piTorsion => some 0.0
  | .stretchBend => none
  | .outOfPlaneBend => some 0.0
  | .torsionTorsion => some 0.0

/-! ## Buffer clears in the loop of `execute` (source lines 1315-1326, 1425-1452) -/

/-- Whether an event hands `buffer` to device code: a kernel launch with
`buffer` in its argument list, or an in-place transform when `buffer` is
`pmeGrid`.  Clears, sorts and downloads are host requests, not kernels of the
file. -/
def Event.uses (buffer : Arg) : Event → Bool
  | Event.executeKernel _ args => args.contains buffer
  | Event.cufftExec _ _ => decide (buffer = Arg.pmeGrid)
  | _ => false

/-- Reading a sequence of events in program order: whether a
`cu.clearBuffer(buffer)` is met before the first event that hands `buffer` to
device code.  A sequence without such a clear gives `false`. -/
def clearedBeforeFirstUse (buffer : Arg) : List Event → Bool
  | [] => false
  | e :: rest =>
    if e = Event.clearBuffer buffer then true
    else if e.uses buffer then false
    else clearedBeforeFirstUse buffer rest

/-- The body of one iteration of the loop in the branch the kernel object
selects (lines 1316-1326 or 1426-1452). -/
def scfBody (k : MultipoleKernel) (input : ExecuteInput) : List Event :=
  if k.pmeGrid.isNone then inducedBody else pmeInducedBody input.useDoublePrecision

/-! ## The near-zero pass, entry by entry -/

/-- Stated from the description of the pass: the value of entry `i` afterwards,
for an index `i` that is not the last one.  Index `0` becomes `0.9*moduli[1]`
when it is below `eps`; an interior index `i` below `eps` becomes `0.9` times
the sum of the value its left neighbour has after the pass and the original
value of its right neighbour; any other entry keeps its value. -/
def nearZeroValue (moduli : List ℚ) : Nat → ℚ
  | 0 => if moduli.getD 0 0 < moduliEps then 0.9 * moduli.getD 1 0 else moduli.getD 0 0
  | i + 1 =>
    if moduli.getD (i + 1) 0 < moduliEps then
      0.9 * (nearZeroValue moduli i + moduli.getD (i + 2) 0)
    else moduli.getD (i + 1) 0

/-- Stated from the description of the pass: the value of the last entry
afterwards, `0.9` times the value entry `ndata-2` has after the rest of the
pass when it is below `eps`. -/
def nearZeroLast (moduli : List ℚ) : ℚ :=
  if moduli.getD (moduli.length - 1) 0 < moduliEps then
    0.9 * nearZeroValue moduli (moduli.length - 2)
  else moduli.getD (moduli.length - 1) 0

/-! ## The B-spline coefficients `data[]` (source lines 1125-1135) -/

/-- The body of the inner loop of lines 1131-1132 for one `j`:
`data[i-j] = ((x+j)*data[i-j-1] + ((i-j+1)-x)*data[i-j])*denom;`. -/
def splineInnerStep (x denom : ℚ) (i : Nat) (data : List ℚ) (j : Nat) : List ℚ :=
  data.set (i - j)
    (((x + (j : ℚ)) * data.getD (i - j - 1) 0 +
      (((i - j + 1 : Nat) : ℚ) - x) * data.getD (i - j) 0) * denom)

/-- The body of the outer loop of lines 1128-1134 for one `i`. -/
def splineRound (x : ℚ) (data : List ℚ) (i : Nat) : List ℚ :=
  let denom : ℚ := 1 / (i : ℚ)
  let d1 := data.set i (x * data.getD (i - 1) 0 * denom)
  let d2 := (List.range' 1 (i - 1)).foldl (splineInnerStep x denom i) d1
  d2.set 0 ((1 - x) * d2.getD 0 0 * denom)

/-- The array `data` after lines 1125-1135 for a given `x` and spline order.
The array starts out uninitialised in the source; every entry is stored before
it is first read, so the start value used here never shows. -/
def splineData (x : ℚ) (PmeOrder : Nat) : List ℚ :=
  (List.range' 2 (PmeOrder - 2)).foldl (splineRound x)
    (((List.replicate PmeOrder (0 : ℚ)).set 0 (1 - x)).set 1 x)

/-- The array `data` as `initialize` computes it: line 1126 sets `x = 0.0`. -/
def originSplineData (PmeOrder : Nat) : List ℚ :=
  splineData 0 PmeOrder

/-- Row `r` of the recurrence the loop implements, as a function of the array
index `k`: row `0` is the start `1-x, x`, and row `r+1` is what the round
`i = r+2` makes of row `r`. -/
def splineRow (x : ℚ) : Nat → Nat → ℚ
  | 0, k => if k = 0 then 1 - x else if k = 1 then x else 0
  | r + 1, k =>
    if k = 0 then (1 - x) * splineRow x r 0 * (1 / ((r + 2 : Nat) : ℚ))
    else if k < r + 2 then
      ((x + ((r + 2 - k : Nat) : ℚ)) * splineRow x r (k - 1) +
        (((k + 1 : Nat) : ℚ) - x) * splineRow x r k) * (1 / ((r + 2 : Nat) : ℚ))
    else if k = r + 2 then x * splineRow x r (r + 1) * (1 / ((r + 2 : Nat) : ℚ))
    else 0

/-! ## Indices used by the B-spline modulus builder (source lines 1136-1167) -/

/-- The indices of the stores `bsplines_data[i] = data[i-2]` of lines 1138-1139,
`i = 2 .. PmeOrder+1`, in loop order. -/
def bsplinesStoreIndices (PmeOrder : Nat) : List Int :=
  (List.range' 2 PmeOrder).map (fun (i : Nat) => (i : Int))

/-- The indices of the reads `bsplines_data[j]` of lines 1152-1153 for one axis
of `ndata` points: `j = 1 .. ndata` for every `i = 0 .. ndata-1`. -/
def bsplinesReadIndices (ndata : Nat) : List Int :=
  ((List.range ndata).map
    (fun (_ : Nat) => (List.range' 1 ndata).map (fun (j : Nat) => (j : Int)))).flatten

/-- The indices of the stores `moduli[i] = sc*sc+ss*ss` of line 1155,
`i = 0 .. ndata-1`. -/
def moduliStoreIndices (ndata : Nat) : List Int :=
  (List.range ndata).map (fun (i : Nat) => (i : Int))

/-- Whether the index `i` lies inside a vector of the given length. -/
def inBounds (length : Nat) (i : Int) : Bool :=
  decide (0 ≤ i ∧ i < (length : Int))

/-- The local `maxSize` of line 1136. -/
def maxGridSize (gridSizeX gridSizeY gridSizeZ : Nat) : Nat :=
  max (max gridSizeX gridSizeY) gridSizeZ

/-- Whether lines 1137-1167 stay inside `bsplines_data` and `moduli` on one
axis of `ndata` points: the reads of `bsplines_data`, the stores to `moduli`,
and the reads and stores of the near-zero pass. -/
def axisInBounds (cos sin : ℚ → ℚ) (pi : ℚ) (bsplines_data : List ℚ) (ndata : Nat) : Bool :=
  (bsplinesReadIndices ndata).all (inBounds bsplines_data.length) &&
  (moduliStoreIndices ndata).all (inBounds ndata) &&
  (substituteNearZero (transformModuli cos sin pi bsplines_data ndata)).isSome

/-- Whether every index lines 1136-1167 use on `bsplines_data` (of length
`maxSize+1`) and on `moduli` (of length `ndata`) lies inside the vector, for
the three axes. -/
def moduliBuilderInBounds (cos sin : ℚ → ℚ) (pi : ℚ) (data : List ℚ) (PmeOrder : Nat)
    (gridSizeX gridSizeY gridSizeZ : Nat) : Bool :=
  (bsplinesStoreIndices PmeOrder).all
      (inBounds (maxGridSize gridSizeX gridSizeY gridSizeZ + 1)) &&
  [gridSizeX, gridSizeY, gridSizeZ].all
    (axisInBounds cos sin pi
      (bsplinesData (maxGridSize gridSizeX gridSizeY gridSizeZ) PmeOrder data))

/-! ## Covalent and polarization flags (source lines 960-988, 1226-1282)

`CudaContext::TileSize` and `CudaNonbondedUtilities::findExclusionIndex` are
defined outside the file and are parameters; the latter is taken with the two
downloaded index arrays already supplied. -/

/-- The kinds of covalent map `initialize` asks the force for. -/
inductive CovalentType
  | Covalent12
  | Covalent13
  | Covalent14
  | Covalent15
  | PolarizationCovalent11
  deriving DecidableEq, Repr

/-- An `int3` value: an entry `(atom1, atom2, value)` of `covalentFlagValues`. -/
structure Int3 where
  x : Int
  y : Int
  z : Int
  deriving DecidableEq, Repr

/-- An `int2` value: an entry `(atom1, atom2)` of `polarizationFlagValues`. -/
structure Int2 where
  x : Int
  y : Int
  deriving DecidableEq, Repr

/-- A `uint2` value: the two flag words of a row of `covalentFlagsVec`. -/
structure Uint2 where
  x : Nat
  y : Nat
  deriving DecidableEq, Repr

/-- The entries one round `i` of the loop of lines 964-988 appends to
`covalentFlagValues`: value `0` for the elements of the `set<int>` holding `i`
and its `Covalent12` and `Covalent13` atoms (in increasing order, each once),
value `1` for the `Covalent14` atoms and value `2` for the `Covalent15` atoms
(in the order of the maps). -/
def covalentFlagValuesFor (getCovalentMap : Nat → CovalentType → List Int) (i : Nat) :
    List Int3 :=
  (Finset.sort (fun a b => a ≤ b)
      (insert (i : Int)
        ((getCovalentMap i CovalentType.Covalent12).toFinset ∪
          (getCovalentMap i CovalentType.Covalent13).toFinset))).map
    (fun a => { x := (i : Int), y := a, z := 0 }) ++
  (getCovalentMap i CovalentType.Covalent14).map (fun a => { x := (i : Int), y := a, z := 1 }) ++
  (getCovalentMap i CovalentType.Covalent15).map (fun a => { x := (i : Int), y := a, z := 2 })

/-- The member `covalentFlagValues` after the loop of lines 964-988. -/
def covalentFlagValues (getCovalentMap : Nat → CovalentType → List Int)
    (numMultipoles : Nat) : List Int3 :=
  ((List.range numMultipoles).map (covalentFlagValuesFor getCovalentMap)).flatten

/-- The member `polarizationFlagValues` after the loop of lines 964-988: for
each `i` an entry per atom of its `PolarizationCovalent11` map. -/
def polarizationFlagValues (getCovalentMap : Nat → CovalentType → List Int)
    (numMultipoles : Nat) : List Int2 :=
  ((List.range numMultipoles).map
    (fun (i : Nat) =>
      (getCovalentMap i CovalentType.PolarizationCovalent11).map
        (fun a => ({ x := (i : Int), y := a } : Int2)))).flatten

/-- The statement `word |= f << shift` on a 32-bit unsigned `word`. -/
def orShifted (word f : Nat) (shift : Int) : Nat :=
  (word ||| (f <<< shift.toNat)) % 2 ^ 32

/-- The body of the loop of lines 1238-1257 for one entry of
`covalentFlagValues`; the vector is given as the map from index to row. -/
def covalentFlagStep (TileSize : Int) (findExclusionIndex : Int → Int → Int)
    (covalentFlagsVec : Int → Uint2) (entry : Int3) : Int → Uint2 :=
  let atom1 := entry.x
  let atom2 := entry.y
  let value := entry.z
  let x := atom1.tdiv TileSize
  let offset1 := atom1 - x * TileSize
  let y := atom2.tdiv TileSize
  let offset2 := atom2 - y * TileSize
  let f1 : Nat := if value = 0 ∨ value = 1 then 1 else 0
  let f2 : Nat := if value = 0 ∨ value = 2 then 1 else 0
  if x > y then
    let index := findExclusionIndex x y
    Function.update covalentFlagsVec (index + offset1)
      { x := orShifted (covalentFlagsVec (index + offset1)).x f1 offset2,
        y := orShifted (covalentFlagsVec (index + offset1)).y f2 offset2 }
  else
    let index := findExclusionIndex y x
    Function.update covalentFlagsVec (index + offset2)
      { x := orShifted (covalentFlagsVec (index + offset2)).x f1 offset1,
        y := orShifted (covalentFlagsVec (index + offset2)).y f2 offset1 }

/-- The vector `covalentFlagsVec` uploaded at line 1258: all rows `(0, 0)`,
then the loop over `covalentFlagValues`. -/
def covalentFlagsVec (TileSize : Int) (findExclusionIndex : Int → Int → Int)
    (values : List Int3) : Int → Uint2 :=
  values.foldl (covalentFlagStep TileSize findExclusionIndex) (fun _ => { x := 0, y := 0 })

/-- The body of the loop of lines 1264-1279 for one entry of
`polarizationFlagValues`. -/
def polarizationFlagStep (TileSize : Int) (findExclusionIndex : Int → Int → Int)
    (polarizationGroupFlagsVec : Int → Nat) (entry : Int2) : Int → Nat :=
  let atom1 := entry.x
  let atom2 := entry.y
  let x := atom1.tdiv TileSize
  let offset1 := atom1 - x * TileSize
  let y := atom2.tdiv TileSize
  let offset2 := atom2 - y * TileSize
  if x > y then
    let index := findExclusionIndex x y
    Function.update polarizationGroupFlagsVec (index + offset1)
      (orShifted (polarizationGroupFlagsVec (index + offset1)) 1 offset2)
  else
    let index := findExclusionIndex y x
    Function.update polarizationGroupFlagsVec (index + offset2)
      (orShifted (polarizationGroupFlagsVec (index + offset2)) 1 offset1)

/-- The vector `polarizationGroupFlagsVec` uploaded at line 1280. -/
def polarizationGroupFlagsVec (TileSize : Int) (findExclusionIndex : Int → Int → Int)
    (values : List Int2) : Int → Nat :=
  values.foldl (polarizationFlagStep TileSize findExclusionIndex) (fun _ => 0)

/-- Stated from the description of the flags: the row of the pair
`(atom1, atom2)`, in the exclusion tile of (larger tile index, smaller tile
index), at the offset of the atom in the larger tile (of `atom2` when both are
in the same tile). -/
def flagRow (TileSize : Int) (findExclusionIndex : Int → Int → Int) (atom1 atom2 : Int) : Int :=
  findExclusionIndex (max (atom1.tdiv TileSize) (atom2.tdiv TileSize))
      (min (atom1.tdiv TileSize) (atom2.tdiv TileSize)) +
    (if atom1.tdiv TileSize > atom2.tdiv TileSize then atom1 - atom1.tdiv TileSize * TileSize
     else atom2 - atom2.tdiv TileSize * TileSize)

/-- Stated from the description of the flags: the bit of the pair
`(atom1, atom2)` within its row, the offset of the other atom. -/
def flagBit (TileSize : Int) (atom1 atom2 : Int) : Nat :=
  (if atom1.tdiv TileSize > atom2.tdiv TileSize then atom2 - atom2.tdiv TileSize * TileSize
   else atom1 - atom1.tdiv TileSize * TileSize).toNat

/-- A small set of covalent maps on three atoms: atom 0 is bonded to atom 1,
atom 2 is a 1-4 partner of atom 0 and a 1-5 partner of atom 1, and atoms 0 and
1 form a polarization group. -/
def sampleCovalentMap (i : Nat) (t : CovalentType) : List Int :=
  match i, t with
  | 0, CovalentType.Covalent12 => [1]
  | 1, CovalentType.Covalent12 => [0]
  | 0, CovalentType.Covalent14 => [2]
  | 2, CovalentType.Covalent14 => [0]
  | 1, CovalentType.Covalent15 => [2]
  | 2, CovalentType.Covalent15 => [1]
  | 0, CovalentType.PolarizationCovalent11 => [1]
  | 1, CovalentType.PolarizationCovalent11 => [0]
  | _, _ => []

/-- A tile index function for the examples: the tile `(x, y)` with `y ≤ x`
starts at row `32` times its number in the row-major order of the lower
triangle. -/
def sampleExclusionIndex (x y : Int) : Int :=
  32 * (x * (x + 1) / 2 + y)

/-- Covalent maps in which atom 1 is listed both as a 1-4 and as a 1-5 partner
of atom 0, and atom 2 is in the polarization group of atom 33 while atom 33 is
not in that of atom 2. -/
def overlappingCovalentMap (i : Nat) (t : CovalentType) : List Int :=
  match i, t with
  | 0, CovalentType.Covalent14 => [1]
  | 0, CovalentType.Covalent15 => [1]
  | 33, CovalentType.PolarizationCovalent11 => [2]
  | _, _ => []

/-! ## The device behind the events of `execute`

The device kernels that `execute` launches are not among the sources of this
file; only their launches are.  What follows models them from the
specification, as far as two calls of `execute` in a row need it: a launch is a
deterministic function of the contents of the buffers it reads. -/

/-- Modelled from the spec: the buffers no kernel of `execute` writes.  The
device kernels are missing from the sources; the specification calls the atom
multipole records "immutable once force is initialized", the position and
charge buffer "read each step; updated externally between steps", the
neighbor-tile list and exclusion index "consumed read-only", the exclusion and
scaling flags "derived once ... and cached for the lifetime of the force
object", and the B-spline moduli a "one-time precomputation". -/
def inputBuffers : List Arg :=
  [Arg.posq, Arg.multipoleParticles, Arg.molecularDipoles, Arg.molecularQuadrupoles,
   Arg.dampingAndThole, Arg.polarizability, Arg.covalentFlags, Arg.polarizationGroupFlags,
   Arg.exclusionIndices, Arg.exclusionRowIndices, Arg.startTileIndex, Arg.numTileIndices,
   Arg.interactingTiles, Arg.interactionCount, Arg.interactionFlags, Arg.maxTiles,
   Arg.periodicBoxSize, Arg.invPeriodicBoxSize,
   Arg.pmeBsplineModuliX, Arg.pmeBsplineModuliY, Arg.pmeBsplineModuliZ]

/-- Modelled from the spec: the buffers a kernel computes afresh, without
reading what they held before.  The device kernels are missing from the
sources; the specification has the lab-frame moments "recomputed every force
evaluation", the induced dipoles seeded "from polarizability x fixed field" and
"overwritten each SCF solve", the spline weights and grid-cell assignment
computed per atom by the spline update, the potentials obtained by
interpolating the grid, and a per-block error produced by the update of each
iteration. -/
def Kernel.overwrites : Kernel → List Arg
  | Kernel.computeLabFrameMoments => [Arg.labFrameDipoles, Arg.labFrameQuadrupoles]
  | Kernel.recordInducedDipoles => [Arg.inducedDipole, Arg.inducedDipolePolar]
  | Kernel.updateBsplines =>
    [Arg.pmeIgrid, Arg.pmeAtomGridIndex, Arg.pmeTheta1, Arg.pmeTheta2, Arg.pmeTheta3]
  | Kernel.findAtomRangeForGrid => [Arg.pmeAtomRange]
  | Kernel.computeFixedPotentialFromGrid => [Arg.pmePhi]
  | Kernel.computeInducedPotentialFromGrid => [Arg.pmePhid, Arg.pmePhip, Arg.pmePhidp]
  | Kernel.updateInducedFieldBySOR => [Arg.inducedDipoleErrors]
  | _ => []

/-- Modelled from the spec: a device, for buffer contents of type `V`.  The
device code is missing from the sources.  `launch k args b view` is the content
of buffer `b` after a launch of kernel `k` on the argument list `args`, given
the contents `view` of the buffers the kernel reads; `transform` is the in-place
FFT, `sort` the sort, `scaleFactors` the tables `initializeScaleFactors`
uploads, and `errors` the host's view of a downloaded `inducedDipoleErrors`. -/
structure Device (V : Type) where
  zero : V
  launch : Kernel → List Arg → Arg → (Arg → V) → V
  transform : Bool → FFTDirection → V → V
  sort : V → V
  scaleFactors : Arg → V
  errors : V → List (ℚ × ℚ)

/-- Modelled from the spec: the effect of one event of `execute` on the device
state.  A launch may change every argument that is not an input buffer, to a
value that depends only on the arguments it does not overwrite; a clear zeroes
its buffer; a download changes nothing. -/
def applyEvent {V : Type} (d : Device V) (s : Arg → V) : Event → Arg → V
  | Event.initializeScaleFactors => fun b =>
    if b = Arg.covalentFlags ∨ b = Arg.polarizationGroupFlags then d.scaleFactors b else s b
  | Event.executeKernel kernel args => fun b =>
    if b ∈ args ∧ b ∉ inputBuffers then
      d.launch kernel args b (fun a => if a ∈ args ∧ a ∉ kernel.overwrites then s a else d.zero)
    else s b
  | Event.clearBuffer buffer => fun b => if b = buffer then d.zero else s b
  | Event.sort data => fun b => if b = data then d.sort (s b) else s b
  | Event.cufftExec doublePrecision direction => fun b =>
    if b = Arg.pmeGrid then d.transform doublePrecision direction (s b) else s b
  | Event.download _ => s

/-- The device state after a sequence of events. -/
def runEvents {V : Type} (d : Device V) (s : Arg → V) (events : List Event) : Arg → V :=
  events.foldl (applyEvent d) s

/-- Modelled from the spec: the buffers the context clears before every force
evaluation.  The context is missing from the sources; `initialize` registers
`field`, `fieldPolar` and `torque` with `cu.addAutoclearBuffer` at lines
957-959 and, with PME, `pmeGrid` at line 1103, and the specification has the
grid buffer and the field accumulation buffers "exclusively owned by the
current evaluation" and "explicitly cleared"; the force and energy buffers of
the context are taken to be cleared with them. -/
def autoclearBuffers (k : MultipoleKernel) : List Arg :=
  [Arg.force, Arg.energyBuffer, Arg.field, Arg.fieldPolar, Arg.torque] ++
    (if k.pmeGrid.isNone then [] else [Arg.pmeGrid])

/-- The device state as the context hands it to `execute`: the autoclear
buffers zeroed, everything else as it was left. -/
def autoclear {V : Type} (d : Device V) (k : MultipoleKernel) (s : Arg → V) : Arg → V :=
  fun b => if b ∈ autoclearBuffers k then d.zero else s b

/-- The events `execute` issues before its loop. -/
def eventsBeforeLoop (k : MultipoleKernel) (doublePrecision : Bool) : List Event :=
  momentsEvents k ++
    (if k.pmeGrid.isNone then fixedFieldEvents else pmeFixedFieldEvents doublePrecision)

/-- The body of the loop of `execute` in the branch of the kernel object. -/
def loopBody (k : MultipoleKernel) (doublePrecision : Bool) : List Event :=
  if k.pmeGrid.isNone then inducedBody else pmeInducedBody doublePrecision

/-- What `execute` reads from outside the kernel object when it runs on the
device `d` from state `s`: the errors downloaded in iteration `i` are the
host's view of `inducedDipoleErrors` after the events before the loop and
`i+1` rounds of the loop body, the download being the last event of a round. -/
def deviceInput {V : Type} (d : Device V) (k : MultipoleKernel) (doublePrecision : Bool)
    (numAtoms : Int) (sqrt : ℚ → ℚ) (s : Arg → V) : ExecuteInput :=
  { useDoublePrecision := doublePrecision, numAtoms := numAtoms, sqrt := sqrt,
    errors := fun i =>
      d.errors ((runEvents d s
        (eventsBeforeLoop k doublePrecision ++
          (List.replicate (i + 1) (loopBody k doublePrecision)).flatten))
        Arg.inducedDipoleErrors) }

/-- One call of `execute` on a device: what `execute` does, and the device
state afterwards. -/
structure DeviceCall (V : Type) where
  result : ExecuteResult
  state : Arg → V

/-- A force evaluation on the device `d` from the state `s` the previous
evaluation left: the context clears the autoclear buffers, then `execute`
runs, its loop driven by the errors the device yields. -/
def executeOnDevice {V : Type} (d : Device V) (k : MultipoleKernel) (doublePrecision : Bool)
    (numAtoms : Int) (sqrt : ℚ → ℚ) (s : Arg → V) : DeviceCall V :=
  { result := execute k (deviceInput d k doublePrecision numAtoms sqrt (autoclear d k s)),
    state := runEvents d (autoclear d k s)
      (execute k (deviceInput d k doublePrecision numAtoms sqrt (autoclear d k s))).events }

/-- The evaluation that follows `executeOnDevice d k ... s` with nothing
changed in between: it starts from the kernel object and the device state the
first one left. -/
def executeAgainOnDevice {V : Type} (d : Device V) (k : MultipoleKernel)
    (doublePrecision : Bool) (numAtoms : Int) (sqrt : ℚ → ℚ) (s : Arg → V) : DeviceCall V :=
  executeOnDevice d (executeOnDevice d k doublePrecision numAtoms sqrt s).result.kernel
    doublePrecision numAtoms sqrt (executeOnDevice d k doublePrecision numAtoms sqrt s).state

/-- The buffers whose contents an event depends on: the arguments of a launch
that the kernel does not overwrite, the data of a sort, the grid of a
transform, the buffer of a download. -/
def Event.reads : Event → List Arg
  | Event.initializeScaleFactors => []
  | Event.executeKernel kernel args => args.filter (fun a => decide (a ∉ kernel.overwrites))
  | Event.clearBuffer _ => []
  | Event.sort data => [data]
  | Event.cufftExec _ _ => [Arg.pmeGrid]
  | Event.download buffer => [buffer]

/-- Two device states hold the same contents in the buffers of `agreed`. -/
def AgreeOn {V : Type} (agreed : List Arg) (s s' : Arg → V) : Prop :=
  ∀ b ∈ agreed, s b = s' b

/-- Two runs of the same events, from the states `s` and `s'`, feed every event
the same inputs: each event in turn finds the same contents in the buffers it
reads. -/
def SameInputs {V : Type} (d : Device V) : (Arg → V) → (Arg → V) → List Event → Prop
  | _, _, [] => True
  | s, s', e :: events =>
    (∀ a ∈ e.reads, s a = s' a) ∧ SameInputs d (applyEvent d s e) (applyEvent d s' e) events

/-- The buffers certain to hold equal contents in two device states after an
event that read equal contents in both, when the buffers of `agreed` held equal
contents before it: the buffers the event may write join them. -/
def agreeStep (agreed : List Arg) : Event → List Arg
  | Event.initializeScaleFactors => Arg.covalentFlags :: Arg.polarizationGroupFlags :: agreed
  | Event.executeKernel _ args => args.filter (fun b => decide (b ∉ inputBuffers)) ++ agreed
  | Event.clearBuffer buffer => buffer :: agreed
  | Event.sort _ => agreed
  | Event.cufftExec _ _ => agreed
  | Event.download _ => agreed

/-- The buffers certain to agree after a sequence of events. -/
def agreeRun (agreed : List Arg) (events : List Event) : List Arg :=
  events.foldl agreeStep agreed

/-- Whether every event of a sequence reads only buffers that are certain to
agree when it runs, starting from agreement on `agreed`. -/
def inputsAgree : List Arg → List Event → Bool
  | _, [] => true
  | agreed, e :: events =>
    e.reads.all (fun a => decide (a ∈ agreed)) && inputsAgree (agreeStep agreed e) events

/-- Whether an event leaves the input buffers alone. -/
def Event.keepsInputs : Event → Bool
  | Event.initializeScaleFactors => false
  | Event.executeKernel _ _ => true
  | Event.clearBuffer buffer => decide (buffer ∉ inputBuffers)
  | Event.sort data => decide (data ∉ inputBuffers)
  | Event.cufftExec _ _ => true
  | Event.download _ => true

/-- The buffers that hold the results of a force evaluation: force, energy and
torque, and the induced dipoles. -/
def resultBuffers : List Arg :=
  [Arg.force, Arg.energyBuffer, Arg.torque, Arg.inducedDipole, Arg.inducedDipolePolar]

/-- The launch of `computeLabFrameMoments` (lines 1290-1294). -/
def labFrameMomentsEvent : Event :=
  Event.executeKernel Kernel.computeLabFrameMoments
    [Arg.posq, Arg.multipoleParticles, Arg.molecularDipoles, Arg.molecularQuadrupoles,
     Arg.labFrameDipoles, Arg.labFrameQuadrupoles]

/-- The check that an evaluation made of the events `pre`, any number of rounds
of `body`, and the events `post` depends only on the buffers of `agreed`:
every event reads agreed buffers, a round of the body keeps the buffers agreed
that were so before the loop and makes `inducedDipoleErrors` agree, and the
result buffers are agreed at the end. -/
def stagesAgree (agreed : List Arg) (pre body post : List Event) : Bool :=
  inputsAgree agreed pre &&
  inputsAgree (agreeRun agreed pre) body &&
  (agreeRun agreed pre).all (fun b => decide (b ∈ agreeRun (agreeRun agreed pre) body)) &&
  decide (Arg.inducedDipoleErrors ∈ agreeRun (agreeRun agreed pre) body) &&
  inputsAgree (agreeRun agreed pre) post &&
  resultBuffers.all (fun b => decide (b ∈ agreeRun (agreeRun agreed pre) post))

/-- The events `execute` issues after its loop. -/
def eventsAfterLoop (k : MultipoleKernel) : List Event :=
  if k.pmeGrid.isNone then forceEvents else pmeForceEvents

/-- A device whose buffers hold counters: a launch leaves in every buffer it
writes one more than the sum of what it read. -/
def countingDevice : Device Nat :=
  { zero := 0,
    launch := fun _ args _ view => (args.map view).sum + 1,
    transform := fun _ _ v => v + 1,
    sort := fun v => v,
    scaleFactors := fun _ => 1,
    errors := fun v => [((v : ℚ), 0)] }

/-- A kernel object set up for direct polarization without PME: the loop of
`execute` does not run. -/
def directKernel : MultipoleKernel :=
  { maxInducedIterations := 0, inducedEpsilon := 1/100, hasInitializedScaleFactors := false,
    hasInitializedFFT := false, pmeGrid := none }
/-! ## Theorems -/

/-- Inner loop of `findFFTDimension`: started on a positive value with enough
rounds, it strips a power of `factor` and stops at `1` or at a value `factor`
does not divide. -/
theorem divideOut_spec (factor : Int) (hf : 2 ≤ factor) :
    ∀ (fuel : Nat) (u : Int), 1 ≤ u → u.toNat ≤ fuel →
      1 ≤ divideOut factor fuel u ∧ (∃ k : Nat, u = divideOut factor fuel u * factor ^ k) ∧
        (divideOut factor fuel u = 1 ∨ ¬ factor ∣ divideOut factor fuel u) := by
  intro fuel
  induction fuel with
  | zero =>
    intro u hu hfuel
    omega
  | succ fuel ih =>
    intro u hu hfuel
    unfold divideOut
    by_cases hc : u > 1 ∧ u.tmod factor = 0
    · rw [if_pos hc]
      obtain ⟨hu1, hmod⟩ := hc
      rw [Int.tmod_eq_emod (by omega) (by omega)] at hmod
      rw [Int.tdiv_eq_ediv (by omega) (by omega)]
      have hdvd : factor ∣ u := Int.dvd_of_emod_eq_zero hmod
      obtain ⟨c, hc⟩ := hdvd
      have hq : u / factor = c := by
        rw [hc]; exact Int.mul_ediv_cancel_left c (by omega)
      have hcpos : 1 ≤ c := by
        by_contra hneg
        have : c ≤ 0 := by omega
        have : factor * c ≤ 0 := Int.mul_nonpos_of_nonneg_of_nonpos (by omega) this
        omega
      have hclt : c < u := by nlinarith
      rw [hq]
      obtain ⟨h1, ⟨k, hk⟩, h3⟩ := ih c hcpos (by omega)
      refine ⟨h1, ⟨k + 1, ?_⟩, h3⟩
      rw [hc, pow_succ]
      calc factor * c = factor * (divideOut factor fuel c * factor ^ k) := by rw [← hk]
        _ = divideOut factor fuel c * (factor ^ k * factor) := by ring
    · rw [if_neg hc]
      refine ⟨hu, ⟨0, by simp⟩, ?_⟩
      by_cases h1 : u = 1
      · exact Or.inl h1
      · right
        intro hdvd
        apply hc
        refine ⟨by omega, ?_⟩
        rw [Int.tmod_eq_emod (by omega) (by omega)]
        exact Int.emod_eq_zero_of_dvd hdvd


/-- The `for (factor ...)` loop over any list of factors `≥ 2`, started on a
positive value: the remainder divides the start value, every prime of the start
value divides the remainder or one of the factors, and the remainder is `1` or
divisible by none of the factors. -/
theorem foldl_divideOut_spec (fs : List Int) (hfs : ∀ f ∈ fs, 2 ≤ f) :
    ∀ m : Int, 1 ≤ m →
      1 ≤ fs.foldl (fun u f => divideOut f u.toNat u) m ∧
      fs.foldl (fun u f => divideOut f u.toNat u) m ∣ m ∧
      (∀ p : Nat, p.Prime → (p : Int) ∣ m →
        (p : Int) ∣ fs.foldl (fun u f => divideOut f u.toNat u) m ∨ ∃ f ∈ fs, (p : Int) ∣ f) ∧
      (fs.foldl (fun u f => divideOut f u.toNat u) m = 1 ∨
        ∀ f ∈ fs, ¬ f ∣ fs.foldl (fun u f => divideOut f u.toNat u) m) := by
  induction fs with
  | nil =>
    intro m hm
    simp only [List.foldl_nil]
    exact ⟨hm, dvd_refl m, fun p _ hp => Or.inl hp, Or.inr (by simp)⟩
  | cons f fs ih =>
    intro m hm
    simp only [List.foldl_cons]
    have hf : 2 ≤ f := hfs f (List.mem_cons_self f fs)
    obtain ⟨h1, ⟨k, hk⟩, h3⟩ := divideOut_spec f hf m.toNat m hm le_rfl
    obtain ⟨r1, r2, r3, r4⟩ := ih (fun g hg => hfs g (List.mem_cons_of_mem f hg))
      (divideOut f m.toNat m) h1
    have hdvd : divideOut f m.toNat m ∣ m := ⟨f ^ k, hk⟩
    refine ⟨r1, dvd_trans r2 hdvd, ?_, ?_⟩
    · intro p hp hpm
      rw [hk] at hpm
      have hpp : Prime (p : Int) := Nat.prime_iff_prime_int.mp hp
      rcases hpp.dvd_mul.mp hpm with h | h
      · rcases r3 p hp h with h' | ⟨g, hg, hpg⟩
        · exact Or.inl h'
        · exact Or.inr ⟨g, List.mem_cons_of_mem f hg, hpg⟩
      · exact Or.inr ⟨f, List.mem_cons_self f fs, hpp.dvd_of_dvd_pow h⟩
    · rcases h3 with h | h
      · left
        rw [h] at r2 r1 ⊢
        have := Int.le_of_dvd (by norm_num) r2
        omega
      · rcases r4 with h' | h'
        · exact Or.inl h'
        · right
          intro g hg
          rcases List.mem_cons.mp hg with rfl | hg'
          · exact fun hgr => h (dvd_trans hgr r2)
          · exact h' g hg'

/-- One factoring attempt leaves exactly `1` iff the value factors only into
2, 3, 5 and 7. -/
theorem unfactoredPart_eq_one_iff (m : Int) (hm : 1 ≤ m) :
    unfactoredPart m = 1 ↔ OnlyFactors2357 m := by
  have hfs : ∀ f ∈ ([2, 3, 4, 5, 6, 7] : List Int), 2 ≤ f := by
    intro f hf
    simp only [List.mem_cons, List.mem_singleton, List.not_mem_nil, or_false] at hf
    omega
  obtain ⟨h1, h2, h3, h4⟩ := foldl_divideOut_spec _ hfs m hm
  change 1 ≤ unfactoredPart m at h1
  change unfactoredPart m ∣ m at h2
  change ∀ p : Nat, p.Prime → (p : Int) ∣ m →
      (p : Int) ∣ unfactoredPart m ∨ ∃ f ∈ ([2, 3, 4, 5, 6, 7] : List Int), (p : Int) ∣ f at h3
  change unfactoredPart m = 1 ∨
      ∀ f ∈ ([2, 3, 4, 5, 6, 7] : List Int), ¬ f ∣ unfactoredPart m at h4
  constructor
  · intro h
    refine ⟨hm, ?_⟩
    intro p hp hpm
    rcases h3 p hp hpm with hp1 | ⟨f, hf, hpf⟩
    · rw [h] at hp1
      have : p ∣ 1 := by exact_mod_cast hp1
      exact absurd (Nat.dvd_one.mp this) hp.one_lt.ne'
    · simp only [List.mem_cons, List.mem_singleton, List.not_mem_nil, or_false] at hf
      have key : ∀ n : Nat, 0 < n → n ≤ 7 → (p : Int) ∣ (n : Int) →
          p = 2 ∨ p = 3 ∨ p = 5 ∨ p = 7 := by
        intro n hn0 hn hpn
        have hpn' : p ∣ n := Int.natCast_dvd_natCast.mp hpn
        have hle : p ≤ n := Nat.le_of_dvd hn0 hpn'
        have hp2 := hp.two_le
        have hp7 : p ≤ 7 := le_trans hle hn
        interval_cases p <;> first | omega | (exfalso; revert hp; norm_num)
      rcases hf with rfl | rfl | rfl | rfl | rfl | rfl
      · exact key 2 (by norm_num) (by norm_num) (by exact_mod_cast hpf)
      · exact key 3 (by norm_num) (by norm_num) (by exact_mod_cast hpf)
      · exact key 4 (by norm_num) (by norm_num) (by exact_mod_cast hpf)
      · exact key 5 (by norm_num) (by norm_num) (by exact_mod_cast hpf)
      · exact key 6 (by norm_num) (by norm_num) (by exact_mod_cast hpf)
      · exact key 7 (by norm_num) (by norm_num) (by exact_mod_cast hpf)
  · intro hs
    rcases h4 with h | h
    · exact h
    · by_contra hne1
      have hne : (unfactoredPart m).toNat ≠ 1 := by omega
      obtain ⟨p, hp, hpr⟩ := Nat.exists_prime_and_dvd hne
      have hpr' : (p : Int) ∣ unfactoredPart m := by
        have : ((unfactoredPart m).toNat : Int) = unfactoredPart m :=
          Int.toNat_of_nonneg (by omega)
        rw [← this]
        exact Int.natCast_dvd_natCast.mpr hpr
      have hpm : (p : Int) ∣ m := dvd_trans hpr' h2
      rcases hs.2 p hp hpm with rfl | rfl | rfl | rfl
      · exact h 2 (by simp) (by exact_mod_cast hpr')
      · exact h 3 (by simp) (by exact_mod_cast hpr')
      · exact h 5 (by simp) (by exact_mod_cast hpr')
      · exact h 7 (by simp) (by exact_mod_cast hpr')


/-- The search loop returns the first value at or above its start that factors
only into 2, 3, 5 and 7, provided such a value lies within reach of the rounds
it is given. -/
theorem findFFTDimensionLoop_spec :
    ∀ (fuel : Nat) (m N : Int), 1 ≤ m → m ≤ N → OnlyFactors2357 N → (N - m).toNat < fuel →
      ∃ n, findFFTDimensionLoop fuel m = some n ∧ m ≤ n ∧ n ≤ N ∧ OnlyFactors2357 n ∧
        ∀ k, m ≤ k → OnlyFactors2357 k → n ≤ k := by
  intro fuel
  induction fuel with
  | zero => intro m N _ _ _ h; omega
  | succ fuel ih =>
    intro m N hm hmN hN hfuel
    unfold findFFTDimensionLoop
    by_cases hc : unfactoredPart m = 1
    · rw [if_pos hc]
      exact ⟨m, rfl, le_rfl, hmN, (unfactoredPart_eq_one_iff m hm).mp hc, fun k hk _ => hk⟩
    · rw [if_neg hc]
      have hns : ¬ OnlyFactors2357 m := fun h => hc ((unfactoredPart_eq_one_iff m hm).mpr h)
      have hne : m ≠ N := fun h => hns (h ▸ hN)
      obtain ⟨n, h1, h2, h3, h4, h5⟩ := ih (m + 1) N (by omega) (by omega) hN (by omega)
      refine ⟨n, h1, by omega, h3, h4, ?_⟩
      intro k hk hks
      have : k ≠ m := fun h => hns (h ▸ hks)
      exact h5 k (by omega) hks

/-- Powers of two factor only into 2, 3, 5 and 7. -/
theorem onlyFactors2357_two_pow (k : Nat) : OnlyFactors2357 ((2 : Int) ^ k) := by
  refine ⟨one_le_pow₀ (by norm_num), ?_⟩
  intro p hp hdvd
  have hpp : Prime (p : Int) := Nat.prime_iff_prime_int.mp hp
  have h2 : (p : Int) ∣ 2 := hpp.dvd_of_dvd_pow hdvd
  have h2' : p ∣ 2 := by exact_mod_cast h2
  left
  exact (Nat.prime_dvd_prime_iff_eq hp Nat.prime_two).mp h2'

/-- Every positive integer has a power of two between itself and its double. -/
theorem exists_two_pow_between (m : Int) (hm : 1 ≤ m) :
    ∃ k : Nat, m ≤ (2 : Int) ^ k ∧ (2 : Int) ^ k < 2 * m := by
  obtain ⟨n, rfl⟩ : ∃ n : Nat, m = (n : Int) := ⟨m.toNat, (Int.toNat_of_nonneg (by omega)).symm⟩
  have hn : n ≠ 0 := by omega
  have hlo : 2 ^ Nat.log 2 n ≤ n := Nat.pow_log_le_self 2 hn
  have hhi : n < 2 ^ (Nat.log 2 n + 1) := Nat.lt_pow_succ_log_self (by norm_num) n
  by_cases heq : 2 ^ Nat.log 2 n = n
  · refine ⟨Nat.log 2 n, ?_, ?_⟩
    · exact_mod_cast heq.ge
    · have : 2 ^ Nat.log 2 n < 2 * n := by omega
      exact_mod_cast this
  · refine ⟨Nat.log 2 n + 1, ?_, ?_⟩
    · exact_mod_cast hhi.le
    · have : 2 ^ (Nat.log 2 n + 1) < 2 * n := by
        rw [pow_succ]
        have : 2 ^ Nat.log 2 n < n := lt_of_le_of_ne hlo heq
        omega
      exact_mod_cast this

/-- Rounds are never exhausted: with at least `minimum` rounds the search loop
returns, and the value returned does not depend on how many more it is given. -/
theorem findFFTDimensionLoop_enough (minimum : Int) (h : 1 ≤ minimum) (fuel : Nat)
    (hfuel : minimum.toNat ≤ fuel) :
    findFFTDimensionLoop fuel minimum = findFFTDimension minimum ∧
      ∃ n, findFFTDimensionLoop fuel minimum = some n := by
  obtain ⟨k, hk1, hk2⟩ := exists_two_pow_between minimum h
  obtain ⟨n, h1, h2, _, h4, h5⟩ := findFFTDimensionLoop_spec fuel minimum (2 ^ k) h hk1
    (onlyFactors2357_two_pow k) (by omega)
  obtain ⟨n', h1', h2', _, h4', h5'⟩ := findFFTDimensionLoop_spec minimum.toNat minimum (2 ^ k)
    h hk1 (onlyFactors2357_two_pow k) (by omega)
  have hn : n = n' := le_antisymm (h5 n' h2' h4') (h5' n h2 h4)
  refine ⟨?_, n, h1⟩
  unfold findFFTDimension
  rw [if_neg (by omega), h1, h1', hn]

/-- On a 32-bit `int` the search stays in range for every `minimum` up to
`2144153025 = 3^6 * 5^2 * 7^6`: the result, and with it every value the loop
visits on the way, is at most that value, so `minimum++` does not overflow. -/
theorem findFFTDimension_int32 (minimum : Int) (h1 : 1 ≤ minimum)
    (h2 : minimum ≤ 2144153025) :
    ∃ n, findFFTDimension minimum = some n ∧ minimum ≤ n ∧ n ≤ 2144153025 ∧
      2144153025 < (2 : Int) ^ 31 := by
  have hM : OnlyFactors2357 2144153025 :=
    (unfactoredPart_eq_one_iff 2144153025 (by norm_num)).mp (by decide)
  obtain ⟨k, hk1, hk2⟩ := exists_two_pow_between minimum h1
  obtain ⟨n, hn, hmn, _, _, hleast⟩ := findFFTDimensionLoop_spec minimum.toNat minimum (2 ^ k)
    h1 hk1 (onlyFactors2357_two_pow k) (by omega)
  refine ⟨n, ?_, hmn, hleast 2144153025 h2 hM, by norm_num⟩
  unfold findFFTDimension
  rw [if_neg (by omega), hn]

/-- Over unbounded integers: for every integer `minimum ≥ 1`,
`findFFTDimension minimum` returns the smallest integer `n ≥ minimum` all of
whose prime factors lie in `{2, 3, 5, 7}`. -/
theorem findFFTDimension_least (minimum : Int) (h : 1 ≤ minimum) :
    ∃ n, findFFTDimension minimum = some n ∧ minimum ≤ n ∧ OnlyFactors2357 n ∧
      ∀ k, minimum ≤ k → OnlyFactors2357 k → n ≤ k := by
  obtain ⟨k, hk1, hk2⟩ := exists_two_pow_between minimum h
  obtain ⟨n, h1, h2, _, h4, h5⟩ := findFFTDimensionLoop_spec minimum.toNat minimum (2 ^ k) h hk1
    (onlyFactors2357_two_pow k) (by omega)
  refine ⟨n, ?_, h2, h4, h5⟩
  unfold findFFTDimension
  rw [if_neg (by omega), h1]

/-- The unbounded search at `minimum = 11`. -/
theorem findFFTDimension_least_witness :
    (1 : Int) ≤ 11 ∧ ∃ n, findFFTDimension 11 = some n ∧ (11 : Int) ≤ n ∧ OnlyFactors2357 n ∧
      ∀ k, (11 : Int) ≤ k → OnlyFactors2357 k → n ≤ k :=
  ⟨by decide, findFFTDimension_least 11 (by decide)⟩


/-! ## `findFFTDimension` on a 32-bit `int` -/

/-- A value in the range of a 32-bit `int` is held unchanged. -/
theorem wrapInt32_of_range (x : Int) (h1 : -2147483648 ≤ x) (h2 : x < 2147483648) :
    wrapInt32 x = x := by
  unfold wrapInt32
  omega

/-- As long as a value with factors in `{2, 3, 5, 7}` lies ahead below `2^31`, the
32-bit search loop does what the search loop over unbounded integers does. -/
theorem findFFTDimensionLoop32_eq :
    ∀ (fuel : Nat) (m N : Int), 1 ≤ m → m ≤ N → N < 2147483648 → OnlyFactors2357 N →
      findFFTDimensionLoop32 fuel m = findFFTDimensionLoop fuel m := by
  intro fuel
  induction fuel with
  | zero => intro m N _ _ _ _; rfl
  | succ fuel ih =>
    intro m N hm hmN hN hsmooth
    unfold findFFTDimensionLoop32 findFFTDimensionLoop
    by_cases hc : unfactoredPart m = 1
    · rw [if_pos hc, if_pos hc]
    · rw [if_neg hc, if_neg hc]
      have hns : ¬ OnlyFactors2357 m := fun h => hc ((unfactoredPart_eq_one_iff m hm).mpr h)
      have hne : m ≠ N := fun h => hns (h ▸ hsmooth)
      rw [wrapInt32_of_range (m + 1) (by omega) (by omega)]
      exact ih (m + 1) N (by omega) (by omega) hN hsmooth

/-- A value of at most `1` is its own unfactored part: the inner loops do not run. -/
theorem unfactoredPart_of_le_one (m : Int) (h : m ≤ 1) : unfactoredPart m = m := by
  unfold unfactoredPart
  have hstep : ∀ f : Int, divideOut f m.toNat m = m := by
    intro f
    by_cases h0 : m ≤ 0
    · have : m.toNat = 0 := Int.toNat_eq_zero.mpr h0
      rw [this]
      rfl
    · have h1 : m = 1 := by omega
      subst h1
      unfold divideOut
      simp [divideOut]
  simp only [List.foldl_cons, List.foldl_nil, hstep]

/-- Started on a value of at most `1`, the 32-bit search loop counts up to `1`
and returns it. -/
theorem findFFTDimensionLoop32_to_one :
    ∀ (fuel : Nat) (m : Int), -2147483648 ≤ m → m ≤ 1 → (1 - m).toNat < fuel →
      findFFTDimensionLoop32 fuel m = some 1 := by
  intro fuel
  induction fuel with
  | zero => intro m _ _ h; omega
  | succ fuel ih =>
    intro m h1 h2 hfuel
    unfold findFFTDimensionLoop32
    rw [unfactoredPart_of_le_one m h2]
    by_cases hm : m = 1
    · rw [if_pos hm, hm]
    · rw [if_neg hm, wrapInt32_of_range (m + 1) (by omega) (by omega)]
      exact ih (m + 1) (by omega) (by omega) (by omega)

/-- C1 (as stated) fails on the 32-bit `int` of the source: for
`minimum = 2147483647`, a prime, the first round does not return, `minimum++`
wraps to `-2^31`, and the loop then counts up to `1` and returns it: a value
below `minimum`. -/
theorem findFFTDimension32_overflow :
    findFFTDimension32 2147483647 = some 1 ∧ (1 : Int) < 2147483647 ∧
      unfactoredPart 2147483647 ≠ 1 ∧ wrapInt32 (2147483647 + 1) = -2147483648 := by
  have hu : unfactoredPart 2147483647 ≠ 1 := by decide
  have hw : wrapInt32 (2147483647 + 1) = -2147483648 := by decide
  refine ⟨?_, by decide, hu, hw⟩
  unfold findFFTDimension32
  rw [if_neg (by decide)]
  have hfuel : (4294967296 : Nat) = 4294967295 + 1 := by norm_num
  rw [hfuel]
  unfold findFFTDimensionLoop32
  rw [if_neg hu, hw]
  exact findFFTDimensionLoop32_to_one 4294967295 (-2147483648) (by decide) (by decide)
    (by decide)

/-- C1 (amended): for every integer `minimum` with `1 ≤ minimum ≤ 2144153025`
(`= 3^6 * 5^2 * 7^6`), `findFFTDimension` on a 32-bit `int` returns the smallest
integer `n ≥ minimum` all of whose prime factors lie in `{2, 3, 5, 7}`; no value
the loop visits leaves the range of `int`. -/
theorem findFFTDimension32_least (minimum : Int) (h1 : 1 ≤ minimum)
    (h2 : minimum ≤ 2144153025) :
    ∃ n, findFFTDimension32 minimum = some n ∧ minimum ≤ n ∧ n ≤ 2144153025 ∧
      OnlyFactors2357 n ∧ ∀ k, minimum ≤ k → OnlyFactors2357 k → n ≤ k := by
  have hM : OnlyFactors2357 2144153025 :=
    (unfactoredPart_eq_one_iff 2144153025 (by norm_num)).mp (by decide)
  obtain ⟨n, hn, hmn, hnM, hsm, hleast⟩ := findFFTDimensionLoop_spec 4294967296 minimum
    2144153025 h1 h2 hM (by omega)
  refine ⟨n, ?_, hmn, hnM, hsm, hleast⟩
  unfold findFFTDimension32
  rw [if_neg (by omega),
    findFFTDimensionLoop32_eq 4294967296 minimum 2144153025 h1 h2 (by norm_num) hM, hn]

/-- Witness for C1 (amended) at `minimum = 11`. -/
theorem findFFTDimension32_least_witness :
    (1 : Int) ≤ 11 ∧ (11 : Int) ≤ 2144153025 ∧
    ∃ n, findFFTDimension32 11 = some n ∧ (11 : Int) ≤ n ∧ n ≤ 2144153025 ∧
      OnlyFactors2357 n ∧ ∀ k, (11 : Int) ≤ k → OnlyFactors2357 k → n ≤ k :=
  ⟨by decide, by decide, findFFTDimension32_least 11 (by decide) (by decide)⟩

/-! ### Grid selection at set-up -/

/-- The value `1` has no prime factor. -/
theorem onlyFactors2357_one : OnlyFactors2357 1 := by
  refine ⟨le_rfl, ?_⟩
  intro p hp hdvd
  have : p ∣ 1 := by exact_mod_cast hdvd
  exact absurd (Nat.dvd_one.mp this) hp.one_lt.ne'

/-- For every input `findFFTDimension` returns, and what it returns factors only
into 2, 3, 5 and 7. -/
theorem findFFTDimension_returns (minimum : Int) :
    ∃ n, findFFTDimension minimum = some n ∧ OnlyFactors2357 n := by
  by_cases h : minimum < 1
  · exact ⟨1, by unfold findFFTDimension; rw [if_pos h], onlyFactors2357_one⟩
  · have h1 : 1 ≤ minimum := by omega
    obtain ⟨k, hk1, hk2⟩ := exists_two_pow_between minimum h1
    obtain ⟨n, hn, _, _, h4, _⟩ := findFFTDimensionLoop_spec minimum.toNat minimum (2 ^ k) h1 hk1
      (onlyFactors2357_two_pow k) (by omega)
    exact ⟨n, by unfold findFFTDimension; rw [if_neg h, hn], h4⟩

/-- Lines 1017-1024: when selection is requested, the settings are those of
`calcPMEParameters` with each size passed through `findFFTDimension`. -/
theorem selectPmeSettings_auto (env : SetupEnvironment) (force : AmoebaMultipoleForce)
    (h : force.pmeGridDimension.1 = 0 ∨ force.aEwald = 0) :
    ∃ x y z,
      findFFTDimension (env.calcPMEParameters force.ewaldErrorTolerance force.cutoffDistance).xsize
        = some x ∧
      findFFTDimension (env.calcPMEParameters force.ewaldErrorTolerance force.cutoffDistance).ysize
        = some y ∧
      findFFTDimension (env.calcPMEParameters force.ewaldErrorTolerance force.cutoffDistance).zsize
        = some z ∧
      OnlyFactors2357 x ∧ OnlyFactors2357 y ∧ OnlyFactors2357 z ∧
      selectPmeSettings env force = some
        { alpha := (env.calcPMEParameters force.ewaldErrorTolerance force.cutoffDistance).alpha,
          gridSizeX := x, gridSizeY := y, gridSizeZ := z } := by
  obtain ⟨x, hx, sx⟩ := findFFTDimension_returns
    (env.calcPMEParameters force.ewaldErrorTolerance force.cutoffDistance).xsize
  obtain ⟨y, hy, sy⟩ := findFFTDimension_returns
    (env.calcPMEParameters force.ewaldErrorTolerance force.cutoffDistance).ysize
  obtain ⟨z, hz, sz⟩ := findFFTDimension_returns
    (env.calcPMEParameters force.ewaldErrorTolerance force.cutoffDistance).zsize
  refine ⟨x, y, z, hx, hy, hz, sx, sy, sz, ?_⟩
  unfold selectPmeSettings
  rw [if_pos h]
  simp only [hx, hy, hz]

/-- Lines 1025-1029: otherwise the supplied values are used as they are. -/
theorem selectPmeSettings_explicit (env : SetupEnvironment) (force : AmoebaMultipoleForce)
    (h : ¬ (force.pmeGridDimension.1 = 0 ∨ force.aEwald = 0)) :
    selectPmeSettings env force = some
      { alpha := force.aEwald, gridSizeX := force.pmeGridDimension.1,
        gridSizeY := force.pmeGridDimension.2.1, gridSizeZ := force.pmeGridDimension.2.2 } := by
  unfold selectPmeSettings
  rw [if_neg h]

/-- With PME the set-up returns, and the kernel object it leaves holds the
selected settings in `pmeGrid` and the recorded polarization options. -/
theorem initializeMultipoleForce_pme (env : SetupEnvironment) (force : AmoebaMultipoleForce)
    (k : MultipoleKernel) (hpme : force.nonbondedMethod = NonbondedMethod.PME) :
    ∃ r s, initializeMultipoleForce env force k = some r ∧ selectPmeSettings env force = some s ∧
      r.kernel.pmeGrid = some s ∧
      r.kernel.maxInducedIterations = (recordPolarizationOptions force k).maxInducedIterations := by
  have hs : ∃ s, selectPmeSettings env force = some s := by
    by_cases h : force.pmeGridDimension.1 = 0 ∨ force.aEwald = 0
    · obtain ⟨x, y, z, _, _, _, _, _, _, hsel⟩ := selectPmeSettings_auto env force h
      exact ⟨_, hsel⟩
    · exact ⟨_, selectPmeSettings_explicit env force h⟩
  obtain ⟨s, hs⟩ := hs
  unfold initializeMultipoleForce
  simp only [hpme, if_true, hs]
  by_cases hc : env.cufftPlan3d s.gridSizeX s.gridSizeY s.gridSizeZ env.useDoublePrecision
      ≠ CUFFT_SUCCESS
  · rw [if_pos hc]
    exact ⟨_, s, rfl, rfl, rfl, rfl⟩
  · rw [if_neg hc]
    exact ⟨_, s, rfl, rfl, rfl, rfl⟩

/-- Without PME the set-up returns the kernel object with the recorded
polarization options and no PME grid allocated by it. -/
theorem initializeMultipoleForce_noPme (env : SetupEnvironment) (force : AmoebaMultipoleForce)
    (k : MultipoleKernel) (hpme : force.nonbondedMethod ≠ NonbondedMethod.PME) :
    initializeMultipoleForce env force k =
      some { kernel := recordPolarizationOptions force k, exception := none } := by
  unfold initializeMultipoleForce
  simp only [hpme, if_false]

/-- The loop `for (i = 0; i < maxInducedIterations; i++) { body; if (test) break; }`:
its iteration count, the events it issues, and how the test decides its exit. -/
theorem inducedLoop_spec (body : List Event) (test : Nat → Bool) :
    ∀ (remaining i0 : Nat),
      (inducedLoop body test remaining i0).iterations ≤ remaining ∧
      (inducedLoop body test remaining i0).events =
        (List.replicate (inducedLoop body test remaining i0).iterations body).flatten ∧
      (∀ j, j + 1 < (inducedLoop body test remaining i0).iterations → test (i0 + j) = false) ∧
      ((inducedLoop body test remaining i0).exitedByBreak = true →
        0 < (inducedLoop body test remaining i0).iterations ∧
        test (i0 + ((inducedLoop body test remaining i0).iterations - 1)) = true) ∧
      ((inducedLoop body test remaining i0).exitedByBreak = false →
        (inducedLoop body test remaining i0).iterations = remaining ∧
        ∀ j, j < remaining → test (i0 + j) = false) := by
  intro remaining
  induction remaining with
  | zero =>
    intro i0
    simp [inducedLoop]
  | succ remaining ih =>
    intro i0
    unfold inducedLoop
    by_cases ht : test i0 = true
    · simp only [ht, if_true]
      refine ⟨by omega, by simp, ?_, ?_, ?_⟩
      · intro j hj; omega
      · intro _; exact ⟨by omega, by simpa using ht⟩
      · intro h; simp at h
    · simp only [ht]
      obtain ⟨h1, h2, h3, h4, h5⟩ := ih (i0 + 1)
      have htf : test i0 = false := by simpa using ht
      refine ⟨by simpa using h1, ?_, ?_, ?_, ?_⟩
      · simp only [Bool.false_eq_true, if_false, List.replicate_succ, List.flatten_cons]
        rw [← h2]
      · intro j hj
        simp only [Bool.false_eq_true, if_false] at hj
        cases j with
        | zero => simpa using htf
        | succ j =>
          have := h3 j (by omega)
          rw [show i0 + (j + 1) = i0 + 1 + j by omega]
          exact this
      · intro hb
        simp only [Bool.false_eq_true, if_false] at hb ⊢
        obtain ⟨hpos, htest⟩ := h4 hb
        refine ⟨by omega, ?_⟩
        rw [show i0 + ((inducedLoop body test remaining (i0 + 1)).iterations + 1 - 1) =
          i0 + 1 + ((inducedLoop body test remaining (i0 + 1)).iterations - 1) by omega]
        exact htest
      · intro hb
        simp only [Bool.false_eq_true, if_false] at hb ⊢
        obtain ⟨hit, hall⟩ := h5 hb
        refine ⟨by omega, ?_⟩
        intro j hj
        cases j with
        | zero => simpa using htf
        | succ j =>
          have := hall j (by omega)
          rw [show i0 + (j + 1) = i0 + 1 + j by omega]
          exact this

/-- The test of lines 1332/1458 as a proposition, for a non-zero atom count. -/
theorem convergenceTest_iff (input : ExecuteInput) (inducedEpsilon : ℚ) (i : Nat)
    (hatoms : input.numAtoms ≠ 0) :
    convergenceTest input inducedEpsilon i = true ↔
      48.033324 * input.sqrt (max (total1 input i) (total2 input i) / (input.numAtoms : ℚ))
        < inducedEpsilon := by
  unfold convergenceTest
  rw [if_neg hatoms]
  exact decide_eq_true_iff

/-- When the test of lines 1332/1458 succeeds, the comparison holds. -/
theorem convergenceTest_imp (input : ExecuteInput) (inducedEpsilon : ℚ) (i : Nat)
    (h : convergenceTest input inducedEpsilon i = true) :
    48.033324 * input.sqrt (max (total1 input i) (total2 input i) / (input.numAtoms : ℚ))
      < inducedEpsilon := by
  unfold convergenceTest at h
  by_cases hatoms : input.numAtoms = 0
  · rw [if_pos hatoms] at h
    exact absurd h Bool.false_ne_true
  · rw [if_neg hatoms] at h
    exact decide_eq_true_iff.mp h

/-- With an atom count of zero the test of lines 1332/1458 never succeeds. -/
theorem convergenceTest_no_atoms (input : ExecuteInput) (inducedEpsilon : ℚ) (i : Nat)
    (hatoms : input.numAtoms = 0) : convergenceTest input inducedEpsilon i = false := by
  unfold convergenceTest
  rw [if_pos hatoms]

/-- The loop of lines 1327-1331 / 1453-1457 adds up the primary components of
the downloaded errors. -/
theorem total1_eq (input : ExecuteInput) (i : Nat) :
    total1 input i = ((input.errors i).map Prod.fst).sum := by
  unfold total1
  have h : ∀ (l : List (ℚ × ℚ)) (init : ℚ),
      l.foldl (fun total e => total + e.1) init = init + (l.map Prod.fst).sum := by
    intro l
    induction l with
    | nil => intro init; simp
    | cons a l ih =>
      intro init
      rw [List.foldl_cons, ih, List.map_cons, List.sum_cons]
      ring
  rw [h, zero_add]

/-- The loop of lines 1327-1331 / 1453-1457 adds up the polar components of the
downloaded errors. -/
theorem total2_eq (input : ExecuteInput) (i : Nat) :
    total2 input i = ((input.errors i).map Prod.snd).sum := by
  unfold total2
  have h : ∀ (l : List (ℚ × ℚ)) (init : ℚ),
      l.foldl (fun total e => total + e.2) init = init + (l.map Prod.snd).sum := by
    intro l
    induction l with
    | nil => intro init; simp
    | cons a l ih =>
      intro init
      rw [List.foldl_cons, ih, List.map_cons, List.sum_cons]
      ring
  rw [h, zero_add]

/-- Launches of one kernel in a repeated body. -/
theorem countP_flatten_replicate (p : Event → Bool) (body : List Event) (n : Nat) :
    (List.replicate n body).flatten.countP p = n * body.countP p := by
  induction n with
  | zero => simp
  | succ n ih =>
    rw [List.replicate_succ, List.flatten_cons, List.countP_append, ih]
    ring

/-- The events of `execute` in terms of the run of its loop. -/
theorem execute_events (k : MultipoleKernel) (input : ExecuteInput) :
    (execute k input).events =
      momentsEvents k ++
      (if k.pmeGrid.isNone then
        fixedFieldEvents ++
          (List.replicate (execute k input).loop.iterations inducedBody).flatten ++ forceEvents
       else
        pmeFixedFieldEvents input.useDoublePrecision ++
          (List.replicate (execute k input).loop.iterations
            (pmeInducedBody input.useDoublePrecision)).flatten ++ pmeForceEvents) := by
  unfold execute scfLoop
  by_cases hp : k.pmeGrid.isNone = true
  · simp only [hp, if_true]
    rw [← (inducedLoop_spec _ _ _ _).2.1]
  · have hp2 : k.pmeGrid.isNone = false := Bool.eq_false_iff.mpr hp
    simp only [hp2, Bool.false_eq_true, if_false]
    rw [← (inducedLoop_spec _ _ _ _).2.1]

/-- The iteration count of the loop is the number of `updateInducedFieldBySOR`
launches among the events of `execute`. -/
theorem execute_iterationsRun (k : MultipoleKernel) (input : ExecuteInput) :
    scfIterationsRun (execute k input).events = (execute k input).loop.iterations := by
  rw [execute_events]
  unfold scfIterationsRun momentsEvents
  by_cases hp : k.pmeGrid.isNone = true
  · simp only [hp, if_true, List.countP_append, countP_flatten_replicate]
    cases k.hasInitializedScaleFactors <;>
      simp [fixedFieldEvents, inducedBody, forceEvents, Event.launches, List.countP_cons]
  · have hp2 : k.pmeGrid.isNone = false := Bool.eq_false_iff.mpr hp
    simp only [hp2, Bool.false_eq_true, if_false, List.countP_append, countP_flatten_replicate]
    cases k.hasInitializedScaleFactors <;>
      simp [pmeFixedFieldEvents, pmeInducedBody, pmeForceEvents, Event.launches,
        List.countP_cons]

/-- C4: for a positive atom count, in both branches of `execute` the loop is
left through its `break` right after the update of iteration `i` if and only if
`48.033324 * sqrt(max(total1, total2) / numAtoms) < inducedEpsilon` (strict),
with `total1` and `total2` the sums, over all blocks, of the primary and of the
polar components of the errors downloaded in that iteration. -/
theorem scf_break_iff (k : MultipoleKernel) (input : ExecuteInput) (i : Nat)
    (hatoms : 0 < input.numAtoms)
    (hrun : i < scfIterationsRun (execute k input).events) :
    ((execute k input).loop.exitedByBreak = true ∧
        scfIterationsRun (execute k input).events = i + 1) ↔
      48.033324 * input.sqrt
          (max ((input.errors i).map Prod.fst).sum ((input.errors i).map Prod.snd).sum /
            (input.numAtoms : ℚ))
        < k.inducedEpsilon := by
  rw [execute_iterationsRun] at hrun ⊢
  rw [← total1_eq, ← total2_eq, ← convergenceTest_iff input k.inducedEpsilon i (by omega)]
  have hloop : (execute k input).loop = scfLoop k input := rfl
  rw [hloop] at hrun ⊢
  unfold scfLoop at hrun ⊢
  obtain ⟨_, _, h3, h4, h5⟩ := inducedLoop_spec
    (if k.pmeGrid.isNone then inducedBody else pmeInducedBody input.useDoublePrecision)
    (convergenceTest input k.inducedEpsilon) k.maxInducedIterations 0
  constructor
  · rintro ⟨hb, hit⟩
    have := (h4 hb).2
    rw [hit] at this
    simpa using this
  · intro ht
    have hlast : ¬ (i + 1 < (inducedLoop
        (if k.pmeGrid.isNone then inducedBody else pmeInducedBody input.useDoublePrecision)
        (convergenceTest input k.inducedEpsilon) k.maxInducedIterations 0).iterations) := by
      intro hlt
      have := h3 i hlt
      rw [Nat.zero_add] at this
      rw [this] at ht
      exact Bool.false_ne_true ht
    refine ⟨?_, by omega⟩
    by_contra hb
    have hb2 := Bool.eq_false_iff.mpr hb
    obtain ⟨hit, hall⟩ := h5 hb2
    have := hall i (by omega)
    rw [Nat.zero_add] at this
    rw [this] at ht
    exact Bool.false_ne_true ht

/-- Witness for C4: two atoms and two blocks of errors.  In the first iteration
only the sum of the two primary errors fails the test, in the second only the
sum of the two polar errors, and the third iteration is left through the
`break`. -/
theorem scf_break_iff_witness :
    0 < twoBlockInput.numAtoms ∧
    2 < scfIterationsRun (execute mutualKernel twoBlockInput).events ∧
    (((execute mutualKernel twoBlockInput).loop.exitedByBreak = true ∧
        scfIterationsRun (execute mutualKernel twoBlockInput).events = 2 + 1) ↔
      48.033324 * twoBlockInput.sqrt
          (max ((twoBlockInput.errors 2).map Prod.fst).sum
              ((twoBlockInput.errors 2).map Prod.snd).sum /
            (twoBlockInput.numAtoms : ℚ))
        < mutualKernel.inducedEpsilon) :=
  ⟨by decide,
    by
      rw [execute_iterationsRun]
      norm_num [execute, scfLoop, inducedLoop, mutualKernel, twoBlockInput, convergenceTest,
        total1, total2],
    scf_break_iff mutualKernel twoBlockInput 2 (by decide) (by
      rw [execute_iterationsRun]
      norm_num [execute, scfLoop, inducedLoop, mutualKernel, twoBlockInput, convergenceTest,
        total1, total2])⟩

/-- With an atom count of zero the loop of `execute` is never left through its
`break`: it runs `maxInducedIterations` times. -/
theorem scf_no_break_without_atoms (k : MultipoleKernel) (input : ExecuteInput)
    (hatoms : input.numAtoms = 0) :
    (execute k input).loop.exitedByBreak = false ∧
    scfIterationsRun (execute k input).events = k.maxInducedIterations := by
  rw [execute_iterationsRun]
  have hloop : (execute k input).loop = scfLoop k input := rfl
  rw [hloop]
  unfold scfLoop
  obtain ⟨_, _, _, h4, h5⟩ := inducedLoop_spec
    (if k.pmeGrid.isNone then inducedBody else pmeInducedBody input.useDoublePrecision)
    (convergenceTest input k.inducedEpsilon) k.maxInducedIterations 0
  have hb : (inducedLoop
      (if k.pmeGrid.isNone then inducedBody else pmeInducedBody input.useDoublePrecision)
      (convergenceTest input k.inducedEpsilon) k.maxInducedIterations 0).exitedByBreak
      = false := by
    apply Bool.eq_false_iff.mpr
    intro hb
    have ht := (h4 hb).2
    rw [convergenceTest_no_atoms input k.inducedEpsilon _ hatoms] at ht
    exact Bool.false_ne_true ht
  exact ⟨hb, (h5 hb).1⟩

/-- C5: the number of iterations `execute` runs is at most `maxInducedIterations`
and `execute` returns `0.0`; when the convergence test never succeeds the number
is exactly `maxInducedIterations`, the loop is not left through the `break`, and
after the last iteration `execute` still launches `computeElectrostatics` on the
induced dipole buffers and ends with `mapTorqueToForce`. -/
theorem scf_iteration_cap (k : MultipoleKernel) (input : ExecuteInput) :
    scfIterationsRun (execute k input).events ≤ k.maxInducedIterations ∧
    (execute k input).returnValue = 0 ∧
    ((∀ i, i < k.maxInducedIterations →
        ¬ (48.033324 * input.sqrt
            (max (total1 input i) (total2 input i) / (input.numAtoms : ℚ)) < k.inducedEpsilon)) →
      scfIterationsRun (execute k input).events = k.maxInducedIterations ∧
      (execute k input).loop.exitedByBreak = false ∧
      ∃ pre args rest,
        (execute k input).events =
          pre ++ Event.executeKernel Kernel.computeElectrostatics args :: rest ∧
        scfIterationsRun pre = k.maxInducedIterations ∧
        (0 < k.maxInducedIterations → ∃ pre0, pre = pre0 ++
          [Event.executeKernel Kernel.updateInducedFieldBySOR updateInducedFieldArgs,
           Event.download Arg.inducedDipoleErrors]) ∧
        Arg.inducedDipole ∈ args ∧ Arg.inducedDipolePolar ∈ args ∧
        rest.getLast? = some (Event.executeKernel Kernel.mapTorqueToForce mapTorqueArgs)) := by
  have hspec := inducedLoop_spec
    (if k.pmeGrid.isNone then inducedBody else pmeInducedBody input.useDoublePrecision)
    (convergenceTest input k.inducedEpsilon) k.maxInducedIterations 0
  have hloop : (execute k input).loop = inducedLoop
    (if k.pmeGrid.isNone then inducedBody else pmeInducedBody input.useDoublePrecision)
    (convergenceTest input k.inducedEpsilon) k.maxInducedIterations 0 := rfl
  obtain ⟨h1, _, _, h4, h5⟩ := hspec
  refine ⟨?_, rfl, ?_⟩
  · rw [execute_iterationsRun, hloop]; exact h1
  · intro hnever
    have hnever' : ∀ i, i < k.maxInducedIterations →
        convergenceTest input k.inducedEpsilon i = false := by
      intro i hi
      exact Bool.eq_false_iff.mpr (fun h => hnever i hi (convergenceTest_imp _ _ _ h))
    have hb : (execute k input).loop.exitedByBreak = false := by
      rw [hloop]
      apply Bool.eq_false_iff.mpr
      intro hbt
      obtain ⟨hpos, ht⟩ := h4 hbt
      rw [Nat.zero_add, hnever' _ (by omega)] at ht
      exact Bool.false_ne_true ht
    have hit : (execute k input).loop.iterations = k.maxInducedIterations := by
      rw [hloop] at hb ⊢
      exact (h5 hb).1
    refine ⟨by rw [execute_iterationsRun, hit], hb, ?_⟩
    have hev := execute_events k input
    rw [hit] at hev
    by_cases hp : k.pmeGrid.isNone = true
    · rw [if_pos hp] at hev
      refine ⟨momentsEvents k ++ fixedFieldEvents ++
          (List.replicate k.maxInducedIterations inducedBody).flatten, electrostaticsArgs,
        [Event.executeKernel Kernel.mapTorqueToForce mapTorqueArgs], ?_, ?_, ?_, ?_, ?_, rfl⟩
      · rw [hev]; simp [forceEvents]
      · unfold scfIterationsRun momentsEvents
        simp only [List.countP_append, countP_flatten_replicate]
        cases k.hasInitializedScaleFactors <;>
          simp [fixedFieldEvents, inducedBody, Event.launches, List.countP_cons]
      · intro hpos
        obtain ⟨m, hm⟩ : ∃ m, k.maxInducedIterations = m + 1 := ⟨k.maxInducedIterations - 1, by omega⟩
        rw [hm, List.replicate_succ', List.flatten_append]
        refine ⟨momentsEvents k ++ fixedFieldEvents ++ (List.replicate m inducedBody).flatten ++
          inducedBody.take 3, ?_⟩
        simp [inducedBody]
      · simp [electrostaticsArgs]
      · simp [electrostaticsArgs]
    · have hp2 : k.pmeGrid.isNone = false := Bool.eq_false_iff.mpr hp
      rw [hp2] at hev
      simp only [Bool.false_eq_true, if_false] at hev
      refine ⟨momentsEvents k ++ pmeFixedFieldEvents input.useDoublePrecision ++
          (List.replicate k.maxInducedIterations
            (pmeInducedBody input.useDoublePrecision)).flatten, pmeElectrostaticsArgs,
        [Event.executeKernel Kernel.computeInducedDipoleForceAndEnergy pmeInducedForceArgs,
         Event.executeKernel Kernel.mapTorqueToForce mapTorqueArgs], ?_, ?_, ?_, ?_, ?_, rfl⟩
      · rw [hev]; simp [pmeForceEvents]
      · unfold scfIterationsRun momentsEvents
        simp only [List.countP_append, countP_flatten_replicate]
        cases k.hasInitializedScaleFactors <;>
          simp [pmeFixedFieldEvents, pmeInducedBody, Event.launches, List.countP_cons]
      · intro hpos
        obtain ⟨m, hm⟩ : ∃ m, k.maxInducedIterations = m + 1 := ⟨k.maxInducedIterations - 1, by omega⟩
        rw [hm, List.replicate_succ', List.flatten_append]
        refine ⟨momentsEvents k ++ pmeFixedFieldEvents input.useDoublePrecision ++
          (List.replicate m (pmeInducedBody input.useDoublePrecision)).flatten ++
          (pmeInducedBody input.useDoublePrecision).take 9, ?_⟩
        simp [pmeInducedBody]
      · simp [pmeElectrostaticsArgs]
      · simp [pmeElectrostaticsArgs]

/-- Witness for C5: under an input whose errors never meet the target, a kernel
with cap 3 runs exactly 3 iterations. -/
theorem scf_iteration_cap_witness :
    (∀ i, i < mutualKernel.maxInducedIterations →
        ¬ (48.033324 * stubbornInput.sqrt
            (max (total1 stubbornInput i) (total2 stubbornInput i) / (stubbornInput.numAtoms : ℚ))
          < mutualKernel.inducedEpsilon)) ∧
    scfIterationsRun (execute mutualKernel stubbornInput).events = 3 :=
  ⟨by intro i _; norm_num [stubbornInput, total1, total2, mutualKernel],
    ((scf_iteration_cap mutualKernel stubbornInput).2.2
      (by intro i _; norm_num [stubbornInput, total1, total2, mutualKernel])).1⟩

/-- The iteration cap and the branch taken are not changed by `execute`. -/
theorem executeAll_preserves (inputs : List ExecuteInput) :
    ∀ k : MultipoleKernel,
      (executeAll k inputs).maxInducedIterations = k.maxInducedIterations ∧
      (executeAll k inputs).pmeGrid = k.pmeGrid := by
  induction inputs with
  | nil => intro k; exact ⟨rfl, rfl⟩
  | cons input inputs ih =>
    intro k
    unfold executeAll
    rw [List.foldl_cons]
    have := ih (execute k input).kernel
    unfold executeAll at this
    rw [this.1, this.2]
    exact ⟨rfl, rfl⟩

/-- The events outside the loop launch neither `computeInducedField` nor
`updateInducedFieldBySOR`. -/
theorem outside_loop_no_scf_launch (initialized doublePrecision : Bool) :
    ∀ e ∈ (if initialized then [] else [Event.initializeScaleFactors]) ++
        [Event.executeKernel Kernel.computeLabFrameMoments
          [Arg.posq, Arg.multipoleParticles, Arg.molecularDipoles, Arg.molecularQuadrupoles,
           Arg.labFrameDipoles, Arg.labFrameQuadrupoles]] ++
        fixedFieldEvents ++ forceEvents ++ pmeFixedFieldEvents doublePrecision ++ pmeForceEvents,
      e.launches Kernel.computeInducedField = false ∧
      e.launches Kernel.updateInducedFieldBySOR = false := by
  have hall : ((if initialized then [] else [Event.initializeScaleFactors]) ++
        [Event.executeKernel Kernel.computeLabFrameMoments
          [Arg.posq, Arg.multipoleParticles, Arg.molecularDipoles, Arg.molecularQuadrupoles,
           Arg.labFrameDipoles, Arg.labFrameQuadrupoles]] ++
        fixedFieldEvents ++ forceEvents ++ pmeFixedFieldEvents doublePrecision ++
        pmeForceEvents).all
      (fun e => !(e.launches Kernel.computeInducedField) &&
        !(e.launches Kernel.updateInducedFieldBySOR)) = true := by
    cases initialized <;> cases doublePrecision <;> decide
  intro e he
  have := List.all_eq_true.mp hall e he
  simpa using this

/-- With an iteration cap of `0`, no event of `execute` launches
`computeInducedField` or `updateInducedFieldBySOR`. -/
theorem execute_no_scf_launch (k : MultipoleKernel) (input : ExecuteInput)
    (h0 : k.maxInducedIterations = 0) :
    ∀ e ∈ (execute k input).events,
      e.launches Kernel.computeInducedField = false ∧
      e.launches Kernel.updateInducedFieldBySOR = false := by
  have hev := execute_events k input
  have hit : (execute k input).loop.iterations = 0 := by
    have hle : (execute k input).loop.iterations ≤ k.maxInducedIterations :=
      (inducedLoop_spec
        (if k.pmeGrid.isNone then inducedBody else pmeInducedBody input.useDoublePrecision)
        (convergenceTest input k.inducedEpsilon) k.maxInducedIterations 0).1
    omega
  rw [hit] at hev
  rw [hev]
  intro e he
  apply outside_loop_no_scf_launch k.hasInitializedScaleFactors input.useDoublePrecision e
  unfold momentsEvents at he
  simp only [List.replicate_zero, List.flatten_nil, List.append_nil, List.mem_append] at he ⊢
  rcases he with he | he
  · rcases he with he | he
    · exact Or.inl (Or.inl (Or.inl (Or.inl (Or.inl he))))
    · exact Or.inl (Or.inl (Or.inl (Or.inl (Or.inr he))))
  · by_cases hp : k.pmeGrid.isNone = true
    · rw [if_pos hp, List.mem_append] at he
      rcases he with he | he
      · exact Or.inl (Or.inl (Or.inl (Or.inr he)))
      · exact Or.inl (Or.inl (Or.inr he))
    · rw [if_neg hp, List.mem_append] at he
      rcases he with he | he
      · exact Or.inl (Or.inr he)
      · exact Or.inr he

/-- C6: when the polarization type of the force is not `Mutual`, the set-up
returns with `maxInducedIterations = 0`, and every later `execute`, after any
number of earlier calls and in either branch, issues no launch of
`computeInducedField` or `updateInducedFieldBySOR`. -/
theorem direct_polarization_skips_scf (env : SetupEnvironment) (force : AmoebaMultipoleForce)
    (k0 : MultipoleKernel) (hpol : force.polarizationType ≠ PolarizationType.Mutual) :
    ∃ r, initializeMultipoleForce env force k0 = some r ∧
      r.kernel.maxInducedIterations = 0 ∧
      ∀ (earlier : List ExecuteInput) (input : ExecuteInput),
        ∀ e ∈ (execute (executeAll r.kernel earlier) input).events,
          e.launches Kernel.computeInducedField = false ∧
          e.launches Kernel.updateInducedFieldBySOR = false := by
  have hrec : (recordPolarizationOptions force k0).maxInducedIterations = 0 := by
    unfold recordPolarizationOptions
    rw [if_neg hpol]
  have hex : ∃ r, initializeMultipoleForce env force k0 = some r ∧
      r.kernel.maxInducedIterations = 0 := by
    by_cases hpme : force.nonbondedMethod = NonbondedMethod.PME
    · obtain ⟨r, _, hr, _, _, hm⟩ := initializeMultipoleForce_pme env force k0 hpme
      exact ⟨r, hr, by rw [hm, hrec]⟩
    · exact ⟨_, initializeMultipoleForce_noPme env force k0 hpme, hrec⟩
  obtain ⟨r, hr, hm⟩ := hex
  refine ⟨r, hr, hm, ?_⟩
  intro earlier input
  apply execute_no_scf_launch
  rw [(executeAll_preserves earlier r.kernel).1, hm]

/-- Witness for C6 at a force with direct polarization. -/
theorem direct_polarization_skips_scf_witness :
    directForce.polarizationType ≠ PolarizationType.Mutual ∧
    ∃ r, initializeMultipoleForce plainEnvironment directForce MultipoleKernel.new = some r ∧
      r.kernel.maxInducedIterations = 0 ∧
      ∀ (earlier : List ExecuteInput) (input : ExecuteInput),
        ∀ e ∈ (execute (executeAll r.kernel earlier) input).events,
          e.launches Kernel.computeInducedField = false ∧
          e.launches Kernel.updateInducedFieldBySOR = false :=
  ⟨by decide,
    direct_polarization_skips_scf plainEnvironment directForce MultipoleKernel.new (by decide)⟩

/-! ### `computeSystemMultipoleMoments` -/

/-- The loop of lines 1575-1592 computes the sums of its increments. -/
theorem foldl_momentsStep (p : Nat → Real4) (lab ind : Nat → ℚ) (n : Nat) :
    (List.range n).foldl (momentsStep p lab ind) Moments.zero =
      { totalCharge := ∑ i ∈ Finset.range n, (p i).w,
        xdpl := ∑ i ∈ Finset.range n, ((p i).x*(p i).w + (lab (3*i) + ind (3*i))),
        ydpl := ∑ i ∈ Finset.range n, ((p i).y*(p i).w + (lab (3*i+1) + ind (3*i+1))),
        zdpl := ∑ i ∈ Finset.range n, ((p i).z*(p i).w + (lab (3*i+2) + ind (3*i+2))),
        xxqdp := ∑ i ∈ Finset.range n,
          ((p i).x*(p i).x*(p i).w + 2*(p i).x*(lab (3*i) + ind (3*i))),
        xyqdp := ∑ i ∈ Finset.range n,
          ((p i).x*(p i).y*(p i).w + (p i).x*(lab (3*i+1) + ind (3*i+1)) +
            (p i).y*(lab (3*i) + ind (3*i))),
        xzqdp := ∑ i ∈ Finset.range n,
          ((p i).x*(p i).z*(p i).w + (p i).x*(lab (3*i+2) + ind (3*i+2)) +
            (p i).z*(lab (3*i) + ind (3*i))),
        yxqdp := ∑ i ∈ Finset.range n,
          ((p i).y*(p i).x*(p i).w + (p i).y*(lab (3*i) + ind (3*i)) +
            (p i).x*(lab (3*i+1) + ind (3*i+1))),
        yyqdp := ∑ i ∈ Finset.range n,
          ((p i).y*(p i).y*(p i).w + 2*(p i).y*(lab (3*i+1) + ind (3*i+1))),
        yzqdp := ∑ i ∈ Finset.range n,
          ((p i).y*(p i).z*(p i).w + (p i).y*(lab (3*i+2) + ind (3*i+2)) +
            (p i).z*(lab (3*i+1) + ind (3*i+1))),
        zxqdp := ∑ i ∈ Finset.range n,
          ((p i).z*(p i).x*(p i).w + (p i).z*(lab (3*i) + ind (3*i)) +
            (p i).x*(lab (3*i+2) + ind (3*i+2))),
        zyqdp := ∑ i ∈ Finset.range n,
          ((p i).z*(p i).y*(p i).w + (p i).z*(lab (3*i+1) + ind (3*i+1)) +
            (p i).y*(lab (3*i+2) + ind (3*i+2))),
        zzqdp := ∑ i ∈ Finset.range n,
          ((p i).z*(p i).z*(p i).w + 2*(p i).z*(lab (3*i+2) + ind (3*i+2))) } := by
  induction n with
  | zero => simp [Moments.zero]
  | succ n ih =>
    rw [List.range_succ, List.foldl_append, ih]
    simp only [List.foldl_cons, List.foldl_nil, momentsStep, Finset.sum_range_succ]

/-- The loop of lines 1609-1619 adds three times the sums of the atomic
quadrupole components it reads. -/
theorem foldl_atomicQuadrupoleStep (q : Nat → ℚ) (m : Moments) (n : Nat) :
    (List.range n).foldl (atomicQuadrupoleStep q) m =
      { m with
        xxqdp := m.xxqdp + 3 * ∑ i ∈ Finset.range n, q (5*i),
        xyqdp := m.xyqdp + 3 * ∑ i ∈ Finset.range n, q (5*i+1),
        xzqdp := m.xzqdp + 3 * ∑ i ∈ Finset.range n, q (5*i+2),
        yxqdp := m.yxqdp + 3 * ∑ i ∈ Finset.range n, q (5*i+1),
        yyqdp := m.yyqdp + 3 * ∑ i ∈ Finset.range n, q (5*i+3),
        yzqdp := m.yzqdp + 3 * ∑ i ∈ Finset.range n, q (5*i+4),
        zxqdp := m.zxqdp + 3 * ∑ i ∈ Finset.range n, q (5*i+2),
        zyqdp := m.zyqdp + 3 * ∑ i ∈ Finset.range n, q (5*i+4),
        zzqdp := m.zzqdp +
          -3 * (∑ i ∈ Finset.range n, q (5*i) + ∑ i ∈ Finset.range n, q (5*i+3)) } := by
  induction n with
  | zero => simp
  | succ n ih =>
    rw [List.range_succ, List.foldl_append, ih]
    simp only [List.foldl_cons, List.foldl_nil, atomicQuadrupoleStep, Finset.sum_range_succ]
    congr 1 <;> ring

/-- The trace of the quadrupole accumulators vanishes after the conversion of
lines 1596-1605 and the loop of lines 1609-1619. -/
theorem momentsOfLocal_trace (n : Nat) (p : Nat → Real4) (lab ind q : Nat → ℚ) :
    (momentsOfLocal n p lab ind q).xxqdp + (momentsOfLocal n p lab ind q).yyqdp +
      (momentsOfLocal n p lab ind q).zzqdp = 0 := by
  unfold momentsOfLocal
  rw [foldl_atomicQuadrupoleStep]
  simp only [tracelessForm]
  norm_num
  ring

/-- C7: for every system state, the quadrupole returned by
`computeSystemMultipoleMoments` is traceless in exact arithmetic:
`outputMultipoleMoments[4] + outputMultipoleMoments[8] + outputMultipoleMoments[12] = 0`. -/
theorem systemQuadrupole_traceless (s : MomentsInput) (origin : Vec3) :
    (computeSystemMultipoleMoments s origin).getD 4 0 +
      (computeSystemMultipoleMoments s origin).getD 8 0 +
      (computeSystemMultipoleMoments s origin).getD 12 0 = 0 := by
  have h := momentsOfLocal_trace s.numAtoms (posqLocal s) s.labDipoleVec s.inducedDipoleVec
    s.quadrupoleVec
  unfold computeSystemMultipoleMoments outputMoments
  simp only [List.getD_cons_succ, List.getD_cons_zero]
  rw [← add_mul, ← add_mul, h, zero_mul]

/-- The loop of lines 1534-1542 computes the total mass and the mass-weighted
position sums. -/
theorem massSums_eq (s : MomentsInput) :
    massSums s =
      { totalMass := ∑ i ∈ Finset.range s.numAtoms, atomMass s i,
        centerOfMass :=
          { x := ∑ i ∈ Finset.range s.numAtoms, atomMass s i * (s.posq i).x,
            y := ∑ i ∈ Finset.range s.numAtoms, atomMass s i * (s.posq i).y,
            z := ∑ i ∈ Finset.range s.numAtoms, atomMass s i * (s.posq i).z } } := by
  unfold massSums
  induction s.numAtoms with
  | zero => simp
  | succ n ih =>
    rw [List.range_succ, List.foldl_append, ih]
    simp only [List.foldl_cons, List.foldl_nil, massStep, Finset.sum_range_succ]

/-- The mass sums of a translated system: the total mass is unchanged and the
weighted position sum moves by the total mass times the translation. -/
theorem foldl_massStep_translate (s : MomentsInput) (t : Vec3) (n : Nat) :
    (List.range n).foldl (massStep (translatePositions s t))
        { totalMass := 0, centerOfMass := { x := 0, y := 0, z := 0 } } =
      { totalMass :=
          ((List.range n).foldl (massStep s)
            { totalMass := 0, centerOfMass := { x := 0, y := 0, z := 0 } }).totalMass,
        centerOfMass :=
          { x := ((List.range n).foldl (massStep s)
                { totalMass := 0, centerOfMass := { x := 0, y := 0, z := 0 } }).centerOfMass.x +
              t.x * ((List.range n).foldl (massStep s)
                { totalMass := 0, centerOfMass := { x := 0, y := 0, z := 0 } }).totalMass,
            y := ((List.range n).foldl (massStep s)
                { totalMass := 0, centerOfMass := { x := 0, y := 0, z := 0 } }).centerOfMass.y +
              t.y * ((List.range n).foldl (massStep s)
                { totalMass := 0, centerOfMass := { x := 0, y := 0, z := 0 } }).totalMass,
            z := ((List.range n).foldl (massStep s)
                { totalMass := 0, centerOfMass := { x := 0, y := 0, z := 0 } }).centerOfMass.z +
              t.z * ((List.range n).foldl (massStep s)
                { totalMass := 0, centerOfMass := { x := 0, y := 0, z := 0 } }).totalMass } } := by
  induction n with
  | zero => simp
  | succ n ih =>
    rw [List.range_succ, List.foldl_append, List.foldl_append, ih]
    simp only [List.foldl_cons, List.foldl_nil, massStep, translatePositions, atomMass]
    congr 1
    congr 1 <;> ring

/-- With positive total mass the local coordinates do not notice a translation
of all positions. -/
theorem posqLocal_translate (s : MomentsInput) (t : Vec3)
    (hmass : 0 < (massSums s).totalMass) :
    posqLocal (translatePositions s t) = posqLocal s := by
  have hsum : massSums (translatePositions s t) =
      { totalMass := (massSums s).totalMass,
        centerOfMass :=
          { x := (massSums s).centerOfMass.x + t.x * (massSums s).totalMass,
            y := (massSums s).centerOfMass.y + t.y * (massSums s).totalMass,
            z := (massSums s).centerOfMass.z + t.z * (massSums s).totalMass } } := by
    unfold massSums
    exact foldl_massStep_translate s t s.numAtoms
  have hne : (massSums s).totalMass ≠ 0 := ne_of_gt hmass
  funext i
  unfold posqLocal centerOfMass
  rw [hsum]
  simp only [gt_iff_lt, hmass, if_true]
  simp only [translatePositions]
  congr 1
  · field_simp; ring
  · field_simp; ring
  · field_simp; ring

/-- C8 (as stated) fails: a single massless unit charge at the origin has a
vanishing quadrupole, and after a translation by `(1, 0, 0)` it has not. -/
theorem massless_quadrupole_moves :
    (computeSystemMultipoleMoments masslessCharge { x := 0, y := 0, z := 0 }).drop 4 =
      [0, 0, 0, 0, 0, 0, 0, 0, 0] ∧
    (computeSystemMultipoleMoments
        (translatePositions masslessCharge { x := 1, y := 0, z := 0 })
        { x := 0, y := 0, z := 0 }).drop 4 =
      [480321/100000, 0, 0, 0, -480321/200000, 0, 0, 0, -480321/200000] := by
  constructor
  · norm_num [computeSystemMultipoleMoments, outputMoments, momentsOfLocal, masslessCharge,
      posqLocal, centerOfMass, massSums, massStep, atomMass, momentsStep, tracelessForm,
      atomicQuadrupoleStep, Moments.zero, debye, List.range_succ]
  · norm_num [computeSystemMultipoleMoments, outputMoments, momentsOfLocal, translatePositions,
      masslessCharge, posqLocal, centerOfMass, massSums, massStep, atomMass, momentsStep,
      tracelessForm, atomicQuadrupoleStep, Moments.zero, debye, List.range_succ]

/-- C8 (amended): for every system whose total mass is positive and every
constant vector `t`, translating all atom positions by `t` (everything else
unchanged) leaves the nine quadrupole entries returned by
`computeSystemMultipoleMoments` unchanged. -/
theorem quadrupole_translation_invariant (s : MomentsInput) (t origin : Vec3)
    (hmass : 0 < (massSums s).totalMass) :
    (computeSystemMultipoleMoments (translatePositions s t) origin).drop 4 =
      (computeSystemMultipoleMoments s origin).drop 4 := by
  unfold computeSystemMultipoleMoments
  rw [posqLocal_translate s t hmass]
  rfl

/-- Witness for the amended C8 at a system of two unit masses. -/
theorem quadrupole_translation_invariant_witness :
    0 < (massSums twoAtoms).totalMass ∧
    (computeSystemMultipoleMoments (translatePositions twoAtoms { x := 1, y := 2, z := 3 })
        { x := 0, y := 0, z := 0 }).drop 4 =
      (computeSystemMultipoleMoments twoAtoms { x := 0, y := 0, z := 0 }).drop 4 :=
  ⟨by norm_num [massSums, twoAtoms, massStep, atomMass, List.range_succ],
    quadrupole_translation_invariant twoAtoms { x := 1, y := 2, z := 3 } { x := 0, y := 0, z := 0 }
      (by norm_num [massSums, twoAtoms, massStep, atomMass, List.range_succ])⟩


/-- The nine traced second moments, written with the increments of the loop of
lines 1583-1591. -/
theorem tracedQuadrupole_eq (s : MomentsInput) :
    tracedQuadrupole s 0 0 = ∑ i ∈ Finset.range s.numAtoms,
      ((posqLocal s i).x*(posqLocal s i).x*(posqLocal s i).w +
        2*(posqLocal s i).x*(s.labDipoleVec (3*i) + s.inducedDipoleVec (3*i))) ∧
    tracedQuadrupole s 0 1 = ∑ i ∈ Finset.range s.numAtoms,
      ((posqLocal s i).x*(posqLocal s i).y*(posqLocal s i).w +
        (posqLocal s i).x*(s.labDipoleVec (3*i+1) + s.inducedDipoleVec (3*i+1)) +
        (posqLocal s i).y*(s.labDipoleVec (3*i) + s.inducedDipoleVec (3*i))) ∧
    tracedQuadrupole s 0 2 = ∑ i ∈ Finset.range s.numAtoms,
      ((posqLocal s i).x*(posqLocal s i).z*(posqLocal s i).w +
        (posqLocal s i).x*(s.labDipoleVec (3*i+2) + s.inducedDipoleVec (3*i+2)) +
        (posqLocal s i).z*(s.labDipoleVec (3*i) + s.inducedDipoleVec (3*i))) ∧
    tracedQuadrupole s 1 0 = ∑ i ∈ Finset.range s.numAtoms,
      ((posqLocal s i).y*(posqLocal s i).x*(posqLocal s i).w +
        (posqLocal s i).y*(s.labDipoleVec (3*i) + s.inducedDipoleVec (3*i)) +
        (posqLocal s i).x*(s.labDipoleVec (3*i+1) + s.inducedDipoleVec (3*i+1))) ∧
    tracedQuadrupole s 1 1 = ∑ i ∈ Finset.range s.numAtoms,
      ((posqLocal s i).y*(posqLocal s i).y*(posqLocal s i).w +
        2*(posqLocal s i).y*(s.labDipoleVec (3*i+1) + s.inducedDipoleVec (3*i+1))) ∧
    tracedQuadrupole s 1 2 = ∑ i ∈ Finset.range s.numAtoms,
      ((posqLocal s i).y*(posqLocal s i).z*(posqLocal s i).w +
        (posqLocal s i).y*(s.labDipoleVec (3*i+2) + s.inducedDipoleVec (3*i+2)) +
        (posqLocal s i).z*(s.labDipoleVec (3*i+1) + s.inducedDipoleVec (3*i+1))) ∧
    tracedQuadrupole s 2 0 = ∑ i ∈ Finset.range s.numAtoms,
      ((posqLocal s i).z*(posqLocal s i).x*(posqLocal s i).w +
        (posqLocal s i).z*(s.labDipoleVec (3*i) + s.inducedDipoleVec (3*i)) +
        (posqLocal s i).x*(s.labDipoleVec (3*i+2) + s.inducedDipoleVec (3*i+2))) ∧
    tracedQuadrupole s 2 1 = ∑ i ∈ Finset.range s.numAtoms,
      ((posqLocal s i).z*(posqLocal s i).y*(posqLocal s i).w +
        (posqLocal s i).z*(s.labDipoleVec (3*i+1) + s.inducedDipoleVec (3*i+1)) +
        (posqLocal s i).y*(s.labDipoleVec (3*i+2) + s.inducedDipoleVec (3*i+2))) ∧
    tracedQuadrupole s 2 2 = ∑ i ∈ Finset.range s.numAtoms,
      ((posqLocal s i).z*(posqLocal s i).z*(posqLocal s i).w +
        2*(posqLocal s i).z*(s.labDipoleVec (3*i+2) + s.inducedDipoleVec (3*i+2))) := by
  have v0 : ((0 : Fin 3) : Nat) = 0 := rfl
  have v1 : ((1 : Fin 3) : Nat) = 1 := rfl
  have v2 : ((2 : Fin 3) : Nat) = 2 := rfl
  refine ⟨?_, ?_, ?_, ?_, ?_, ?_, ?_, ?_, ?_⟩ <;>
    (unfold tracedQuadrupole
     apply Finset.sum_congr rfl
     intro i _
     simp only [Real4.coord, netDipole, posqLocal, v0, v1, v2, Nat.add_zero] <;> ring)

/-- The sums of the atomic quadrupole entries, written with the entries of
`quadrupoleVec` the loop of lines 1609-1619 reads. -/
theorem sum_atomicQuadrupole (s : MomentsInput) :
    ∑ i ∈ Finset.range s.numAtoms, atomicQuadrupole s i 0 0 =
      ∑ i ∈ Finset.range s.numAtoms, s.quadrupoleVec (5*i) ∧
    ∑ i ∈ Finset.range s.numAtoms, atomicQuadrupole s i 0 1 =
      ∑ i ∈ Finset.range s.numAtoms, s.quadrupoleVec (5*i+1) ∧
    ∑ i ∈ Finset.range s.numAtoms, atomicQuadrupole s i 0 2 =
      ∑ i ∈ Finset.range s.numAtoms, s.quadrupoleVec (5*i+2) ∧
    ∑ i ∈ Finset.range s.numAtoms, atomicQuadrupole s i 1 0 =
      ∑ i ∈ Finset.range s.numAtoms, s.quadrupoleVec (5*i+1) ∧
    ∑ i ∈ Finset.range s.numAtoms, atomicQuadrupole s i 1 1 =
      ∑ i ∈ Finset.range s.numAtoms, s.quadrupoleVec (5*i+3) ∧
    ∑ i ∈ Finset.range s.numAtoms, atomicQuadrupole s i 1 2 =
      ∑ i ∈ Finset.range s.numAtoms, s.quadrupoleVec (5*i+4) ∧
    ∑ i ∈ Finset.range s.numAtoms, atomicQuadrupole s i 2 0 =
      ∑ i ∈ Finset.range s.numAtoms, s.quadrupoleVec (5*i+2) ∧
    ∑ i ∈ Finset.range s.numAtoms, atomicQuadrupole s i 2 1 =
      ∑ i ∈ Finset.range s.numAtoms, s.quadrupoleVec (5*i+4) ∧
    ∑ i ∈ Finset.range s.numAtoms, atomicQuadrupole s i 2 2 =
      -(∑ i ∈ Finset.range s.numAtoms, s.quadrupoleVec (5*i) +
        ∑ i ∈ Finset.range s.numAtoms, s.quadrupoleVec (5*i+3)) := by
  refine ⟨rfl, rfl, rfl, rfl, rfl, rfl, rfl, rfl, ?_⟩
  rw [← Finset.sum_add_distrib, ← Finset.sum_neg_distrib]
  rfl

/-- The dipole sums, written with the increments of the loop of lines 1580-1582. -/
theorem dipole_sums_eq (s : MomentsInput) :
    ∑ i ∈ Finset.range s.numAtoms,
        (((s.posq i).x - (centerOfMass s).x) * (s.posq i).w +
          s.labDipoleVec (3*i) + s.inducedDipoleVec (3*i)) =
      ∑ i ∈ Finset.range s.numAtoms, ((posqLocal s i).x*(posqLocal s i).w +
        (s.labDipoleVec (3*i) + s.inducedDipoleVec (3*i))) ∧
    ∑ i ∈ Finset.range s.numAtoms,
        (((s.posq i).y - (centerOfMass s).y) * (s.posq i).w +
          s.labDipoleVec (3*i+1) + s.inducedDipoleVec (3*i+1)) =
      ∑ i ∈ Finset.range s.numAtoms, ((posqLocal s i).y*(posqLocal s i).w +
        (s.labDipoleVec (3*i+1) + s.inducedDipoleVec (3*i+1))) ∧
    ∑ i ∈ Finset.range s.numAtoms,
        (((s.posq i).z - (centerOfMass s).z) * (s.posq i).w +
          s.labDipoleVec (3*i+2) + s.inducedDipoleVec (3*i+2)) =
      ∑ i ∈ Finset.range s.numAtoms, ((posqLocal s i).z*(posqLocal s i).w +
        (s.labDipoleVec (3*i+2) + s.inducedDipoleVec (3*i+2))) := by
  refine ⟨?_, ?_, ?_⟩ <;>
    (apply Finset.sum_congr rfl
     intro i _
     simp only [posqLocal]
     ring)

/-- C9: `computeSystemMultipoleMoments` returns exactly 13 values: the plain sum
of the atomic charges; 4.80321 times the sum over atoms of (position relative to
`centerOfMass`) times charge plus lab-frame dipole plus primary induced dipole,
for x, y and z; and the 3x3 quadrupole in row-major order, each entry multiplied
by 4.80321. -/
theorem systemMultipoleMoments_layout (s : MomentsInput) (origin : Vec3) :
    (computeSystemMultipoleMoments s origin).length = 13 ∧
    computeSystemMultipoleMoments s origin =
      [∑ i ∈ Finset.range s.numAtoms, (s.posq i).w,
       4.80321 * ∑ i ∈ Finset.range s.numAtoms,
         (((s.posq i).x - (centerOfMass s).x) * (s.posq i).w +
           s.labDipoleVec (3*i) + s.inducedDipoleVec (3*i)),
       4.80321 * ∑ i ∈ Finset.range s.numAtoms,
         (((s.posq i).y - (centerOfMass s).y) * (s.posq i).w +
           s.labDipoleVec (3*i+1) + s.inducedDipoleVec (3*i+1)),
       4.80321 * ∑ i ∈ Finset.range s.numAtoms,
         (((s.posq i).z - (centerOfMass s).z) * (s.posq i).w +
           s.labDipoleVec (3*i+2) + s.inducedDipoleVec (3*i+2)),
       4.80321 * systemQuadrupole s 0 0, 4.80321 * systemQuadrupole s 0 1,
       4.80321 * systemQuadrupole s 0 2,
       4.80321 * systemQuadrupole s 1 0, 4.80321 * systemQuadrupole s 1 1,
       4.80321 * systemQuadrupole s 1 2,
       4.80321 * systemQuadrupole s 2 0, 4.80321 * systemQuadrupole s 2 1,
       4.80321 * systemQuadrupole s 2 2] := by
  refine ⟨rfl, ?_⟩
  obtain ⟨t00, t01, t02, t10, t11, t12, t20, t21, t22⟩ := tracedQuadrupole_eq s
  obtain ⟨a00, a01, a02, a10, a11, a12, a20, a21, a22⟩ := sum_atomicQuadrupole s
  obtain ⟨dx, dy, dz⟩ := dipole_sums_eq s
  have e01 : ((0 : Fin 3) = 1) = False := by simp
  have e02 : ((0 : Fin 3) = 2) = False := by simp
  have e10 : ((1 : Fin 3) = 0) = False := by simp
  have e12 : ((1 : Fin 3) = 2) = False := by simp
  have e20 : ((2 : Fin 3) = 0) = False := by simp
  have e21 : ((2 : Fin 3) = 1) = False := by simp
  unfold computeSystemMultipoleMoments outputMoments momentsOfLocal
  rw [foldl_atomicQuadrupoleStep, foldl_momentsStep]
  simp only [tracelessForm, systemQuadrupole, a00, a01, a02, a10, a11, a12, a20, a21, a22,
    dx, dy, dz, e01, e02, e10, e12, e20, e21, if_true, if_false]
  rw [t00, t01, t02, t10, t11, t12, t20, t21, t22]
  simp only [List.cons.injEq, and_true, debye]
  refine ⟨rfl, ?_, ?_, ?_, ?_, ?_, ?_, ?_, ?_, ?_, ?_, ?_, ?_⟩ <;> (norm_num; try ring)

/-! ### B-spline moduli -/

/-- C10 (refuted on the code): on an axis of size 1 the round `i = 1` of the zeta
loop has `k = -1`, so `factor = -M_PI` and the very first divisor
`factor + M_PI*1` of line 1184 is zero: the list of divisors evaluated for the
axis contains `0`, whatever the values of `M_PI` and `PmeOrder`. -/
theorem zeta_divisor_zero_at_size_one (pi : ℚ) (PmeOrder : Nat) :
    zetaWaveNumber 1 1 = -1 ∧
    zetaFactor pi (zetaWaveNumber 1 1) 1 + pi * ((1 : Nat) : ℚ) = 0 ∧
    (0 : ℚ) ∈ moduliDivisors pi PmeOrder 1 := by
  have hk : zetaWaveNumber 1 1 = -1 := by decide
  have hz : zetaFactor pi (zetaWaveNumber 1 1) 1 + pi * ((1 : Nat) : ℚ) = 0 := by
    rw [hk]
    unfold zetaFactor
    push_cast
    ring
  refine ⟨hk, hz, ?_⟩
  unfold moduliDivisors
  apply List.mem_append_right
  have h1 : (List.range' 1 (1 : Int).toNat) = [1] := by decide
  rw [h1]
  simp only [List.map_cons, List.map_nil, List.flatten_cons, List.flatten_nil, List.append_nil,
    Nat.cast_one]
  unfold zetaDivisors
  rw [if_neg (by rw [hk]; decide)]
  apply List.mem_append_left
  apply List.mem_append_left
  apply List.mem_append_right
  refine List.mem_map.mpr ⟨1, by decide, ?_⟩
  exact hz

/-! ### Set-up of the van der Waals kernel -/

/-- The sigma rule has a code exactly for the three supported names. -/
theorem sigmaRuleCode_eq_none_iff (rule : String) :
    sigmaRuleCode rule = none ↔ rule ∉ ["ARITHMETIC", "GEOMETRIC", "CUBIC-MEAN"] := by
  unfold sigmaRuleCode
  simp only [List.mem_cons, List.mem_singleton, List.not_mem_nil, or_false, not_or]
  split_ifs <;> simp_all

/-- The epsilon rule has a code exactly for the four supported names. -/
theorem epsilonRuleCode_eq_none_iff (rule : String) :
    epsilonRuleCode rule = none ↔ rule ∉ ["ARITHMETIC", "GEOMETRIC", "HARMONIC", "HHG"] := by
  unfold epsilonRuleCode
  simp only [List.mem_cons, List.mem_singleton, List.not_mem_nil, or_false, not_or]
  split_ifs <;> simp_all

/-- C12: the set-up of the van der Waals kernel throws if and only if the sigma
rule is not one of ARITHMETIC, GEOMETRIC, CUBIC-MEAN or the epsilon rule is not
one of ARITHMETIC, GEOMETRIC, HARMONIC, HHG (exact match); otherwise
`SIGMA_COMBINING_RULE` is 1, 2, 3 and `EPSILON_COMBINING_RULE` is 1, 2, 3, 4 in
that order of names. -/
theorem vdw_combining_rules (env : VdwEnvironment) (force : AmoebaVdwForce) (k : VdwKernel) :
    ((initializeVdwForce env force k).exception ≠ none ↔
      (force.sigmaCombiningRule ∉ ["ARITHMETIC", "GEOMETRIC", "CUBIC-MEAN"] ∨
        force.epsilonCombiningRule ∉ ["ARITHMETIC", "GEOMETRIC", "HARMONIC", "HHG"])) ∧
    (∀ s e,
      (force.sigmaCombiningRule, s) ∈
          [("ARITHMETIC", "1"), ("GEOMETRIC", "2"), ("CUBIC-MEAN", "3")] →
      (force.epsilonCombiningRule, e) ∈
          [("ARITHMETIC", "1"), ("GEOMETRIC", "2"), ("HARMONIC", "3"), ("HHG", "4")] →
      (initializeVdwForce env force k).exception = none ∧
      (initializeVdwForce env force k).replacements =
        [("SIGMA_COMBINING_RULE", s), ("EPSILON_COMBINING_RULE", e)]) := by
  constructor
  · rw [← sigmaRuleCode_eq_none_iff, ← epsilonRuleCode_eq_none_iff]
    unfold initializeVdwForce
    cases hs : sigmaRuleCode force.sigmaCombiningRule with
    | none => simp
    | some s =>
      cases he : epsilonRuleCode force.epsilonCombiningRule with
      | none => simp
      | some e => simp
  · intro s e hs he
    simp only [List.mem_cons, List.mem_singleton, List.not_mem_nil, or_false,
      Prod.mk.injEq] at hs he
    rcases hs with ⟨h1, rfl⟩ | ⟨h1, rfl⟩ | ⟨h1, rfl⟩ <;>
      rcases he with ⟨h2, rfl⟩ | ⟨h2, rfl⟩ | ⟨h2, rfl⟩ | ⟨h2, rfl⟩ <;>
      simp [initializeVdwForce, sigmaRuleCode, epsilonRuleCode, h1, h2]

/-- Witness for C12 at a force with the rules CUBIC-MEAN and HHG. -/
theorem vdw_combining_rules_witness :
    (initializeVdwForce vdwEnvironment goodVdwForce VdwKernel.new).exception = none ∧
    (initializeVdwForce vdwEnvironment goodVdwForce VdwKernel.new).replacements =
      [("SIGMA_COMBINING_RULE", "3"), ("EPSILON_COMBINING_RULE", "4")] :=
  (vdw_combining_rules vdwEnvironment goodVdwForce VdwKernel.new).2 "3" "4"
    (by decide) (by decide)

/-- C13 (as stated) fails: with the unsupported sigma rule `cubic-mean` the
set-up throws, and the kernel object it leaves behind already owns its five
arrays, its `CudaNonbondedUtilities` and a new `dispersionCoefficient`, none of
which it had before the call. -/
theorem vdw_failure_leaves_state :
    (initializeVdwForce vdwEnvironment badSigmaForce VdwKernel.new).exception =
      some "Illegal combining rule for sigma: cubic-mean" ∧
    (initializeVdwForce vdwEnvironment badSigmaForce VdwKernel.new).kernel ≠ VdwKernel.new ∧
    VdwKernel.new.sigmaEpsilon = none ∧
    (initializeVdwForce vdwEnvironment badSigmaForce VdwKernel.new).kernel.sigmaEpsilon =
      some { size := 32, name := "sigmaEpsilon" } ∧
    (initializeVdwForce vdwEnvironment badSigmaForce VdwKernel.new).kernel.nonbonded =
      some { parameters := ["sigmaEpsilon"], interaction := none } ∧
    (initializeVdwForce vdwEnvironment badSigmaForce VdwKernel.new).kernel.dispersionCoefficient
      = 1 := by
  refine ⟨by decide, ?_, rfl, by decide, by decide, ?_⟩
  · intro h
    have := congrArg VdwKernel.sigmaEpsilon h
    revert this
    decide
  · have hs : sigmaRuleCode badSigmaForce.sigmaCombiningRule = none := by decide
    unfold initializeVdwForce
    rw [hs]
    norm_num [badSigmaForce, vdwEnvironment]

/-- C13 (amended): when the set-up of the van der Waals kernel throws because of
an unsupported combining rule, everything before the rule check has been done
(the five arrays are allocated, `dispersionCoefficient` is computed, `nonbonded`
is created with its `sigmaEpsilon` parameter) and nothing after it (no
interaction added, `prepareKernel` and `spreadKernel` not looked up). -/
theorem vdw_failure_state (env : VdwEnvironment) (force : AmoebaVdwForce) (k : VdwKernel)
    (hfail : (initializeVdwForce env force k).exception ≠ none) :
    (initializeVdwForce env force k).kernel =
      { hasInitializedNonbonded := k.hasInitializedNonbonded,
        sigmaEpsilon := some { size := env.paddedNumAtoms, name := "sigmaEpsilon" },
        bondReductionAtoms := some { size := env.paddedNumAtoms, name := "bondReductionAtoms" },
        bondReductionFactors := some { size := env.paddedNumAtoms, name := "sigmaEpsilon" },
        tempPosq := some { size := env.paddedNumAtoms, name := "tempPosq" },
        tempForces := some { size := 3 * env.paddedNumAtoms, name := "tempForces" },
        nonbonded := some { parameters := ["sigmaEpsilon"], interaction := none },
        dispersionCoefficient :=
          if force.useDispersionCorrection then env.calcDispersionCorrection else 0,
        prepareKernel := k.prepareKernel,
        spreadKernel := k.spreadKernel } := by
  unfold initializeVdwForce at hfail ⊢
  cases hs : sigmaRuleCode force.sigmaCombiningRule with
  | none => rfl
  | some s =>
    cases he : epsilonRuleCode force.epsilonCombiningRule with
    | none => rfl
    | some e => simp [hs, he] at hfail

/-- Witness for the amended C13 at a force with the sigma rule `cubic-mean`. -/
theorem vdw_failure_state_witness :
    (initializeVdwForce vdwEnvironment badSigmaForce VdwKernel.new).exception ≠ none ∧
    (initializeVdwForce vdwEnvironment badSigmaForce VdwKernel.new).kernel =
      { hasInitializedNonbonded := VdwKernel.new.hasInitializedNonbonded,
        sigmaEpsilon := some { size := vdwEnvironment.paddedNumAtoms, name := "sigmaEpsilon" },
        bondReductionAtoms :=
          some { size := vdwEnvironment.paddedNumAtoms, name := "bondReductionAtoms" },
        bondReductionFactors :=
          some { size := vdwEnvironment.paddedNumAtoms, name := "sigmaEpsilon" },
        tempPosq := some { size := vdwEnvironment.paddedNumAtoms, name := "tempPosq" },
        tempForces := some { size := 3 * vdwEnvironment.paddedNumAtoms, name := "tempForces" },
        nonbonded := some { parameters := ["sigmaEpsilon"], interaction := none },
        dispersionCoefficient :=
          if badSigmaForce.useDispersionCorrection then vdwEnvironment.calcDispersionCorrection
          else 0,
        prepareKernel := VdwKernel.new.prepareKernel,
        spreadKernel := VdwKernel.new.spreadKernel } :=
  ⟨by decide, vdw_failure_state vdwEnvironment badSigmaForce VdwKernel.new (by decide)⟩

/-- C14 (refuted on the code): with the supported sigma rule `ARITHMETIC` and the
unsupported epsilon rule `W-H`, the message of the exception names sigma and
carries the sigma rule; the rejected epsilon rule does not occur in it. -/
theorem vdw_epsilon_message :
    (initializeVdwForce vdwEnvironment badEpsilonForce VdwKernel.new).exception =
      some "Illegal combining rule for sigma: ARITHMETIC" ∧
    sigmaRuleCode badEpsilonForce.sigmaCombiningRule = some "1" ∧
    epsilonRuleCode badEpsilonForce.epsilonCombiningRule = none := by
  decide

/-! ### Per-atom parameter tables -/

/-- A list of blocks of equal length `m` has length `m` times their number. -/
theorem length_flatten_blocks {α : Type} (m : Nat) (f : Nat → List α)
    (hf : ∀ i, (f i).length = m) (n : Nat) :
    ((List.range n).map f).flatten.length = m * n := by
  induction n with
  | zero => simp
  | succ n ih =>
    rw [List.range_succ, List.map_append, List.flatten_append, List.length_append, ih]
    simp [hf, Nat.mul_succ]

/-- Block `i` of a list of blocks of equal length `m` starts at offset `m * i`. -/
theorem block_of_flatten {α : Type} (m : Nat) (f : Nat → List α)
    (hf : ∀ i, (f i).length = m) (n i : Nat) (hi : i < n) :
    (((List.range n).map f).flatten.drop (m * i)).take m = f i := by
  induction n with
  | zero => omega
  | succ n ih =>
    have hlen := length_flatten_blocks m f hf n
    rw [List.range_succ, List.map_append, List.flatten_append]
    simp only [List.map_cons, List.map_nil, List.flatten_cons, List.flatten_nil,
      List.append_nil]
    by_cases hin : i < n
    · have h1 : m * (i + 1) ≤ m * n := Nat.mul_le_mul_left m hin
      rw [Nat.mul_succ] at h1
      rw [List.drop_append_of_le_length (by rw [hlen]; omega),
        List.take_append_of_le_length (by rw [List.length_drop, hlen]; omega)]
      exact ih hin
    · have hieq : i = n := by omega
      subst hieq
      rw [← hlen, List.drop_left, List.take_of_length_le (hf _).le]

/-- The loop of lines 904-923 in closed form. -/
theorem foldl_recordMultipole (g : Nat → MultipoleParameters) (n : Nat) :
    (List.range n).foldl (recordMultipole g) ParameterVectors.empty =
      { dampingAndTholeVec := (List.range n).map (fun i => ((g i).damping, (g i).thole)),
        polarizabilityVec := (List.range n).map (fun i => (g i).polarity),
        multipoleParticlesVec := (List.range n).map
          (fun i => { x := (g i).atomX, y := (g i).atomY, z := (g i).atomZ, w := (g i).axisType }),
        molecularDipolesVec := ((List.range n).map
          (fun i => [(g i).dipole 0, (g i).dipole 1, (g i).dipole 2])).flatten,
        molecularQuadrupolesVec := ((List.range n).map
          (fun i => [(g i).quadrupole 0, (g i).quadrupole 1, (g i).quadrupole 2,
            (g i).quadrupole 4, (g i).quadrupole 5])).flatten } := by
  induction n with
  | zero => rfl
  | succ n ih =>
    rw [List.range_succ, List.foldl_append, ih]
    simp [recordMultipole]

/-- The padding loop of lines 925-933 in closed form. -/
theorem foldl_padMultipole (l : List Nat) :
    ∀ v : ParameterVectors, l.foldl padMultipole v =
      { dampingAndTholeVec := v.dampingAndTholeVec ++ l.map (fun _ => ((0 : ℚ), (0 : ℚ))),
        polarizabilityVec := v.polarizabilityVec ++ l.map (fun _ => (0 : ℚ)),
        multipoleParticlesVec :=
          v.multipoleParticlesVec ++ l.map (fun _ => ({ x := 0, y := 0, z := 0, w := 0 } : Int4)),
        molecularDipolesVec :=
          v.molecularDipolesVec ++ (l.map (fun _ => [(0 : ℚ), 0, 0])).flatten,
        molecularQuadrupolesVec :=
          v.molecularQuadrupolesVec ++ (l.map (fun _ => [(0 : ℚ), 0, 0, 0, 0])).flatten } := by
  induction l with
  | nil => intro v; simp
  | cons a l ih =>
    intro v
    rw [List.foldl_cons, ih]
    simp [padMultipole]

/-- The index ranges of the two loops of lines 904-933 together are `0 .. paddedNumAtoms-1`. -/
theorem range_append_range' (n p : Nat) (h : n ≤ p) :
    List.range n ++ List.range' n (p - n) = List.range p := by
  rw [List.range_eq_range', List.range_eq_range']
  have := @List.range'_append 0 n (p - n) 1
  simp only [Nat.one_mul, Nat.zero_add] at this
  rw [this]
  congr 1
  omega

/-- Two maps, one per loop, are one map over all indices. -/
theorem map_two_loops {β : Type} (n p : Nat) (h : n ≤ p) (f : Nat → β) (z : β) :
    (List.range n).map f ++ (List.range' n (p - n)).map (fun _ => z) =
      (List.range p).map (fun i => if i < n then f i else z) := by
  rw [← range_append_range' n p h, List.map_append]
  congr 1
  · apply List.map_congr_left
    intro i hi
    rw [if_pos (List.mem_range.mp hi)]
  · apply List.map_congr_left
    intro i hi
    rw [if_neg (by have := (List.mem_range'_1.mp hi).1; omega)]

/-- The uploaded vectors in closed form: entry or block `i` is that of atom `i`
below `numMultipoles` and zero from there on. -/
theorem parameterVectors_eq (n p : Nat) (g : Nat → MultipoleParameters) (h : n ≤ p) :
    parameterVectors n p g =
      { dampingAndTholeVec := (List.range p).map
          (fun i => if i < n then ((g i).damping, (g i).thole) else (0, 0)),
        polarizabilityVec := (List.range p).map
          (fun i => if i < n then (g i).polarity else 0),
        multipoleParticlesVec := (List.range p).map
          (fun i => if i < n then
              { x := (g i).atomX, y := (g i).atomY, z := (g i).atomZ, w := (g i).axisType }
            else { x := 0, y := 0, z := 0, w := 0 }),
        molecularDipolesVec := ((List.range p).map
          (fun i => if i < n then [(g i).dipole 0, (g i).dipole 1, (g i).dipole 2]
            else [0, 0, 0])).flatten,
        molecularQuadrupolesVec := ((List.range p).map
          (fun i => if i < n then
              [(g i).quadrupole 0, (g i).quadrupole 1, (g i).quadrupole 2,
                (g i).quadrupole 4, (g i).quadrupole 5]
            else [0, 0, 0, 0, 0])).flatten } := by
  unfold parameterVectors
  rw [foldl_recordMultipole, foldl_padMultipole]
  simp only [← List.flatten_append, ← List.map_append, map_two_loops n p h]

/-- C16: for `numMultipoles <= paddedNumAtoms` the per-atom tables built by the
multipole set-up have `paddedNumAtoms` records (dampingAndThole, polarizability
and multipoleParticles `paddedNumAtoms` entries, molecularDipoles
`3*paddedNumAtoms`, molecularQuadrupoles `5*paddedNumAtoms`), record
`i < numMultipoles` holds the parameters of atom `i`, and every record from
`numMultipoles` on is all zero. -/
theorem parameter_tables_padded (numMultipoles paddedNumAtoms : Nat)
    (g : Nat → MultipoleParameters) (h : numMultipoles ≤ paddedNumAtoms) :
    ((parameterVectors numMultipoles paddedNumAtoms g).dampingAndTholeVec.length
        = paddedNumAtoms ∧
      (parameterVectors numMultipoles paddedNumAtoms g).polarizabilityVec.length
        = paddedNumAtoms ∧
      (parameterVectors numMultipoles paddedNumAtoms g).multipoleParticlesVec.length
        = paddedNumAtoms ∧
      (parameterVectors numMultipoles paddedNumAtoms g).molecularDipolesVec.length
        = 3 * paddedNumAtoms ∧
      (parameterVectors numMultipoles paddedNumAtoms g).molecularQuadrupolesVec.length
        = 5 * paddedNumAtoms) ∧
    (∀ i, i < numMultipoles →
      (parameterVectors numMultipoles paddedNumAtoms g).dampingAndTholeVec[i]?
        = some ((g i).damping, (g i).thole) ∧
      (parameterVectors numMultipoles paddedNumAtoms g).polarizabilityVec[i]?
        = some (g i).polarity ∧
      (parameterVectors numMultipoles paddedNumAtoms g).multipoleParticlesVec[i]?
        = some { x := (g i).atomX, y := (g i).atomY, z := (g i).atomZ, w := (g i).axisType } ∧
      ((parameterVectors numMultipoles paddedNumAtoms g).molecularDipolesVec.drop (3 * i)).take 3
        = [(g i).dipole 0, (g i).dipole 1, (g i).dipole 2] ∧
      ((parameterVectors numMultipoles paddedNumAtoms g).molecularQuadrupolesVec.drop
          (5 * i)).take 5
        = [(g i).quadrupole 0, (g i).quadrupole 1, (g i).quadrupole 2, (g i).quadrupole 4,
            (g i).quadrupole 5]) ∧
    (∀ i, numMultipoles ≤ i → i < paddedNumAtoms →
      (parameterVectors numMultipoles paddedNumAtoms g).dampingAndTholeVec[i]? = some (0, 0) ∧
      (parameterVectors numMultipoles paddedNumAtoms g).polarizabilityVec[i]? = some 0 ∧
      (parameterVectors numMultipoles paddedNumAtoms g).multipoleParticlesVec[i]?
        = some { x := 0, y := 0, z := 0, w := 0 } ∧
      ((parameterVectors numMultipoles paddedNumAtoms g).molecularDipolesVec.drop (3 * i)).take 3
        = [0, 0, 0] ∧
      ((parameterVectors numMultipoles paddedNumAtoms g).molecularQuadrupolesVec.drop
          (5 * i)).take 5 = [0, 0, 0, 0, 0]) := by
  rw [parameterVectors_eq numMultipoles paddedNumAtoms g h]
  have hd : ∀ i, (if i < numMultipoles then [(g i).dipole 0, (g i).dipole 1, (g i).dipole 2]
      else [0, 0, 0]).length = 3 := by
    intro i; split_ifs <;> rfl
  have hq : ∀ i, (if i < numMultipoles then
      [(g i).quadrupole 0, (g i).quadrupole 1, (g i).quadrupole 2, (g i).quadrupole 4,
        (g i).quadrupole 5]
      else [0, 0, 0, 0, 0]).length = 5 := by
    intro i; split_ifs <;> rfl
  refine ⟨⟨by simp, by simp, by simp, length_flatten_blocks 3 _ hd _,
    length_flatten_blocks 5 _ hq _⟩, ?_, ?_⟩
  · intro i hi
    have hip : i < paddedNumAtoms := by omega
    refine ⟨?_, ?_, ?_, ?_, ?_⟩
    · simp [List.getElem?_map, List.getElem?_range hip, hi]
    · simp [List.getElem?_map, List.getElem?_range hip, hi]
    · simp [List.getElem?_map, List.getElem?_range hip, hi]
    · rw [block_of_flatten 3 _ hd paddedNumAtoms i hip, if_pos hi]
    · rw [block_of_flatten 5 _ hq paddedNumAtoms i hip, if_pos hi]
  · intro i hi hip
    have hni : ¬ i < numMultipoles := by omega
    refine ⟨?_, ?_, ?_, ?_, ?_⟩
    · simp [List.getElem?_map, List.getElem?_range hip, hni]
    · simp [List.getElem?_map, List.getElem?_range hip, hni]
    · simp [List.getElem?_map, List.getElem?_range hip, hni]
    · rw [block_of_flatten 3 _ hd paddedNumAtoms i hip, if_neg hni]
    · rw [block_of_flatten 5 _ hq paddedNumAtoms i hip, if_neg hni]

/-- Witness for C16: two multipoles padded to four atoms. -/
theorem parameter_tables_padded_witness :
    (2 : Nat) ≤ 4 ∧
    (parameterVectors 2 4 sampleMultipole).molecularQuadrupolesVec.length = 5 * 4 ∧
    ((parameterVectors 2 4 sampleMultipole).molecularQuadrupolesVec.drop (5 * 1)).take 5
      = [(sampleMultipole 1).quadrupole 0, (sampleMultipole 1).quadrupole 1,
          (sampleMultipole 1).quadrupole 2, (sampleMultipole 1).quadrupole 4,
          (sampleMultipole 1).quadrupole 5] ∧
    ((parameterVectors 2 4 sampleMultipole).molecularDipolesVec.drop (3 * 3)).take 3
      = [0, 0, 0] :=
  ⟨by decide,
    (parameter_tables_padded 2 4 sampleMultipole (by decide)).1.2.2.2.2,
    ((parameter_tables_padded 2 4 sampleMultipole (by decide)).2.1 1 (by decide)).2.2.2.2,
    ((parameter_tables_padded 2 4 sampleMultipole (by decide)).2.2 3 (by decide)
      (by decide)).2.2.2.1⟩

/-! ### Creation of the transform plan -/

/-- With PME the grid settings are always selected. -/
theorem selectPmeSettings_returns (env : SetupEnvironment) (force : AmoebaMultipoleForce) :
    ∃ s, selectPmeSettings env force = some s := by
  by_cases h : force.pmeGridDimension.1 = 0 ∨ force.aEwald = 0
  · obtain ⟨x, y, z, _, _, _, _, _, _, hsel⟩ := selectPmeSettings_auto env force h
    exact ⟨_, hsel⟩
  · exact ⟨_, selectPmeSettings_explicit env force h⟩

/-- Recording the polarization options does not touch `hasInitializedFFT`. -/
theorem recordPolarizationOptions_fft (force : AmoebaMultipoleForce) (k : MultipoleKernel) :
    (recordPolarizationOptions force k).hasInitializedFFT = k.hasInitializedFFT := by
  unfold recordPolarizationOptions
  split_ifs <;> rfl

/-- C15: in the set-up with PME, if `cufftPlan3d` returns a status other than
`CUFFT_SUCCESS` the set-up throws an exception whose message is
`"Error initializing FFT: "` followed by that status in decimal, and
`hasInitializedFFT` keeps its value (false after construction); if it succeeds,
nothing is thrown and `hasInitializedFFT` becomes true. -/
theorem fft_plan_status (env : SetupEnvironment) (force : AmoebaMultipoleForce)
    (k : MultipoleKernel) (hpme : force.nonbondedMethod = NonbondedMethod.PME) :
    ∃ r s, initializeMultipoleForce env force k = some r ∧
      selectPmeSettings env force = some s ∧
      (env.cufftPlan3d s.gridSizeX s.gridSizeY s.gridSizeZ env.useDoublePrecision
          ≠ CUFFT_SUCCESS →
        r.exception = some ("Error initializing FFT: " ++
          toString (env.cufftPlan3d s.gridSizeX s.gridSizeY s.gridSizeZ
            env.useDoublePrecision)) ∧
        r.kernel.hasInitializedFFT = k.hasInitializedFFT) ∧
      (env.cufftPlan3d s.gridSizeX s.gridSizeY s.gridSizeZ env.useDoublePrecision
          = CUFFT_SUCCESS →
        r.exception = none ∧ r.kernel.hasInitializedFFT = true) := by
  obtain ⟨s, hs⟩ := selectPmeSettings_returns env force
  unfold initializeMultipoleForce
  simp only [hpme, if_true, hs]
  by_cases hc : env.cufftPlan3d s.gridSizeX s.gridSizeY s.gridSizeZ env.useDoublePrecision
      ≠ CUFFT_SUCCESS
  · rw [if_pos hc]
    exact ⟨_, s, rfl, rfl, fun _ => ⟨rfl, recordPolarizationOptions_fft force k⟩,
      fun h => absurd h hc⟩
  · rw [if_neg hc]
    exact ⟨_, s, rfl, rfl, fun h => absurd h hc, fun _ => ⟨rfl, rfl⟩⟩

/-- Witness for C15: a plan creation failing with status 5 on a new kernel
object gives the message `Error initializing FFT: 5` and leaves
`hasInitializedFFT` false. -/
theorem fft_plan_status_witness :
    explicitGridForce.nonbondedMethod = NonbondedMethod.PME ∧
    (initializeMultipoleForce failingPlanEnvironment explicitGridForce MultipoleKernel.new).map
        (fun r => (r.exception, r.kernel.hasInitializedFFT)) =
      some (some "Error initializing FFT: 5", false) ∧
    ∃ r s, initializeMultipoleForce failingPlanEnvironment explicitGridForce MultipoleKernel.new
        = some r ∧
      selectPmeSettings failingPlanEnvironment explicitGridForce = some s ∧
      (failingPlanEnvironment.cufftPlan3d s.gridSizeX s.gridSizeY s.gridSizeZ
          failingPlanEnvironment.useDoublePrecision ≠ CUFFT_SUCCESS →
        r.exception = some ("Error initializing FFT: " ++
          toString (failingPlanEnvironment.cufftPlan3d s.gridSizeX s.gridSizeY s.gridSizeZ
            failingPlanEnvironment.useDoublePrecision)) ∧
        r.kernel.hasInitializedFFT = MultipoleKernel.new.hasInitializedFFT) ∧
      (failingPlanEnvironment.cufftPlan3d s.gridSizeX s.gridSizeY s.gridSizeZ
          failingPlanEnvironment.useDoublePrecision = CUFFT_SUCCESS →
        r.exception = none ∧ r.kernel.hasInitializedFFT = true) :=
  ⟨rfl,
    by
      have hs : selectPmeSettings failingPlanEnvironment explicitGridForce =
          some { alpha := 1, gridSizeX := 11, gridSizeY := 11, gridSizeZ := 11 } := by
        norm_num [selectPmeSettings, explicitGridForce]
      have hm : ("Error initializing FFT: " ++ toString (5 : Int)) = "Error initializing FFT: 5" := by
        decide
      unfold initializeMultipoleForce
      simp only [hs]
      norm_num [explicitGridForce, failingPlanEnvironment, plainEnvironment, CUFFT_SUCCESS,
        recordPolarizationOptions, MultipoleKernel.new, hm],
    fft_plan_status failingPlanEnvironment explicitGridForce MultipoleKernel.new rfl⟩

/-! ### Order of the events of `execute` -/

/-- The PME events before the loop are: four preparation events, the pass for
the fixed multipoles, three direct-space events, the pass for the seeded induced
dipoles. -/
theorem pmeFixedFieldEvents_passes (dp : Bool) :
    pmeFixedFieldEvents dp =
      (pmeFixedFieldEvents dp).take 4 ++
      reciprocalPass dp spreadFixedEvent gatherFixedEvent ++
      ((pmeFixedFieldEvents dp).drop 9).take 3 ++
      reciprocalPass dp spreadInducedEvent gatherInducedEvent := by
  cases dp <;> rfl

/-- The PME loop body is: three events, the pass for the induced dipoles, three
events. -/
theorem pmeInducedBody_passes (dp : Bool) :
    pmeInducedBody dp =
      (pmeInducedBody dp).take 3 ++
      reciprocalPass dp spreadInducedEvent gatherInducedEvent ++
      (pmeInducedBody dp).drop 8 := by
  cases dp <;> rfl

/-- Calling `execute` twice in a row on the same host inputs and the same
downloaded errors: the first call issues the events of the second, preceded by
the scale-factor set-up if that had not been done; both runs of the loop and
both return values agree; the second call leaves the kernel object as it found
it, and the first changed only `hasInitializedScaleFactors`; and in the second
call the first event that touches `inducedDipole` or `inducedDipolePolar` is
the `recordInducedDipoles` launch that seeds them from `field` and
`fieldPolar`. -/
theorem execute_replay (k : MultipoleKernel) (input : ExecuteInput) :
    (execute k input).events =
      (if k.hasInitializedScaleFactors then [] else [Event.initializeScaleFactors]) ++
        (execute (execute k input).kernel input).events ∧
    (execute (execute k input).kernel input).events.filter Event.isLaunch =
      (execute k input).events.filter Event.isLaunch ∧
    (execute (execute k input).kernel input).loop = (execute k input).loop ∧
    (execute (execute k input).kernel input).returnValue = (execute k input).returnValue ∧
    (execute (execute k input).kernel input).kernel = (execute k input).kernel ∧
    (execute k input).kernel = { k with hasInitializedScaleFactors := true } ∧
    ∃ pre post,
      (execute (execute k input).kernel input).events =
        pre ++ Event.executeKernel Kernel.recordInducedDipoles
          [Arg.field, Arg.fieldPolar, Arg.inducedDipole, Arg.inducedDipolePolar,
           Arg.polarizability] :: post ∧
      ∀ e ∈ pre, Arg.inducedDipole ∉ e.args ∧ Arg.inducedDipolePolar ∉ e.args := by
  have hfirst : (execute k input).events =
      (if k.hasInitializedScaleFactors then [] else [Event.initializeScaleFactors]) ++
        (execute (execute k input).kernel input).events := by
    unfold execute scfLoop momentsEvents
    simp
  refine ⟨hfirst, ?_, rfl, rfl, rfl, rfl, ?_⟩
  · rw [hfirst]
    cases k.hasInitializedScaleFactors <;> simp [Event.isLaunch]
  · have hev := execute_events (execute k input).kernel input
    have hk : (execute k input).kernel.pmeGrid = k.pmeGrid := rfl
    have hm : momentsEvents (execute k input).kernel =
        [Event.executeKernel Kernel.computeLabFrameMoments
          [Arg.posq, Arg.multipoleParticles, Arg.molecularDipoles, Arg.molecularQuadrupoles,
           Arg.labFrameDipoles, Arg.labFrameQuadrupoles]] := rfl
    rw [hk, hm] at hev
    by_cases hp : k.pmeGrid.isNone = true
    · rw [if_pos hp] at hev
      refine ⟨[Event.executeKernel Kernel.computeLabFrameMoments
          [Arg.posq, Arg.multipoleParticles, Arg.molecularDipoles, Arg.molecularQuadrupoles,
           Arg.labFrameDipoles, Arg.labFrameQuadrupoles]] ++ fixedFieldEvents.take 1,
        (List.replicate (execute (execute k input).kernel input).loop.iterations
          inducedBody).flatten ++ forceEvents, ?_, ?_⟩
      · rw [hev]
        simp [fixedFieldEvents, recordInducedDipolesArgs]
      · decide
    · rw [if_neg hp] at hev
      refine ⟨[Event.executeKernel Kernel.computeLabFrameMoments
          [Arg.posq, Arg.multipoleParticles, Arg.molecularDipoles, Arg.molecularQuadrupoles,
           Arg.labFrameDipoles, Arg.labFrameQuadrupoles]] ++
          (pmeFixedFieldEvents input.useDoublePrecision).take 11,
        (pmeFixedFieldEvents input.useDoublePrecision).drop 12 ++
        (List.replicate (execute (execute k input).kernel input).loop.iterations
          (pmeInducedBody input.useDoublePrecision)).flatten ++ pmeForceEvents, ?_, ?_⟩
      · rw [hev]
        simp [pmeFixedFieldEvents, recordInducedDipolesArgs]
      · cases input.useDoublePrecision <;> decide

/-- The kernels launched outside the loop and the loop bodies, sorted by stage:
no loop kernel before the loop, no fixed-field kernel in or after it, the
electrostatics, induced-dipole force and torque kernels only after it, and the
PME fixed-multipole force kernel only before it. -/
theorem stage_kernels (initialized dp : Bool) :
    (∀ e ∈ (if initialized then [] else [Event.initializeScaleFactors]) ++
        [Event.executeKernel Kernel.computeLabFrameMoments
          [Arg.posq, Arg.multipoleParticles, Arg.molecularDipoles, Arg.molecularQuadrupoles,
           Arg.labFrameDipoles, Arg.labFrameQuadrupoles]] ++
        fixedFieldEvents ++ pmeFixedFieldEvents dp,
      e.isScfLaunch = false ∧ e.launches Kernel.computeElectrostatics = false ∧
      e.launches Kernel.computeInducedDipoleForceAndEnergy = false ∧
      e.launches Kernel.mapTorqueToForce = false) ∧
    (∀ e ∈ inducedBody ++ pmeInducedBody dp,
      e.isFixedFieldLaunch = false ∧ e.launches Kernel.computeLabFrameMoments = false ∧
      e.launches Kernel.computeFixedMultipoleForceAndEnergy = false ∧
      e.launches Kernel.computeElectrostatics = false ∧
      e.launches Kernel.computeInducedDipoleForceAndEnergy = false ∧
      e.launches Kernel.mapTorqueToForce = false) ∧
    (∀ e ∈ forceEvents ++ pmeForceEvents,
      e.isFixedFieldLaunch = false ∧ e.launches Kernel.computeLabFrameMoments = false ∧
      e.launches Kernel.computeFixedMultipoleForceAndEnergy = false ∧
      e.isScfLaunch = false) := by
  refine ⟨?_, ?_, ?_⟩
  · have hall : ((if initialized then [] else [Event.initializeScaleFactors]) ++
        [Event.executeKernel Kernel.computeLabFrameMoments
          [Arg.posq, Arg.multipoleParticles, Arg.molecularDipoles, Arg.molecularQuadrupoles,
           Arg.labFrameDipoles, Arg.labFrameQuadrupoles]] ++
        fixedFieldEvents ++ pmeFixedFieldEvents dp).all
        (fun e => !e.isScfLaunch && !e.launches Kernel.computeElectrostatics &&
          !e.launches Kernel.computeInducedDipoleForceAndEnergy &&
          !e.launches Kernel.mapTorqueToForce) = true := by
      cases initialized <;> cases dp <;> decide
    intro e he
    have := List.all_eq_true.mp hall e he
    simpa [and_assoc] using this
  · have hall : (inducedBody ++ pmeInducedBody dp).all
        (fun e => !e.isFixedFieldLaunch && !e.launches Kernel.computeLabFrameMoments &&
          !e.launches Kernel.computeFixedMultipoleForceAndEnergy &&
          !e.launches Kernel.computeElectrostatics &&
          !e.launches Kernel.computeInducedDipoleForceAndEnergy &&
          !e.launches Kernel.mapTorqueToForce) = true := by
      cases dp <;> decide
    intro e he
    have := List.all_eq_true.mp hall e he
    simpa [and_assoc] using this
  · have hall : (forceEvents ++ pmeForceEvents).all
        (fun e => !e.isFixedFieldLaunch && !e.launches Kernel.computeLabFrameMoments &&
          !e.launches Kernel.computeFixedMultipoleForceAndEnergy && !e.isScfLaunch) = true := by
      decide
    intro e he
    have := List.all_eq_true.mp hall e he
    simpa [and_assoc] using this

/-- Every event of a repeated body is an event of the body. -/
theorem mem_flatten_replicate {body : List Event} {n : Nat} {e : Event}
    (h : e ∈ (List.replicate n body).flatten) : e ∈ body := by
  obtain ⟨l, hl, he⟩ := List.mem_flatten.mp h
  rw [(List.mem_replicate.mp hl).2] at he
  exact he

/-- C19 (as stated) fails: in a PME call whose loop runs, the PME fixed-multipole
force kernel `computeFixedMultipoleForceAndEnergy` is event 11 and the first
`updateInducedFieldBySOR` of the loop is event 28: a force/energy launch that
comes before the launches of the loop, not after the last of them. -/
theorem pme_fixed_force_before_loop :
    (execute pmeMutualKernel settledInput).events[11]? =
      some (Event.executeKernel Kernel.computeFixedMultipoleForceAndEnergy
        [Arg.posq, Arg.force, Arg.torque, Arg.energyBuffer, Arg.labFrameDipoles,
         Arg.labFrameQuadrupoles, Arg.pmePhi, Arg.invPeriodicBoxSize]) ∧
    (execute pmeMutualKernel settledInput).events[28]? =
      some (Event.executeKernel Kernel.updateInducedFieldBySOR updateInducedFieldArgs) := by
  have hev : (execute pmeMutualKernel settledInput).events =
      momentsEvents pmeMutualKernel ++
        (pmeFixedFieldEvents false ++ pmeInducedBody false ++ pmeForceEvents) := by
    norm_num [execute, scfLoop, inducedLoop, pmeMutualKernel, settledInput, convergenceTest,
      total1, total2]
  rw [hev]
  decide

/-- C19 (amended): in every call of `execute`, PME or not, the events are those
of four stages in this order: the rotation (`computeLabFrameMoments`, the first
launch), the fixed field, the loop, and force and torque (ending with
`mapTorqueToForce`). No kernel of the loop is launched before the loop, no
fixed-field kernel in or after it, `computeElectrostatics` and the PME
induced-dipole force kernel only after it; the PME fixed-multipole force kernel
`computeFixedMultipoleForceAndEnergy` is launched in the fixed-field stage,
before the loop (once with PME, never without). -/
theorem execute_stage_order (k : MultipoleKernel) (input : ExecuteInput) :
    ∃ fixed final,
      (execute k input).events =
        momentsEvents k ++ fixed ++ (execute k input).loop.events ++ final ∧
      (momentsEvents k).filter Event.isLaunch =
        [Event.executeKernel Kernel.computeLabFrameMoments
          [Arg.posq, Arg.multipoleParticles, Arg.molecularDipoles, Arg.molecularQuadrupoles,
           Arg.labFrameDipoles, Arg.labFrameQuadrupoles]] ∧
      (∀ e ∈ momentsEvents k ++ fixed,
        e.isScfLaunch = false ∧ e.launches Kernel.computeElectrostatics = false ∧
        e.launches Kernel.computeInducedDipoleForceAndEnergy = false ∧
        e.launches Kernel.mapTorqueToForce = false) ∧
      (∀ e ∈ (execute k input).loop.events,
        e.isFixedFieldLaunch = false ∧ e.launches Kernel.computeLabFrameMoments = false ∧
        e.launches Kernel.computeFixedMultipoleForceAndEnergy = false ∧
        e.launches Kernel.computeElectrostatics = false ∧
        e.launches Kernel.computeInducedDipoleForceAndEnergy = false ∧
        e.launches Kernel.mapTorqueToForce = false) ∧
      (∀ e ∈ final,
        e.isFixedFieldLaunch = false ∧ e.launches Kernel.computeLabFrameMoments = false ∧
        e.launches Kernel.computeFixedMultipoleForceAndEnergy = false ∧
        e.isScfLaunch = false) ∧
      fixed.countP (Event.launches Kernel.computeFixedMultipoleForceAndEnergy) =
        (if k.pmeGrid.isNone then 0 else 1) ∧
      final.head? = some (Event.executeKernel Kernel.computeElectrostatics
        (if k.pmeGrid.isNone then electrostaticsArgs else pmeElectrostaticsArgs)) ∧
      final.getLast? = some (Event.executeKernel Kernel.mapTorqueToForce mapTorqueArgs) := by
  obtain ⟨s1, s2, s3⟩ := stage_kernels k.hasInitializedScaleFactors input.useDoublePrecision
  have hloop : (execute k input).loop.events =
      (List.replicate (execute k input).loop.iterations
        (if k.pmeGrid.isNone then inducedBody
         else pmeInducedBody input.useDoublePrecision)).flatten :=
    (inducedLoop_spec _ _ _ _).2.1
  have hm : (momentsEvents k).filter Event.isLaunch =
      [Event.executeKernel Kernel.computeLabFrameMoments
        [Arg.posq, Arg.multipoleParticles, Arg.molecularDipoles, Arg.molecularQuadrupoles,
         Arg.labFrameDipoles, Arg.labFrameQuadrupoles]] := by
    unfold momentsEvents
    cases k.hasInitializedScaleFactors <;> rfl
  by_cases hp : k.pmeGrid.isNone = true
  · refine ⟨fixedFieldEvents, forceEvents, ?_, hm, ?_, ?_, ?_, ?_, ?_, rfl⟩
    · unfold execute
      simp only [hp, if_true, List.append_assoc]
    · intro e he
      apply s1 e
      unfold momentsEvents at he
      simp only [List.mem_append] at he ⊢
      tauto
    · intro e he
      rw [hloop, if_pos hp] at he
      exact s2 e (List.mem_append_left _ (mem_flatten_replicate he))
    · intro e he
      exact s3 e (List.mem_append_left _ he)
    · rw [if_pos hp]; decide
    · rw [if_pos hp]; rfl
  · refine ⟨pmeFixedFieldEvents input.useDoublePrecision, pmeForceEvents, ?_, hm, ?_, ?_, ?_,
      ?_, ?_, rfl⟩
    · unfold execute
      simp only [hp, List.append_assoc]
      rfl
    · intro e he
      apply s1 e
      unfold momentsEvents at he
      simp only [List.mem_append] at he ⊢
      tauto
    · intro e he
      rw [hloop, if_neg hp] at he
      exact s2 e (List.mem_append_right _ (mem_flatten_replicate he))
    · intro e he
      exact s3 e (List.mem_append_right _ he)
    · rw [if_neg hp]
      cases input.useDoublePrecision <;> decide
    · rw [if_neg hp]; rfl

/-- C20: in the PME branch of `execute` the events are: the rotation, four
preparation events with the spline update first and the sort second, the pass
for the fixed multipoles, three direct-space events, the pass for the seeded
induced dipoles, then per iteration three events, the pass for the induced
dipoles and three events, and finally the force events; each pass is exactly
spread, forward FFT, reciprocal convolution, inverse FFT, potential gather, and
no event outside the passes is a step of a pass. -/
theorem pme_pass_structure (k : MultipoleKernel) (input : ExecuteInput)
    (hpme : k.pmeGrid.isNone = false) :
    ∃ prepare direct head tail,
      (execute k input).events =
        momentsEvents k ++ prepare ++
        reciprocalPass input.useDoublePrecision spreadFixedEvent gatherFixedEvent ++
        direct ++
        reciprocalPass input.useDoublePrecision spreadInducedEvent gatherInducedEvent ++
        (List.replicate (scfIterationsRun (execute k input).events)
          (head ++
            reciprocalPass input.useDoublePrecision spreadInducedEvent gatherInducedEvent ++
            tail)).flatten ++
        pmeForceEvents ∧
      prepare.take 2 =
        [Event.executeKernel Kernel.updateBsplines
          [Arg.posq, Arg.pmeIgrid, Arg.pmeAtomGridIndex, Arg.pmeTheta1, Arg.pmeTheta2,
           Arg.pmeTheta3, Arg.periodicBoxSize, Arg.invPeriodicBoxSize],
         Event.sort Arg.pmeAtomGridIndex] ∧
      ∀ e ∈ momentsEvents k ++ prepare ++ direct ++ head ++ tail ++ pmeForceEvents,
        e.isPassEvent = false := by
  have hev := execute_events k input
  rw [hpme] at hev
  simp only [Bool.false_eq_true, if_false] at hev
  refine ⟨(pmeFixedFieldEvents input.useDoublePrecision).take 4,
    ((pmeFixedFieldEvents input.useDoublePrecision).drop 9).take 3,
    (pmeInducedBody input.useDoublePrecision).take 3,
    (pmeInducedBody input.useDoublePrecision).drop 8, ?_, ?_, ?_⟩
  · rw [execute_iterationsRun, ← pmeInducedBody_passes]
    conv_lhs => rw [hev, pmeFixedFieldEvents_passes]
    simp only [List.append_assoc]
  · cases input.useDoublePrecision <;> rfl
  · have hall : ((if k.hasInitializedScaleFactors then [] else [Event.initializeScaleFactors]) ++
        [Event.executeKernel Kernel.computeLabFrameMoments
          [Arg.posq, Arg.multipoleParticles, Arg.molecularDipoles, Arg.molecularQuadrupoles,
           Arg.labFrameDipoles, Arg.labFrameQuadrupoles]] ++
        (pmeFixedFieldEvents input.useDoublePrecision).take 4 ++
        ((pmeFixedFieldEvents input.useDoublePrecision).drop 9).take 3 ++
        (pmeInducedBody input.useDoublePrecision).take 3 ++
        (pmeInducedBody input.useDoublePrecision).drop 8 ++ pmeForceEvents).all
        (fun e => !e.isPassEvent) = true := by
      cases k.hasInitializedScaleFactors <;> cases input.useDoublePrecision <;> decide
    intro e he
    have := List.all_eq_true.mp hall e he
    simpa using this

/-- Witness for C20 at a PME kernel object. -/
theorem pme_pass_structure_witness :
    pmeMutualKernel.pmeGrid.isNone = false ∧
    ∃ prepare direct head tail,
      (execute pmeMutualKernel stubbornInput).events =
        momentsEvents pmeMutualKernel ++ prepare ++
        reciprocalPass stubbornInput.useDoublePrecision spreadFixedEvent gatherFixedEvent ++
        direct ++
        reciprocalPass stubbornInput.useDoublePrecision spreadInducedEvent gatherInducedEvent ++
        (List.replicate (scfIterationsRun (execute pmeMutualKernel stubbornInput).events)
          (head ++
            reciprocalPass stubbornInput.useDoublePrecision spreadInducedEvent
              gatherInducedEvent ++
            tail)).flatten ++
        pmeForceEvents ∧
      prepare.take 2 =
        [Event.executeKernel Kernel.updateBsplines
          [Arg.posq, Arg.pmeIgrid, Arg.pmeAtomGridIndex, Arg.pmeTheta1, Arg.pmeTheta2,
           Arg.pmeTheta3, Arg.periodicBoxSize, Arg.invPeriodicBoxSize],
         Event.sort Arg.pmeAtomGridIndex] ∧
      ∀ e ∈ momentsEvents pmeMutualKernel ++ prepare ++ direct ++ head ++ tail ++
          pmeForceEvents,
        e.isPassEvent = false :=
  ⟨rfl, pme_pass_structure pmeMutualKernel stubbornInput rfl⟩

/-! ### B-spline moduli: the near-zero pass -/

/-- Entry 1 of `bsplines_data` is never stored to: it keeps the value `0.0`. -/
theorem bsplinesData_one (maxSize PmeOrder : Nat) (data : List ℚ) :
    (bsplinesData maxSize PmeOrder data).getD 1 0 = 0 := by
  unfold bsplinesData
  have key : ∀ (l : List Nat) (v : List ℚ), (∀ i ∈ l, 2 ≤ i) → v.getD 1 0 = 0 →
      (l.foldl (fun (v : List ℚ) (i : Nat) => v.set i (data.getD (i - 2) 0)) v).getD 1 0 = 0 := by
    intro l
    induction l with
    | nil => intro v _ hv; exact hv
    | cons a l ih =>
      intro v hl hv
      rw [List.foldl_cons]
      apply ih
      · intro i hi; exact hl i (List.mem_cons_of_mem a hi)
      · have ha : 2 ≤ a := hl a (List.mem_cons_self a l)
        rw [List.getD_eq_getElem?_getD, List.getElem?_set_ne (by omega),
          ← List.getD_eq_getElem?_getD]
        exact hv
  apply key
  · intro i hi
    exact (List.mem_range'_1.mp hi).1
  · rw [List.getD_eq_getElem?_getD, List.getElem?_replicate]
    split_ifs <;> rfl

/-- C11 (refuted on the code): on an axis of size 1 the only modulus is
`bsplines_data[1]^2 * (cos^2 + sin^2) = 0`, whatever `cos`, `sin`, `M_PI`, the
spline coefficients and the other grid sizes are; it is below `eps`, so the
near-zero pass executes `moduli[0] = 0.9*moduli[1]` and reads outside the
one-element vector. -/
theorem moduli_size_one (cos sin : ℚ → ℚ) (pi : ℚ) (maxSize PmeOrder : Nat) (data : List ℚ) :
    transformModuli cos sin pi (bsplinesData maxSize PmeOrder data) 1 = [0] ∧
    readAt [0] 0 = some 0 ∧ (0 : ℚ) < moduliEps ∧ readAt [0] 1 = none ∧
    substituteNearZero [0] = none := by
  have h1 := bsplinesData_one maxSize PmeOrder data
  have heps : (0 : ℚ) < moduliEps := by norm_num [moduliEps]
  refine ⟨?_, rfl, heps, rfl, ?_⟩
  · rw [List.getD_eq_getElem?_getD] at h1
    simp [transformModuli, transformSums, h1, List.range_succ]
  · have hf : substituteFirst [0] = none := by
      unfold substituteFirst
      have h0 : readAt [0] 0 = some 0 := rfl
      have hr : readAt [0] 1 = none := rfl
      rw [h0]
      simp only [heps, if_true, hr]
    unfold substituteNearZero
    rw [hf]

/-! ### Which entries of `labFrameQuadrupoles` are read -/

/-- The output of `computeSystemMultipoleMoments` depends on the quadrupole
buffer only through its entries below `5*numAtoms`: of the `9*numAtoms` entries
of the records of the atoms, those from `5*numAtoms` on are never read. -/
theorem quadrupole_entries_read (s : MomentsInput) (q : Nat → ℚ) (origin : Vec3)
    (h : ∀ j, j < 5 * s.numAtoms → q j = s.quadrupoleVec j) :
    computeSystemMultipoleMoments { s with quadrupoleVec := q } origin =
      computeSystemMultipoleMoments s origin := by
  have hsum : ∀ c, c < 5 →
      ∑ i ∈ Finset.range s.numAtoms, q (5 * i + c) =
        ∑ i ∈ Finset.range s.numAtoms, s.quadrupoleVec (5 * i + c) := by
    intro c hc
    apply Finset.sum_congr rfl
    intro i hi
    have := Finset.mem_range.mp hi
    exact h _ (by omega)
  have hp : posqLocal { s with quadrupoleVec := q } = posqLocal s := rfl
  have h0 := hsum 0 (by norm_num)
  simp only [Nat.add_zero] at h0
  unfold computeSystemMultipoleMoments momentsOfLocal
  rw [hp, foldl_atomicQuadrupoleStep, foldl_atomicQuadrupoleStep]
  simp only [h0, hsum 1 (by norm_num), hsum 2 (by norm_num), hsum 3 (by norm_num),
    hsum 4 (by norm_num)]

/-- When the search loop returns `n`, it has executed `minimum++` exactly
`n - minimum` times. -/
theorem findFFTDimensionIncrements_spec :
    ∀ (fuel : Nat) (m n : Int), findFFTDimensionLoop fuel m = some n →
      m ≤ n ∧ findFFTDimensionIncrements fuel m = some (n - m).toNat := by
  intro fuel
  induction fuel with
  | zero => intro m n h; simp [findFFTDimensionLoop] at h
  | succ fuel ih =>
    intro m n h
    unfold findFFTDimensionLoop at h
    unfold findFFTDimensionIncrements
    by_cases hc : unfactoredPart m = 1
    · rw [if_pos hc] at h
      rw [if_pos hc]
      have hmn : m = n := Option.some.inj h
      subst hmn
      simp
    · rw [if_neg hc] at h
      rw [if_neg hc]
      obtain ⟨h1, h2⟩ := ih (m + 1) n h
      refine ⟨by omega, ?_⟩
      rw [h2]
      simp only [Option.map_some']
      congr 1
      omega

/-- C30: `findFFTDimension` returns for every integer input.  For `minimum < 1`
it returns `1`; for `minimum ≥ 1` it returns some `n` with
`minimum ≤ n < 2*minimum`, after exactly `n - minimum` executions of
`minimum++`, which is fewer than `minimum`. -/
theorem findFFTDimension_terminates (minimum : Int) :
    (minimum < 1 ∧ findFFTDimension minimum = some 1) ∨
      (1 ≤ minimum ∧ ∃ (n : Int) (c : Nat), findFFTDimension minimum = some n ∧
        minimum ≤ n ∧ n < 2 * minimum ∧
        findFFTDimensionIncrements minimum.toNat minimum = some c ∧
        (c : Int) = n - minimum ∧ (c : Int) < minimum) := by
  by_cases h : minimum < 1
  · left
    exact ⟨h, by unfold findFFTDimension; rw [if_pos h]⟩
  · right
    have h1 : 1 ≤ minimum := by omega
    obtain ⟨k, hk1, hk2⟩ := exists_two_pow_between minimum h1
    obtain ⟨n, hn, hmn, hnk, _, _⟩ := findFFTDimensionLoop_spec minimum.toNat minimum (2 ^ k)
      h1 hk1 (onlyFactors2357_two_pow k) (by omega)
    obtain ⟨_, hc⟩ := findFFTDimensionIncrements_spec minimum.toNat minimum n hn
    refine ⟨h1, n, (n - minimum).toNat, ?_, hmn, by omega, hc, by omega, by omega⟩
    unfold findFFTDimension
    rw [if_neg h, hn]

/-! ## The reference point of `computeSystemMultipoleMoments` -/

/-- The mass the method gives an atom is never negative. -/
theorem atomMass_nonneg (s : MomentsInput) (i : Nat) : 0 ≤ atomMass s i := by
  unfold atomMass
  split_ifs with h
  · exact div_nonneg zero_le_one h.le
  · exact le_rfl

/-- The reference point after lines 1534-1547: the mass-weighted mean position
when the total mass is positive, and otherwise the initial value `(0, 0, 0)`,
because then every atom has mass `0` and nothing was accumulated. -/
theorem centerOfMass_eq (s : MomentsInput) :
    centerOfMass s =
      (if 0 < ∑ i ∈ Finset.range s.numAtoms, atomMass s i then
        { x := (∑ i ∈ Finset.range s.numAtoms, atomMass s i * (s.posq i).x) /
                 ∑ i ∈ Finset.range s.numAtoms, atomMass s i,
          y := (∑ i ∈ Finset.range s.numAtoms, atomMass s i * (s.posq i).y) /
                 ∑ i ∈ Finset.range s.numAtoms, atomMass s i,
          z := (∑ i ∈ Finset.range s.numAtoms, atomMass s i * (s.posq i).z) /
                 ∑ i ∈ Finset.range s.numAtoms, atomMass s i }
       else { x := 0, y := 0, z := 0 }) := by
  unfold centerOfMass
  rw [massSums_eq]
  simp only [gt_iff_lt]
  by_cases h : 0 < ∑ i ∈ Finset.range s.numAtoms, atomMass s i
  · rw [if_pos h, if_pos h]
  · rw [if_neg h, if_neg h]
    have hsum : ∑ i ∈ Finset.range s.numAtoms, atomMass s i = 0 :=
      le_antisymm (not_lt.mp h) (Finset.sum_nonneg (fun i _ => atomMass_nonneg s i))
    have hzero : ∀ i ∈ Finset.range s.numAtoms, atomMass s i = 0 :=
      (Finset.sum_eq_zero_iff_of_nonneg (fun i _ => atomMass_nonneg s i)).mp hsum
    have hx : ∑ i ∈ Finset.range s.numAtoms, atomMass s i * (s.posq i).x = 0 :=
      Finset.sum_eq_zero (fun i hi => by rw [hzero i hi, zero_mul])
    have hy : ∑ i ∈ Finset.range s.numAtoms, atomMass s i * (s.posq i).y = 0 :=
      Finset.sum_eq_zero (fun i hi => by rw [hzero i hi, zero_mul])
    have hz : ∑ i ∈ Finset.range s.numAtoms, atomMass s i * (s.posq i).z = 0 :=
      Finset.sum_eq_zero (fun i hi => by rw [hzero i hi, zero_mul])
    rw [hx, hy, hz]

/-- C29: the thirteen values `computeSystemMultipoleMoments` produces are the
same for any two `origin` arguments.  They are computed from positions taken
relative to the centre of mass, or to `(0, 0, 0)` when the total mass is not
positive, the mass of an atom being `1/velm.w` if `velm.w > 0` and `0`
otherwise. -/
theorem moments_origin_independent (s : MomentsInput) (origin1 origin2 : Vec3) :
    computeSystemMultipoleMoments s origin1 = computeSystemMultipoleMoments s origin2 ∧
    (computeSystemMultipoleMoments s origin1).length = 13 ∧
    computeSystemMultipoleMoments s origin1 =
      outputMoments (momentsOfLocal s.numAtoms
        (fun i => { x := (s.posq i).x - (centerOfMass s).x,
                    y := (s.posq i).y - (centerOfMass s).y,
                    z := (s.posq i).z - (centerOfMass s).z,
                    w := (s.posq i).w })
        s.labDipoleVec s.inducedDipoleVec s.quadrupoleVec) ∧
    centerOfMass s =
      (if 0 < ∑ i ∈ Finset.range s.numAtoms,
            (if (s.velm i).w > 0 then 1 / (s.velm i).w else 0) then
        { x := (∑ i ∈ Finset.range s.numAtoms,
                  (if (s.velm i).w > 0 then 1 / (s.velm i).w else 0) * (s.posq i).x) /
                 ∑ i ∈ Finset.range s.numAtoms,
                  (if (s.velm i).w > 0 then 1 / (s.velm i).w else 0),
          y := (∑ i ∈ Finset.range s.numAtoms,
                  (if (s.velm i).w > 0 then 1 / (s.velm i).w else 0) * (s.posq i).y) /
                 ∑ i ∈ Finset.range s.numAtoms,
                  (if (s.velm i).w > 0 then 1 / (s.velm i).w else 0),
          z := (∑ i ∈ Finset.range s.numAtoms,
                  (if (s.velm i).w > 0 then 1 / (s.velm i).w else 0) * (s.posq i).z) /
                 ∑ i ∈ Finset.range s.numAtoms,
                  (if (s.velm i).w > 0 then 1 / (s.velm i).w else 0) }
       else { x := 0, y := 0, z := 0 }) := by
  refine ⟨rfl, rfl, rfl, ?_⟩
  exact centerOfMass_eq s

/-! ## The bonded-term kernels -/

/-- The quotient `a*N/C` does not decrease with `a`. -/
theorem quotient_mono (N C a b : Int) (hN : 0 ≤ N) (hC : 1 ≤ C) (ha : 0 ≤ a) (hab : a ≤ b) :
    (a * N).tdiv C ≤ (b * N).tdiv C := by
  rw [Int.tdiv_eq_ediv (mul_nonneg ha hN) (by omega),
    Int.tdiv_eq_ediv (mul_nonneg (by omega) hN) (by omega)]
  exact Int.ediv_le_ediv (by omega) (mul_le_mul_of_nonneg_right hab hN)

/-- The quotient `0*N/C` is `0`. -/
theorem quotient_zero (N C : Int) : ((0 : Int) * N).tdiv C = 0 := by
  simp

/-- The quotient `C*N/C` is `N`. -/
theorem quotient_last (N C : Int) (hC : 1 ≤ C) : (C * N).tdiv C = N :=
  Int.mul_tdiv_cancel_left N (by omega)

/-- The quotients `a*N/C` for `0 ≤ a ≤ C` lie between `0` and `N`. -/
theorem quotient_range (N C a : Int) (hN : 0 ≤ N) (hC : 1 ≤ C) (ha : 0 ≤ a) (haC : a ≤ C) :
    0 ≤ (a * N).tdiv C ∧ (a * N).tdiv C ≤ N := by
  have h0 := quotient_mono N C 0 a hN hC le_rfl ha
  have h1 := quotient_mono N C a C hN hC ha haC
  rw [quotient_zero] at h0
  rw [quotient_last N C hC] at h1
  exact ⟨h0, h1⟩

/-- Without overflow the start index of context `a` is `a*N/C`. -/
theorem bondedRange_start (N C a : Int) (hN : 0 ≤ N) (hCN : C * N < 2147483648)
    (ha : 0 ≤ a) (haC : a ≤ C) :
    (bondedRange a N C).startIndex = (a * N).tdiv C := by
  have h1 : 0 ≤ a * N := mul_nonneg ha hN
  have h2 : a * N ≤ C * N := mul_le_mul_of_nonneg_right haC hN
  simp only [bondedRange]
  rw [wrapInt32_of_range (a * N) (by omega) (by omega)]

/-- Without overflow the end index of context `a` is `(a+1)*N/C`. -/
theorem bondedRange_end (N C a : Int) (hN : 0 ≤ N) (hC31 : C < 2147483648)
    (hCN : C * N < 2147483648) (ha : 0 ≤ a) (haC : a < C) :
    (bondedRange a N C).endIndex = ((a + 1) * N).tdiv C := by
  have h1 : 0 ≤ (a + 1) * N := mul_nonneg (by omega) hN
  have h2 : (a + 1) * N ≤ C * N := mul_le_mul_of_nonneg_right (by omega) hN
  simp only [bondedRange]
  rw [wrapInt32_of_range (a + 1) (by omega) (by omega),
    wrapInt32_of_range ((a + 1) * N) (by omega) (by omega)]

/-- Without overflow the count of context `a` is the difference of its end and
start index. -/
theorem bondedRange_count (N C a : Int) (hN : 0 ≤ N) (hC : 1 ≤ C) (hC31 : C < 2147483648)
    (hCN : C * N < 2147483648) (ha : 0 ≤ a) (haC : a < C) :
    (bondedRange a N C).count = ((a + 1) * N).tdiv C - (a * N).tdiv C := by
  have hs := bondedRange_start N C a hN hCN ha haC.le
  have he := bondedRange_end N C a hN hC31 hCN ha haC
  have hN31 : N < 2147483648 := by nlinarith
  obtain ⟨s1, s2⟩ := quotient_range N C a hN hC ha haC.le
  obtain ⟨e1, e2⟩ := quotient_range N C (a + 1) hN hC (by omega) (by omega)
  have hc : (bondedRange a N C).count =
      wrapInt32 ((bondedRange a N C).endIndex - (bondedRange a N C).startIndex) := rfl
  rw [hc, hs, he, wrapInt32_of_range _ (by omega) (by omega)]

/-- Without overflow the indices a context reads are the integers from
`a*N/C` up to, not including, `(a+1)*N/C`. -/
theorem assignedIndices_eq (N C a : Int) (hN : 0 ≤ N) (hC : 1 ≤ C) (hC31 : C < 2147483648)
    (hCN : C * N < 2147483648) (ha : 0 ≤ a) (haC : a < C) :
    assignedIndices a N C =
      (List.range (((a + 1) * N).tdiv C - (a * N).tdiv C).toNat).map
        (fun (i : Nat) => (a * N).tdiv C + (i : Int)) := by
  unfold assignedIndices
  simp only
  rw [bondedRange_count N C a hN hC hC31 hCN ha haC, bondedRange_start N C a hN hCN ha haC.le]
  by_cases h : ((a + 1) * N).tdiv C - (a * N).tdiv C = 0
  · rw [if_pos h, h]
    rfl
  · rw [if_neg h]

/-- Appending the integers from `A` up to `B` to those below `A`. -/
theorem range_cast_append (A B : Int) (hA : 0 ≤ A) (hAB : A ≤ B) :
    (List.range A.toNat).map (fun (j : Nat) => (j : Int)) ++
        (List.range (B - A).toNat).map (fun (i : Nat) => A + (i : Int)) =
      (List.range B.toNat).map (fun (j : Nat) => (j : Int)) := by
  have hle : A.toNat ≤ B.toNat := Int.toNat_le_toNat hAB
  rw [← range_append_range' A.toNat B.toNat hle, List.map_append]
  congr 1
  rw [List.range'_eq_map_range, List.map_map]
  have hlen : (B - A).toNat = B.toNat - A.toNat := by omega
  rw [hlen]
  apply List.map_congr_left
  intro i _
  simp only [Function.comp]
  push_cast
  rw [Int.toNat_of_nonneg hA]

/-- Without overflow the indices read by the first `k ≤ C` contexts, in order,
are `0 .. k*N/C - 1`. -/
theorem flatten_assignedIndices (N C : Int) (hN : 0 ≤ N) (hC : 1 ≤ C)
    (hC31 : C < 2147483648) (hCN : C * N < 2147483648) (k : Nat) (hk : (k : Int) ≤ C) :
    ((List.range k).map (fun (i : Nat) => assignedIndices (i : Int) N C)).flatten =
      (List.range (((k : Int) * N).tdiv C).toNat).map (fun (j : Nat) => (j : Int)) := by
  induction k with
  | zero => simp
  | succ k ih =>
    have hk2 : ((k + 1 : Nat) : Int) = (k : Int) + 1 := by push_cast; rfl
    rw [hk2] at hk
    rw [List.range_succ, List.map_append, List.flatten_append, ih (by omega)]
    simp only [List.map_cons, List.map_nil, List.flatten_cons, List.flatten_nil,
      List.append_nil]
    rw [assignedIndices_eq N C k hN hC hC31 hCN (by omega) (by omega), hk2]
    apply range_cast_append
    · exact (quotient_range N C k hN hC (by omega) (by omega)).1
    · exact quotient_mono N C k (k + 1) hN hC (by omega) (by omega)

/-- Without overflow the counts of the first `k ≤ C` contexts add up to
`k*N/C`. -/
theorem sum_bonded_count (N C : Int) (hN : 0 ≤ N) (hC : 1 ≤ C) (hC31 : C < 2147483648)
    (hCN : C * N < 2147483648) (k : Nat) (hk : (k : Int) ≤ C) :
    ∑ i ∈ Finset.range k, (bondedRange (i : Int) N C).count = ((k : Int) * N).tdiv C := by
  induction k with
  | zero => simp
  | succ k ih =>
    have hk2 : ((k + 1 : Nat) : Int) = (k : Int) + 1 := by push_cast; rfl
    rw [hk2] at hk
    rw [Finset.sum_range_succ, ih (by omega),
      bondedRange_count N C k hN hC hC31 hCN (by omega) (by omega), hk2]
    ring

/-- Every index below `k*N/C` lies between `i*N/C` and `(i+1)*N/C` for some
`i < k`. -/
theorem quotient_cover (N C : Int) (k : Nat) (j : Int)
    (hj : 0 ≤ j) (hjk : j < ((k : Int) * N).tdiv C) :
    ∃ i : Nat, i < k ∧ ((i : Int) * N).tdiv C ≤ j ∧ j < (((i : Int) + 1) * N).tdiv C := by
  induction k with
  | zero =>
    simp at hjk
    omega
  | succ k ih =>
    have hk : ((k + 1 : Nat) : Int) = (k : Int) + 1 := by push_cast; rfl
    rw [hk] at hjk
    by_cases h : j < ((k : Int) * N).tdiv C
    · obtain ⟨i, hi, h1, h2⟩ := ih h
      exact ⟨i, by omega, h1, h2⟩
    · exact ⟨k, by omega, by omega, hjk⟩

/-- C25 (as stated) fails on the 32-bit `int` of the source: with `10^9`
interactions on 3 contexts the product `(2+1)*10^9` of line 99 overflows for
context 2, whose end index becomes `-431655765` and whose count `-1098322431`;
the three counts add up to `-431655765`, not to `10^9`. -/
theorem bonded_range_overflow :
    (bondedRange 2 1000000000 3).startIndex = 666666666 ∧
    (bondedRange 2 1000000000 3).endIndex = -431655765 ∧
    (bondedRange 2 1000000000 3).count = -1098322431 ∧
    (bondedRange 0 1000000000 3).count + (bondedRange 1 1000000000 3).count +
      (bondedRange 2 1000000000 3).count = -431655765 := by
  decide

/-- C25 (amended): for an interaction count `N ≥ 0` and `C ≥ 1` contexts with
`C*N < 2^31`, so that the `int` products of lines 98-99 do not overflow, the
ranges `[i*N/C, (i+1)*N/C)` the bonded-term `initialize` methods give to the
contexts `i = 0 .. C-1` start at `0`, end at `N`, each begin where the one
before ends, are pairwise disjoint, cover every index of `[0, N)` and nothing
else, and their sizes sum to `N`; read in context order, the indices the
contexts read are `0, 1, ..., N-1`. -/
theorem bonded_ranges_partition (N C : Int) (hN : 0 ≤ N) (hC : 1 ≤ C)
    (hCN : C * N < 2147483648) (hC31 : C < 2147483648) :
    (bondedRange 0 N C).startIndex = 0 ∧
    (bondedRange (C - 1) N C).endIndex = N ∧
    (∀ i : Int, 0 ≤ i → i < C →
      (bondedRange i N C).startIndex = (i * N).tdiv C ∧
      (bondedRange i N C).endIndex = ((i + 1) * N).tdiv C ∧
      (i + 1 < C → (bondedRange i N C).endIndex = (bondedRange (i + 1) N C).startIndex) ∧
      (bondedRange i N C).startIndex ≤ (bondedRange i N C).endIndex ∧
      0 ≤ (bondedRange i N C).startIndex ∧ (bondedRange i N C).endIndex ≤ N ∧
      (bondedRange i N C).count =
        (bondedRange i N C).endIndex - (bondedRange i N C).startIndex) ∧
    (∀ i i2 j : Int, 0 ≤ i → i < i2 → i2 < C →
      ¬ ((bondedRange i N C).startIndex ≤ j ∧ j < (bondedRange i N C).endIndex ∧
         (bondedRange i2 N C).startIndex ≤ j ∧ j < (bondedRange i2 N C).endIndex)) ∧
    (∀ j : Int, 0 ≤ j → j < N → ∃ i : Int, 0 ≤ i ∧ i < C ∧
      (bondedRange i N C).startIndex ≤ j ∧ j < (bondedRange i N C).endIndex) ∧
    ∑ i ∈ Finset.range C.toNat, (bondedRange (i : Int) N C).count = N ∧
    ((List.range C.toNat).map (fun (i : Nat) => assignedIndices (i : Int) N C)).flatten =
      (List.range N.toNat).map (fun (j : Nat) => (j : Int)) := by
  have hCn : ((C.toNat : Nat) : Int) = C := Int.toNat_of_nonneg (by omega)
  have hs : ∀ a : Int, 0 ≤ a → a ≤ C → (bondedRange a N C).startIndex = (a * N).tdiv C :=
    fun a ha haC => bondedRange_start N C a hN hCN ha haC
  have he : ∀ a : Int, 0 ≤ a → a < C → (bondedRange a N C).endIndex = ((a + 1) * N).tdiv C :=
    fun a ha haC => bondedRange_end N C a hN hC31 hCN ha haC
  refine ⟨?_, ?_, ?_, ?_, ?_, ?_, ?_⟩
  · rw [hs 0 le_rfl (by omega), quotient_zero]
  · rw [he (C - 1) (by omega) (by omega)]
    have : C - 1 + 1 = C := by ring
    rw [this]
    exact quotient_last N C hC
  · intro i hi0 hiC
    have hmono := quotient_mono N C i (i + 1) hN hC hi0 (by omega)
    obtain ⟨s1, _⟩ := quotient_range N C i hN hC hi0 hiC.le
    obtain ⟨_, e2⟩ := quotient_range N C (i + 1) hN hC (by omega) (by omega)
    refine ⟨hs i hi0 hiC.le, he i hi0 hiC, ?_, ?_, ?_, ?_, ?_⟩
    · intro hnext
      rw [he i hi0 hiC, hs (i + 1) (by omega) (by omega)]
    · rw [hs i hi0 hiC.le, he i hi0 hiC]
      exact hmono
    · rw [hs i hi0 hiC.le]
      exact s1
    · rw [he i hi0 hiC]
      exact e2
    · rw [bondedRange_count N C i hN hC hC31 hCN hi0 hiC, hs i hi0 hiC.le, he i hi0 hiC]
  · intro i i2 j hi0 hii hiC ⟨_, h2, h3, _⟩
    rw [he i hi0 (by omega)] at h2
    rw [hs i2 (by omega) hiC.le] at h3
    have := quotient_mono N C (i + 1) i2 hN hC (by omega) (by omega)
    omega
  · intro j hj0 hjN
    obtain ⟨i, hi, h1, h2⟩ := quotient_cover N C C.toNat j hj0
      (by rw [hCn, quotient_last N C hC]; exact hjN)
    refine ⟨(i : Int), by omega, by omega, ?_, ?_⟩
    · rw [hs i (by omega) (by omega)]
      exact h1
    · rw [he i (by omega) (by omega)]
      exact h2
  · rw [sum_bonded_count N C hN hC hC31 hCN C.toNat (by omega), hCn, quotient_last N C hC]
  · rw [flatten_assignedIndices N C hN hC hC31 hCN C.toNat (by omega), hCn,
      quotient_last N C hC]

/-- Witness for C25 (amended): seven interactions on three contexts. -/
theorem bonded_ranges_partition_witness :
    (0 : Int) ≤ 7 ∧ (1 : Int) ≤ 3 ∧ (3 : Int) * 7 < 2147483648 ∧ (3 : Int) < 2147483648 ∧
    (bondedRange 0 7 3).startIndex = 0 ∧
    (bondedRange (3 - 1) 7 3).endIndex = 7 ∧
    (∀ i : Int, 0 ≤ i → i < 3 →
      (bondedRange i 7 3).startIndex = (i * 7).tdiv 3 ∧
      (bondedRange i 7 3).endIndex = ((i + 1) * 7).tdiv 3 ∧
      (i + 1 < 3 → (bondedRange i 7 3).endIndex = (bondedRange (i + 1) 7 3).startIndex) ∧
      (bondedRange i 7 3).startIndex ≤ (bondedRange i 7 3).endIndex ∧
      0 ≤ (bondedRange i 7 3).startIndex ∧ (bondedRange i 7 3).endIndex ≤ 7 ∧
      (bondedRange i 7 3).count =
        (bondedRange i 7 3).endIndex - (bondedRange i 7 3).startIndex) ∧
    (∀ i i2 j : Int, 0 ≤ i → i < i2 → i2 < 3 →
      ¬ ((bondedRange i 7 3).startIndex ≤ j ∧ j < (bondedRange i 7 3).endIndex ∧
         (bondedRange i2 7 3).startIndex ≤ j ∧ j < (bondedRange i2 7 3).endIndex)) ∧
    (∀ j : Int, 0 ≤ j → j < 7 → ∃ i : Int, 0 ≤ i ∧ i < 3 ∧
      (bondedRange i 7 3).startIndex ≤ j ∧ j < (bondedRange i 7 3).endIndex) ∧
    ∑ i ∈ Finset.range (3 : Int).toNat, (bondedRange (i : Int) 7 3).count = 7 ∧
    ((List.range (3 : Int).toNat).map (fun (i : Nat) => assignedIndices (i : Int) 7 3)).flatten =
      (List.range (7 : Int).toNat).map (fun (j : Nat) => (j : Int)) :=
  ⟨by decide, by decide, by decide, by decide,
    bonded_ranges_partition 7 3 (by decide) (by decide) (by decide) (by decide)⟩

/-- C28: six of the seven bonded-term kernels return `0.0` from `execute` for
every combination of `includeForces` and `includeEnergy`; the body of the
stretch-bend kernel's `execute` (lines 577-578) is empty, so it returns no value. -/
theorem bonded_execute_values (k : BondedKernel) (includeForces includeEnergy : Bool) :
    k.execute includeForces includeEnergy =
      (if k = BondedKernel.stretchBend then none else some 0) ∧
    BondedKernel.stretchBend.execute includeForces includeEnergy ≠ some 0 := by
  cases k <;> cases includeForces <;> cases includeEnergy <;>
    simp [BondedKernel.execute] <;> norm_num

/-! ## Buffer clears in the loop of `execute` -/

/-- No stage of `execute` issues `cu.clearBuffer(*pmeGrid)`. -/
theorem no_grid_clear (initialized dp : Bool) :
    ((if initialized then [] else [Event.initializeScaleFactors]) ++
      [Event.executeKernel Kernel.computeLabFrameMoments
        [Arg.posq, Arg.multipoleParticles, Arg.molecularDipoles, Arg.molecularQuadrupoles,
         Arg.labFrameDipoles, Arg.labFrameQuadrupoles]] ++
      fixedFieldEvents ++ inducedBody ++ forceEvents ++
      pmeFixedFieldEvents dp ++ pmeInducedBody dp ++ pmeForceEvents).all
        (fun e => decide (e ≠ Event.clearBuffer Arg.pmeGrid)) = true := by
  cases initialized <;> cases dp <;> decide

/-- The two clears at the head of either loop body, and the uses that follow. -/
theorem body_clears (dp : Bool) :
    inducedBody.take 2 =
      [Event.clearBuffer Arg.inducedField, Event.clearBuffer Arg.inducedFieldPolar] ∧
    (pmeInducedBody dp).take 2 =
      [Event.clearBuffer Arg.inducedField, Event.clearBuffer Arg.inducedFieldPolar] ∧
    clearedBeforeFirstUse Arg.inducedField inducedBody = true ∧
    clearedBeforeFirstUse Arg.inducedFieldPolar inducedBody = true ∧
    clearedBeforeFirstUse Arg.inducedField (pmeInducedBody dp) = true ∧
    clearedBeforeFirstUse Arg.inducedFieldPolar (pmeInducedBody dp) = true ∧
    inducedBody.any (Event.uses Arg.inducedField) = true ∧
    inducedBody.any (Event.uses Arg.inducedFieldPolar) = true ∧
    (pmeInducedBody dp).any (Event.uses Arg.inducedField) = true ∧
    (pmeInducedBody dp).any (Event.uses Arg.inducedFieldPolar) = true ∧
    inducedBody.any (Event.uses Arg.pmeGrid) = false ∧
    (pmeInducedBody dp).any (Event.uses Arg.pmeGrid) = true ∧
    clearedBeforeFirstUse Arg.pmeGrid (pmeInducedBody dp) = false ∧
    (pmeInducedBody dp).find? (Event.uses Arg.pmeGrid) = some spreadInducedEvent := by
  cases dp <;> decide

/-- C21 (as stated) fails for the PME grid: in a PME call whose loop runs one
iteration, that iteration hands `pmeGrid` to device code, first in the
`gridSpreadInducedDipoles` launch, and no `cu.clearBuffer(*pmeGrid)` comes
before it; the call issues no clear of `pmeGrid` at all. -/
theorem pme_grid_not_cleared :
    (execute pmeMutualKernel settledInput).loop.iterations = 1 ∧
    (execute pmeMutualKernel settledInput).loop.events.find? (Event.uses Arg.pmeGrid) =
      some (Event.executeKernel Kernel.gridSpreadInducedDipoles pmeSpreadInducedDipolesArgs) ∧
    clearedBeforeFirstUse Arg.pmeGrid (execute pmeMutualKernel settledInput).loop.events =
      false ∧
    (execute pmeMutualKernel settledInput).events.all
      (fun e => decide (e ≠ Event.clearBuffer Arg.pmeGrid)) = true := by
  have hit : (execute pmeMutualKernel settledInput).loop.iterations = 1 := by
    norm_num [execute, scfLoop, inducedLoop, pmeMutualKernel, settledInput, convergenceTest,
      total1, total2]
  have hloop : (execute pmeMutualKernel settledInput).loop.events = pmeInducedBody false := by
    norm_num [execute, scfLoop, inducedLoop, pmeMutualKernel, settledInput, convergenceTest,
      total1, total2]
  have hev : (execute pmeMutualKernel settledInput).events =
      momentsEvents pmeMutualKernel ++
        (pmeFixedFieldEvents false ++ pmeInducedBody false ++ pmeForceEvents) := by
    norm_num [execute, scfLoop, inducedLoop, pmeMutualKernel, settledInput, convergenceTest,
      total1, total2]
  rw [hloop, hev]
  exact ⟨hit, by decide, by decide, by decide⟩

/-- C21 (amended): the events of the loop of `execute` are those of its body,
once per iteration.  In either branch the body begins with the host clears of
`inducedField` and `inducedFieldPolar`, so each of the two is cleared before
the first kernel of the iteration that takes it as an argument.  The PME grid
is handed to device code in every iteration of the PME branch (and in none
without PME) without a preceding host clear, and `execute` never issues
`cu.clearBuffer(*pmeGrid)`. -/
theorem induced_field_buffers_cleared (k : MultipoleKernel) (input : ExecuteInput) :
    (execute k input).loop.events =
      (List.replicate (execute k input).loop.iterations (scfBody k input)).flatten ∧
    (scfBody k input).take 2 =
      [Event.clearBuffer Arg.inducedField, Event.clearBuffer Arg.inducedFieldPolar] ∧
    clearedBeforeFirstUse Arg.inducedField (scfBody k input) = true ∧
    clearedBeforeFirstUse Arg.inducedFieldPolar (scfBody k input) = true ∧
    (scfBody k input).any (Event.uses Arg.inducedField) = true ∧
    (scfBody k input).any (Event.uses Arg.inducedFieldPolar) = true ∧
    (scfBody k input).any (Event.uses Arg.pmeGrid) = !k.pmeGrid.isNone ∧
    clearedBeforeFirstUse Arg.pmeGrid (scfBody k input) = false ∧
    ∀ e ∈ (execute k input).events, e ≠ Event.clearBuffer Arg.pmeGrid := by
  obtain ⟨b1, b2, b3, b4, b5, b6, b7, b8, b9, b10, b11, b12, b13, _⟩ :=
    body_clears input.useDoublePrecision
  have hloop : (execute k input).loop.events =
      (List.replicate (execute k input).loop.iterations (scfBody k input)).flatten :=
    (inducedLoop_spec _ _ _ _).2.1
  have hall := no_grid_clear k.hasInitializedScaleFactors input.useDoublePrecision
  have hno : ∀ e ∈ (execute k input).events, e ≠ Event.clearBuffer Arg.pmeGrid := by
    intro e he
    have hmem : e ∈ (if k.hasInitializedScaleFactors then [] else [Event.initializeScaleFactors]) ++
        [Event.executeKernel Kernel.computeLabFrameMoments
          [Arg.posq, Arg.multipoleParticles, Arg.molecularDipoles, Arg.molecularQuadrupoles,
           Arg.labFrameDipoles, Arg.labFrameQuadrupoles]] ++
        fixedFieldEvents ++ inducedBody ++ forceEvents ++
        pmeFixedFieldEvents input.useDoublePrecision ++ pmeInducedBody input.useDoublePrecision ++
        pmeForceEvents := by
      rw [execute_events] at he
      unfold momentsEvents at he
      by_cases hp : k.pmeGrid.isNone = true
      · simp only [hp, if_true, List.mem_append] at he
        simp only [List.mem_append]
        rcases he with h | (h | h) | h
        · tauto
        · tauto
        · have := mem_flatten_replicate h
          tauto
        · tauto
      · have hp2 : k.pmeGrid.isNone = false := Bool.eq_false_iff.mpr hp
        simp only [hp2, Bool.false_eq_true, if_false, List.mem_append] at he
        simp only [List.mem_append]
        rcases he with h | (h | h) | h
        · tauto
        · tauto
        · have := mem_flatten_replicate h
          tauto
        · tauto
    have := List.all_eq_true.mp hall e hmem
    simpa using this
  unfold scfBody at hloop ⊢
  by_cases hp : k.pmeGrid.isNone = true
  · simp only [hp, if_true] at hloop ⊢
    refine ⟨hloop, b1, b3, b4, b7, b8, ?_, ?_, hno⟩
    · rw [b11]; rfl
    · decide
  · have hp2 : k.pmeGrid.isNone = false := Bool.eq_false_iff.mpr hp
    simp only [hp2, Bool.false_eq_true, if_false] at hloop ⊢
    exact ⟨hloop, b2, b5, b6, b9, b10, by rw [b12]; rfl, b13, hno⟩

/-! ## The near-zero pass -/

/-- Reading a vector after one store. -/
theorem getD_set (v : List ℚ) (i j : Nat) (a : ℚ) (hi : i < v.length) :
    (v.set i a).getD j 0 = if i = j then a else v.getD j 0 := by
  rw [List.getD_eq_getElem?_getD, List.getD_eq_getElem?_getD, List.getElem?_set]
  by_cases h : i = j
  · subst h
    simp [hi]
  · simp [h]

/-- A read at a natural index. -/
theorem readAt_nat (v : List ℚ) (i : Nat) : readAt v (i : Int) = v[i]? := by
  unfold readAt
  simp

/-- A read inside the vector yields the entry. -/
theorem readAt_inside (v : List ℚ) (i : Nat) (hi : i < v.length) :
    readAt v (i : Int) = some (v.getD i 0) := by
  rw [readAt_nat, List.getD_eq_getElem?_getD, List.getElem?_eq_getElem hi]
  rfl

/-- Line 1161-1162 on a vector of at least two entries. -/
theorem substituteFirst_eq (v : List ℚ) (h : 2 ≤ v.length) :
    substituteFirst v =
      some (if v.getD 0 0 < moduliEps then v.set 0 (0.9 * v.getD 1 0) else v) := by
  unfold substituteFirst
  have h0 := readAt_inside v 0 (by omega)
  have h1 := readAt_inside v 1 (by omega)
  simp only [Nat.cast_zero, Nat.cast_one] at h0 h1
  rw [h0]
  simp only [h1]
  split_ifs <;> rfl

/-- Lines 1164-1165 for an interior index. -/
theorem substituteInterior_eq (v : List ℚ) (i : Nat) (h1 : 1 ≤ i) (h2 : i + 1 < v.length) :
    substituteInterior v i =
      some (if v.getD i 0 < moduliEps then
              v.set i (0.9 * (v.getD (i - 1) 0 + v.getD (i + 1) 0))
            else v) := by
  unfold substituteInterior
  have hm := readAt_inside v i (by omega)
  have hl := readAt_inside v (i - 1) (by omega)
  have hr := readAt_inside v (i + 1) (by omega)
  have e1 : (((i - 1 : Nat)) : Int) = (i : Int) - 1 := by omega
  have e2 : (((i + 1 : Nat)) : Int) = (i : Int) + 1 := by omega
  rw [e1] at hl
  rw [e2] at hr
  rw [hm]
  simp only [hl, hr]
  split_ifs <;> rfl

/-- Lines 1166-1167 on a vector of at least two entries. -/
theorem substituteLast_eq (v : List ℚ) (h : 2 ≤ v.length) :
    substituteLast v =
      some (if v.getD (v.length - 1) 0 < moduliEps then
              v.set (v.length - 1) (0.9 * v.getD (v.length - 2) 0)
            else v) := by
  unfold substituteLast
  have h0 := readAt_inside v (v.length - 1) (by omega)
  have h1 := readAt_inside v (v.length - 2) (by omega)
  have e1 : (((v.length - 1 : Nat)) : Int) = (v.length : Int) - 1 := by omega
  have e2 : (((v.length - 2 : Nat)) : Int) = (v.length : Int) - 2 := by omega
  rw [e1] at h0
  rw [e2] at h1
  rw [h0]
  simp only [h1]
  split_ifs <;> rfl

/-- The loop of lines 1163-1165 after `c` rounds, started on the vector line
1162 leaves: the entries up to `c` have their final values, the others are
still the original ones. -/
theorem interiorLoop_spec (m : List ℚ) :
    ∀ (c : Nat), c + 2 ≤ m.length → ∀ v0 : List ℚ, v0.length = m.length →
      v0.getD 0 0 = nearZeroValue m 0 → (∀ j, 1 ≤ j → v0.getD j 0 = m.getD j 0) →
      ∃ v, (List.range' 1 c).foldlM substituteInterior v0 = some v ∧ v.length = m.length ∧
        (∀ j, j ≤ c → v.getD j 0 = nearZeroValue m j) ∧
        (∀ j, c < j → v.getD j 0 = m.getD j 0) := by
  intro c
  induction c with
  | zero =>
    intro _ v0 hlen h0 hrest
    refine ⟨v0, rfl, hlen, ?_, ?_⟩
    · intro j hj
      have : j = 0 := by omega
      subst this
      exact h0
    · intro j hj
      exact hrest j hj
  | succ c ih =>
    intro hc v0 hlen h0 hrest
    obtain ⟨v, hv, hvlen, hlow, hhigh⟩ := ih (by omega) v0 hlen h0 hrest
    have hstep := substituteInterior_eq v (1 + c) (by omega) (by omega)
    have e1 : 1 + c - 1 = c := by omega
    have e2 : 1 + c + 1 = c + 2 := by omega
    have e3 : 1 + c = c + 1 := by omega
    rw [e1, e2, e3, hhigh (c + 1) (by omega), hhigh (c + 2) (by omega), hlow c le_rfl] at hstep
    refine ⟨if m.getD (c + 1) 0 < moduliEps then
        v.set (c + 1) (0.9 * (nearZeroValue m c + m.getD (c + 2) 0)) else v, ?_, ?_, ?_, ?_⟩
    · rw [List.range'_1_concat, List.foldlM_append, hv, e3]
      simp only [Option.bind_eq_bind, Option.some_bind, List.foldlM_cons, List.foldlM_nil]
      rw [hstep]
      rfl
    · split_ifs
      · rw [List.length_set, hvlen]
      · exact hvlen
    · intro j hj
      by_cases hjc : j = c + 1
      · subst hjc
        have hnz : nearZeroValue m (c + 1) =
            if m.getD (c + 1) 0 < moduliEps then
              0.9 * (nearZeroValue m c + m.getD (c + 2) 0)
            else m.getD (c + 1) 0 := rfl
        rw [hnz]
        split_ifs with hlt
        · rw [getD_set v (c + 1) (c + 1) _ (by omega), if_pos rfl]
        · exact hhigh (c + 1) (by omega)
      · split_ifs with hlt
        · rw [getD_set v (c + 1) j _ (by omega), if_neg (by omega)]
          exact hlow j (by omega)
        · exact hlow j (by omega)
    · intro j hj
      split_ifs with hlt
      · rw [getD_set v (c + 1) j _ (by omega), if_neg (by omega)]
        exact hhigh j (by omega)
      · exact hhigh j (by omega)

/-- The whole pass on a vector of at least two entries: it returns, and every
entry has the value the description gives it. -/
theorem substituteNearZero_values (m : List ℚ) (h : 2 ≤ m.length) :
    ∃ w, substituteNearZero m = some w ∧ w.length = m.length ∧
      (∀ j, j + 2 ≤ m.length → w.getD j 0 = nearZeroValue m j) ∧
      w.getD (m.length - 1) 0 = nearZeroLast m := by
  unfold substituteNearZero
  rw [substituteFirst_eq m h]
  have hlen0 : (if m.getD 0 0 < moduliEps then m.set 0 (0.9 * m.getD 1 0) else m).length =
      m.length := by
    split_ifs
    · rw [List.length_set]
    · rfl
  have h0 : (if m.getD 0 0 < moduliEps then m.set 0 (0.9 * m.getD 1 0) else m).getD 0 0 =
      nearZeroValue m 0 := by
    have hnz : nearZeroValue m 0 =
        if m.getD 0 0 < moduliEps then 0.9 * m.getD 1 0 else m.getD 0 0 := rfl
    rw [hnz]
    split_ifs
    · rw [getD_set m 0 0 _ (by omega), if_pos rfl]
    · rfl
  have hrest : ∀ j, 1 ≤ j →
      (if m.getD 0 0 < moduliEps then m.set 0 (0.9 * m.getD 1 0) else m).getD j 0 =
        m.getD j 0 := by
    intro j hj
    split_ifs
    · rw [getD_set m 0 j _ (by omega), if_neg (by omega)]
    · rfl
  obtain ⟨v, hv, hvlen, hlow, hhigh⟩ :=
    interiorLoop_spec m (m.length - 2) (by omega) _ hlen0 h0 hrest
  simp only [hv]
  rw [substituteLast_eq v (by omega), hvlen, hhigh (m.length - 1) (by omega),
    hlow (m.length - 2) le_rfl]
  refine ⟨if m.getD (m.length - 1) 0 < moduliEps then
      v.set (m.length - 1) (0.9 * nearZeroValue m (m.length - 2)) else v, ?_, ?_, ?_, ?_⟩
  · have e : m.length - 1 - 1 = m.length - 2 := by omega
    simp only [e]
  · split_ifs
    · rw [List.length_set, hvlen]
    · exact hvlen
  · intro j hj
    split_ifs
    · rw [getD_set v (m.length - 1) j _ (by omega), if_neg (by omega)]
      exact hlow j (by omega)
    · exact hlow j (by omega)
  · unfold nearZeroLast
    split_ifs
    · rw [getD_set v (m.length - 1) (m.length - 1) _ (by omega), if_pos rfl]
    · exact hhigh (m.length - 1) (by omega)

/-- An entry that is not below `eps` keeps its value in `nearZeroValue`. -/
theorem nearZeroValue_keep (m : List ℚ) (j : Nat) (h : moduliEps ≤ m.getD j 0) :
    nearZeroValue m j = m.getD j 0 := by
  cases j with
  | zero =>
    have hnz : nearZeroValue m 0 =
        if m.getD 0 0 < moduliEps then 0.9 * m.getD 1 0 else m.getD 0 0 := rfl
    rw [hnz, if_neg (not_lt.mpr h)]
  | succ i =>
    have hnz : nearZeroValue m (i + 1) =
        if m.getD (i + 1) 0 < moduliEps then
          0.9 * (nearZeroValue m i + m.getD (i + 2) 0)
        else m.getD (i + 1) 0 := rfl
    rw [hnz, if_neg (not_lt.mpr h)]

/-- C22: on a vector `moduli` of `ndata ≥ 2` entries the near-zero pass returns
a vector `w` of the same length in which every entry that is at least `1e-7`
keeps its value, and an entry below `1e-7` is replaced: index `0` by
`0.9*moduli[1]`, an interior index `i` by `0.9*(w[i-1] + moduli[i+1])` (the
left neighbour as the pass left it, the right neighbour as it was), the last
index by `0.9*w[ndata-2]`. -/
theorem near_zero_pass (moduli : List ℚ) (h : 2 ≤ moduli.length) :
    ∃ w, substituteNearZero moduli = some w ∧ w.length = moduli.length ∧
      (∀ i, i < moduli.length → moduliEps ≤ moduli.getD i 0 →
        w.getD i 0 = moduli.getD i 0) ∧
      (moduli.getD 0 0 < moduliEps → w.getD 0 0 = 0.9 * moduli.getD 1 0) ∧
      (∀ i, 1 ≤ i → i + 1 < moduli.length → moduli.getD i 0 < moduliEps →
        w.getD i 0 = 0.9 * (w.getD (i - 1) 0 + moduli.getD (i + 1) 0)) ∧
      (moduli.getD (moduli.length - 1) 0 < moduliEps →
        w.getD (moduli.length - 1) 0 = 0.9 * w.getD (moduli.length - 2) 0) := by
  obtain ⟨w, hw, hlen, hlow, hlast⟩ := substituteNearZero_values moduli h
  refine ⟨w, hw, hlen, ?_, ?_, ?_, ?_⟩
  · intro i hi hge
    by_cases hil : i + 2 ≤ moduli.length
    · rw [hlow i hil, nearZeroValue_keep moduli i hge]
    · have hi2 : i = moduli.length - 1 := by omega
      subst hi2
      rw [hlast]
      unfold nearZeroLast
      rw [if_neg (not_lt.mpr hge)]
  · intro hlt
    rw [hlow 0 (by omega)]
    have hnz : nearZeroValue moduli 0 =
        if moduli.getD 0 0 < moduliEps then 0.9 * moduli.getD 1 0 else moduli.getD 0 0 := rfl
    rw [hnz, if_pos hlt]
  · intro i hi1 hi2 hlt
    obtain ⟨c, rfl⟩ : ∃ c, i = c + 1 := ⟨i - 1, by omega⟩
    rw [hlow (c + 1) (by omega)]
    have hnz : nearZeroValue moduli (c + 1) =
        if moduli.getD (c + 1) 0 < moduliEps then
          0.9 * (nearZeroValue moduli c + moduli.getD (c + 2) 0)
        else moduli.getD (c + 1) 0 := rfl
    rw [hnz, if_pos hlt]
    have e : c + 1 - 1 = c := by omega
    rw [e, hlow c (by omega)]
  · intro hlt
    rw [hlast, hlow (moduli.length - 2) (by omega)]
    unfold nearZeroLast
    rw [if_pos hlt]

/-- Witness for C22: the vector `0, 1, 0, 0`. -/
theorem near_zero_pass_witness :
    2 ≤ ([0, 1, 0, 0] : List ℚ).length ∧
    ∃ w, substituteNearZero [0, 1, 0, 0] = some w ∧ w.length = ([0, 1, 0, 0] : List ℚ).length ∧
      (∀ i, i < ([0, 1, 0, 0] : List ℚ).length → moduliEps ≤ ([0, 1, 0, 0] : List ℚ).getD i 0 →
        w.getD i 0 = ([0, 1, 0, 0] : List ℚ).getD i 0) ∧
      (([0, 1, 0, 0] : List ℚ).getD 0 0 < moduliEps →
        w.getD 0 0 = 0.9 * ([0, 1, 0, 0] : List ℚ).getD 1 0) ∧
      (∀ i, 1 ≤ i → i + 1 < ([0, 1, 0, 0] : List ℚ).length →
        ([0, 1, 0, 0] : List ℚ).getD i 0 < moduliEps →
        w.getD i 0 = 0.9 * (w.getD (i - 1) 0 + ([0, 1, 0, 0] : List ℚ).getD (i + 1) 0)) ∧
      (([0, 1, 0, 0] : List ℚ).getD (([0, 1, 0, 0] : List ℚ).length - 1) 0 < moduliEps →
        w.getD (([0, 1, 0, 0] : List ℚ).length - 1) 0 =
          0.9 * w.getD (([0, 1, 0, 0] : List ℚ).length - 2) 0) :=
  ⟨by decide, near_zero_pass [0, 1, 0, 0] (by decide)⟩

/-! ## The B-spline coefficients -/

/-- The coefficients for spline order 5. -/
theorem originSplineData_five :
    originSplineData 5 = [1/24, 11/24, 11/24, 1/24, 0] := by
  norm_num [originSplineData, splineData, splineRound, splineInnerStep, List.range'_succ,
    List.replicate]

/-- The inner loop of lines 1131-1132 after `c` rounds: the entries
`i-c .. i-1` hold their new values, computed from the entries the loop
started with; the others are untouched. -/
theorem splineInner_spec (x denom : ℚ) (i : Nat) (d1 : List ℚ) (hi : i < d1.length) :
    ∀ c, c + 1 ≤ i →
      ((List.range' 1 c).foldl (splineInnerStep x denom i) d1).length = d1.length ∧
      (∀ k, i - c ≤ k → k < i →
        ((List.range' 1 c).foldl (splineInnerStep x denom i) d1).getD k 0 =
          ((x + ((i - k : Nat) : ℚ)) * d1.getD (k - 1) 0 +
            (((k + 1 : Nat) : ℚ) - x) * d1.getD k 0) * denom) ∧
      (∀ k, (k < i - c ∨ i ≤ k) →
        ((List.range' 1 c).foldl (splineInnerStep x denom i) d1).getD k 0 = d1.getD k 0) := by
  intro c
  induction c with
  | zero =>
    intro _
    refine ⟨rfl, ?_, ?_⟩
    · intro k h1 h2
      omega
    · intro k _
      rfl
  | succ c ih =>
    intro hc
    obtain ⟨hlen, hnew, hold⟩ := ih (by omega)
    rw [List.range'_1_concat, List.foldl_append]
    simp only [List.foldl_cons, List.foldl_nil]
    generalize (List.range' 1 c).foldl (splineInnerStep x denom i) d1 = d at hlen hnew hold
    unfold splineInnerStep
    have e1 : i - (1 + c) + 1 = i - c := by omega
    have hk0 : i - (1 + c) < d.length := by omega
    refine ⟨by rw [List.length_set, hlen], ?_, ?_⟩
    · intro k h1 h2
      rw [getD_set d _ k _ hk0]
      by_cases hk : i - (1 + c) = k
      · rw [if_pos hk, hold (i - (1 + c) - 1) (Or.inl (by omega)),
          hold (i - (1 + c)) (Or.inl (by omega))]
        have e2 : i - k = 1 + c := by omega
        rw [e2, hk]
      · rw [if_neg hk]
        exact hnew k (by omega) h2
    · intro k hk
      rw [getD_set d _ k _ hk0, if_neg (by omega)]
      exact hold k (by omega)

/-- One round of the outer loop of lines 1128-1134, entry by entry. -/
theorem splineRound_spec (x : ℚ) (data : List ℚ) (i : Nat) (hi1 : 2 ≤ i)
    (hi : i < data.length) :
    (splineRound x data i).length = data.length ∧
    ∀ k, (splineRound x data i).getD k 0 =
      if k = 0 then (1 - x) * data.getD 0 0 * (1 / (i : ℚ))
      else if k < i then
        ((x + ((i - k : Nat) : ℚ)) * data.getD (k - 1) 0 +
          (((k + 1 : Nat) : ℚ) - x) * data.getD k 0) * (1 / (i : ℚ))
      else if k = i then x * data.getD (i - 1) 0 * (1 / (i : ℚ))
      else data.getD k 0 := by
  have hlen1 : (data.set i (x * data.getD (i - 1) 0 * (1 / (i : ℚ)))).length = data.length :=
    List.length_set _ _ _
  obtain ⟨hlen, hnew, hold⟩ := splineInner_spec x (1 / (i : ℚ)) i
    (data.set i (x * data.getD (i - 1) 0 * (1 / (i : ℚ)))) (by omega) (i - 1) (by omega)
  unfold splineRound
  simp only
  refine ⟨by rw [List.length_set, hlen, hlen1], ?_⟩
  intro k
  rw [getD_set _ 0 k _ (by omega)]
  by_cases hk0 : k = 0
  · subst hk0
    rw [if_pos rfl, if_pos rfl, hold 0 (Or.inl (by omega)), getD_set data i 0 _ hi,
      if_neg (by omega)]
  · rw [if_neg (fun h => hk0 h.symm), if_neg hk0]
    by_cases hki : k < i
    · rw [if_pos hki, hnew k (by omega) hki, getD_set data i _ _ hi, if_neg (by omega),
        getD_set data i _ _ hi, if_neg (by omega)]
    · rw [if_neg hki, hold k (Or.inr (by omega)), getD_set data i k _ hi]
      by_cases hke : k = i
      · rw [if_pos hke.symm, if_pos hke]
      · rw [if_neg (fun h => hke h.symm), if_neg hke]

/-- Row `r` has no entry beyond index `r+1`. -/
theorem splineRow_zero_above (x : ℚ) (r k : Nat) (h : r + 1 < k) : splineRow x r k = 0 := by
  cases r with
  | zero =>
    unfold splineRow
    rw [if_neg (by omega), if_neg (by omega)]
  | succ r =>
    unfold splineRow
    rw [if_neg (by omega), if_neg (by omega), if_neg (by omega)]

/-- The outer loop after `c` rounds holds row `c` of the recurrence. -/
theorem splineFold_spec (x : ℚ) (PmeOrder : Nat) :
    ∀ c, c + 2 ≤ PmeOrder →
      ((List.range' 2 c).foldl (splineRound x)
        (((List.replicate PmeOrder (0 : ℚ)).set 0 (1 - x)).set 1 x)).length = PmeOrder ∧
      ∀ k, ((List.range' 2 c).foldl (splineRound x)
        (((List.replicate PmeOrder (0 : ℚ)).set 0 (1 - x)).set 1 x)).getD k 0 =
          splineRow x c k := by
  intro c
  induction c with
  | zero =>
    intro hN
    refine ⟨by simp, ?_⟩
    intro k
    simp only [List.range'_zero, List.foldl_nil]
    rw [getD_set _ 1 k _ (by simp; omega), getD_set _ 0 k _ (by simp; omega)]
    unfold splineRow
    by_cases h1 : k = 1
    · subst h1
      simp
    · rw [if_neg (fun h => h1 h.symm), if_neg h1]
      by_cases h0 : k = 0
      · rw [if_pos h0.symm, if_pos h0]
      · rw [if_neg (fun h => h0 h.symm), if_neg h0, List.getD_eq_getElem?_getD,
          List.getElem?_replicate]
        split_ifs <;> rfl
  | succ c ih =>
    intro hN
    obtain ⟨hlen, hrow⟩ := ih (by omega)
    rw [List.range'_1_concat, List.foldl_append]
    simp only [List.foldl_cons, List.foldl_nil]
    generalize (List.range' 2 c).foldl (splineRound x)
      (((List.replicate PmeOrder (0 : ℚ)).set 0 (1 - x)).set 1 x) = d at hlen hrow
    obtain ⟨hlen2, hval⟩ := splineRound_spec x d (2 + c) (by omega) (by omega)
    refine ⟨by rw [hlen2, hlen], ?_⟩
    intro k
    rw [hval k, hrow, hrow, hrow, hrow]
    have e1 : 2 + c = c + 2 := by omega
    have e2 : 2 + c - 1 = c + 1 := by omega
    rw [e2, e1]
    have hrec : splineRow x (c + 1) k =
        if k = 0 then (1 - x) * splineRow x c 0 * (1 / ((c + 2 : Nat) : ℚ))
        else if k < c + 2 then
          ((x + ((c + 2 - k : Nat) : ℚ)) * splineRow x c (k - 1) +
            (((k + 1 : Nat) : ℚ) - x) * splineRow x c k) * (1 / ((c + 2 : Nat) : ℚ))
        else if k = c + 2 then x * splineRow x c (c + 1) * (1 / ((c + 2 : Nat) : ℚ))
        else 0 := rfl
    rw [hrec]
    by_cases h0 : k = 0
    · rw [if_pos h0, if_pos h0]
    · rw [if_neg h0, if_neg h0]
      by_cases h1 : k < c + 2
      · rw [if_pos h1, if_pos h1]
      · rw [if_neg h1, if_neg h1]
        by_cases h2 : k = c + 2
        · rw [if_pos h2, if_pos h2]
        · rw [if_neg h2, if_neg h2]
          exact splineRow_zero_above x c k (by omega)

/-- The array `data` is row `PmeOrder-2` of the recurrence. -/
theorem splineData_eq (x : ℚ) (PmeOrder : Nat) (h : 2 ≤ PmeOrder) :
    splineData x PmeOrder =
      (List.range PmeOrder).map (fun k => splineRow x (PmeOrder - 2) k) := by
  obtain ⟨hlen, hrow⟩ := splineFold_spec x PmeOrder (PmeOrder - 2) (by omega)
  unfold splineData
  apply List.ext_getElem
  · rw [hlen, List.length_map, List.length_range]
  · intro k h1 h2
    have := hrow k
    rw [List.getD_eq_getElem?_getD, List.getElem?_eq_getElem h1] at this
    simp only [Option.getD_some] at this
    rw [this]
    simp

/-- Row `r+1` at `x = 0` in terms of row `r`, for an index below `r+2`. -/
theorem splineRow_zero_succ (r k : Nat) (hk : k + 1 < r + 2) :
    splineRow 0 (r + 1) (k + 1) =
      (((r : ℚ) + 1 - (k : ℚ)) * splineRow 0 r k + ((k : ℚ) + 2) * splineRow 0 r (k + 1)) /
        ((r : ℚ) + 2) := by
  have hrec : splineRow 0 (r + 1) (k + 1) =
      ((0 + ((r + 2 - (k + 1) : Nat) : ℚ)) * splineRow 0 r (k + 1 - 1) +
        (((k + 1 + 1 : Nat) : ℚ) - 0) * splineRow 0 r (k + 1)) * (1 / ((r + 2 : Nat) : ℚ)) := by
    conv_lhs => unfold splineRow
    rw [if_neg (by omega), if_pos hk]
  rw [hrec, Nat.cast_sub (by omega)]
  push_cast
  ring

/-- Row `r+1` at `x = 0`, index `0`. -/
theorem splineRow_zero_first (r : Nat) :
    splineRow 0 (r + 1) 0 = splineRow 0 r 0 / ((r : ℚ) + 2) := by
  have hrec : splineRow 0 (r + 1) 0 =
      (1 - 0) * splineRow 0 r 0 * (1 / ((r + 2 : Nat) : ℚ)) := by
    conv_lhs => unfold splineRow
    rw [if_pos rfl]
  rw [hrec]
  push_cast
  ring

/-- At `x = 0` the last entry of every row is `0`. -/
theorem splineRow_zero_last (r : Nat) : splineRow 0 r (r + 1) = 0 := by
  cases r with
  | zero => simp [splineRow]
  | succ r =>
    unfold splineRow
    rw [if_neg (by omega), if_neg (by omega), if_pos rfl]
    ring

/-- At `x = 0` no entry of a row is negative. -/
theorem splineRow_zero_nonneg : ∀ (r k : Nat), 0 ≤ splineRow 0 r k := by
  intro r
  induction r with
  | zero =>
    intro k
    unfold splineRow
    split_ifs <;> norm_num
  | succ r ih =>
    intro k
    by_cases hk : r + 2 ≤ k
    · by_cases hk2 : k = r + 2
      · rw [hk2, splineRow_zero_last]
      · rw [splineRow_zero_above 0 (r + 1) k (by omega)]
    · cases k with
      | zero =>
        rw [splineRow_zero_first]
        exact div_nonneg (ih 0) (by positivity)
      | succ k =>
        rw [splineRow_zero_succ r k (by omega)]
        apply div_nonneg _ (by positivity)
        have hkr : (k : ℚ) ≤ (r : ℚ) := by exact_mod_cast (by omega : k ≤ r)
        have h1 : 0 ≤ ((r : ℚ) + 1 - (k : ℚ)) := by linarith
        exact add_nonneg (mul_nonneg h1 (ih k)) (mul_nonneg (by positivity) (ih (k + 1)))

/-- Partial sums of row `r+1` at `x = 0` in terms of row `r`. -/
theorem splineRow_partial_sum (r : Nat) :
    ∀ m, m < r + 2 →
      ∑ k ∈ Finset.range (m + 1), splineRow 0 (r + 1) k =
        ∑ k ∈ Finset.range m, splineRow 0 r k +
          (((m : ℚ) + 1) / ((r : ℚ) + 2)) * splineRow 0 r m := by
  intro m
  induction m with
  | zero =>
    intro _
    simp only [Finset.sum_range_one, Finset.range_zero, Finset.sum_empty, zero_add,
      Nat.cast_zero]
    rw [splineRow_zero_first]
    ring
  | succ m ih =>
    intro hm
    rw [Finset.sum_range_succ, ih (by omega), Finset.sum_range_succ (fun k => splineRow 0 r k) m,
      splineRow_zero_succ r m (by omega)]
    have hne : ((r : ℚ) + 2) ≠ 0 := by positivity
    push_cast
    field_simp
    ring

/-- At `x = 0` the entries of every row sum to `1`. -/
theorem splineRow_zero_sum : ∀ r, ∑ k ∈ Finset.range (r + 2), splineRow 0 r k = 1 := by
  intro r
  induction r with
  | zero =>
    simp [Finset.sum_range_succ, splineRow]
  | succ r ih =>
    rw [Finset.sum_range_succ, splineRow_zero_last r, add_zero] at ih
    rw [Finset.sum_range_succ, splineRow_zero_last (r + 1), add_zero,
      splineRow_partial_sum r (r + 1) (by omega), splineRow_zero_last r, mul_zero, add_zero, ih]

/-- The sum of a list given by a function on `0 .. n-1`. -/
theorem sum_map_range (f : Nat → ℚ) (n : Nat) :
    ((List.range n).map f).sum = ∑ k ∈ Finset.range n, f k := by
  induction n with
  | zero => simp
  | succ n ih =>
    rw [List.range_succ, List.map_append, List.sum_append, ih, Finset.sum_range_succ]
    simp

/-- C23: for every spline order `N ≥ 2` the array `data` computed with `x = 0`
has `N` entries, none of them negative, its last entry `data[N-1]` is `0`, and
the entries sum to exactly `1`; for `N = 5` the array is
`1/24, 11/24, 11/24, 1/24, 0`. -/
theorem origin_spline_coefficients (N : Nat) (h : 2 ≤ N) :
    (originSplineData N).length = N ∧
    (∀ v ∈ originSplineData N, 0 ≤ v) ∧
    (originSplineData N)[N - 1]? = some 0 ∧
    (originSplineData N).sum = 1 ∧
    originSplineData 5 = [1/24, 11/24, 11/24, 1/24, 0] := by
  have heq := splineData_eq 0 N h
  unfold originSplineData
  refine ⟨?_, ?_, ?_, ?_, originSplineData_five⟩
  · rw [heq, List.length_map, List.length_range]
  · intro v hv
    rw [heq] at hv
    obtain ⟨k, _, rfl⟩ := List.mem_map.mp hv
    exact splineRow_zero_nonneg _ _
  · rw [heq, List.getElem?_map, List.getElem?_range (by omega)]
    have e : N - 1 = N - 2 + 1 := by omega
    simp only [Option.map_some']
    rw [e, splineRow_zero_last]
  · rw [heq, sum_map_range]
    have e : N = N - 2 + 2 := by omega
    have := splineRow_zero_sum (N - 2)
    rw [← e] at this
    exact this

/-- Witness for C23: spline order 5. -/
theorem origin_spline_coefficients_witness :
    2 ≤ 5 ∧ (originSplineData 5).length = 5 ∧
    (∀ v ∈ originSplineData 5, 0 ≤ v) ∧
    (originSplineData 5)[5 - 1]? = some 0 ∧
    (originSplineData 5).sum = 1 ∧
    originSplineData 5 = [1/24, 11/24, 11/24, 1/24, 0] :=
  ⟨by decide, origin_spline_coefficients 5 (by decide)⟩

/-! ## The divisors of the zeta computation -/

/-- The first component of a loop that adds `f j` to the first and `g j` to the
second component of a pair. -/
theorem foldl_pair_fst (f g : Nat → ℚ) :
    ∀ (l : List Nat) (init : ℚ × ℚ),
      (l.foldl (fun (s : ℚ × ℚ) (j : Nat) => (s.1 + f j, s.2 + g j)) init).1 =
        init.1 + (l.map f).sum := by
  intro l
  induction l with
  | nil => intro init; simp
  | cons a l ih =>
    intro init
    rw [List.foldl_cons, ih, List.map_cons, List.sum_cons]
    ring

/-- The loop range `j = 1 .. jcut` as a sum over `0 .. 49`. -/
theorem sum_map_range'_jcut (f : Nat → ℚ) :
    ((List.range' 1 jcut).map f).sum = ∑ j ∈ Finset.range 50, f (j + 1) := by
  have h : List.range' 1 jcut = (List.range 50).map (fun j => j + 1) := by decide
  rw [h, List.map_map, sum_map_range]
  rfl

/-- The ratio `factor/(factor + M_PI*j)` of line 1184 does not depend on the
value of `M_PI`. -/
theorem zeta_arg_plus (pi : ℚ) (hpi : pi ≠ 0) (k ndata : Int) (hn : ndata ≠ 0) (j : Nat) :
    zetaFactor pi k ndata / (zetaFactor pi k ndata + pi * (j : ℚ)) =
      (k : ℚ) / ((k : ℚ) + (j : ℚ) * (ndata : ℚ)) := by
  unfold zetaFactor
  have hn2 : (ndata : ℚ) ≠ 0 := by exact_mod_cast hn
  have e : pi * (k : ℚ) / (ndata : ℚ) + pi * (j : ℚ) =
      pi * ((k : ℚ) + (j : ℚ) * (ndata : ℚ)) / (ndata : ℚ) := by
    field_simp
    ring
  rw [e, div_div_div_cancel_right₀ hn2, mul_div_mul_left _ _ hpi]

/-- The ratio `factor/(factor - M_PI*j)` of line 1189 does not depend on the
value of `M_PI`. -/
theorem zeta_arg_minus (pi : ℚ) (hpi : pi ≠ 0) (k ndata : Int) (hn : ndata ≠ 0) (j : Nat) :
    zetaFactor pi k ndata / (zetaFactor pi k ndata - pi * (j : ℚ)) =
      (k : ℚ) / ((k : ℚ) - (j : ℚ) * (ndata : ℚ)) := by
  unfold zetaFactor
  have hn2 : (ndata : ℚ) ≠ 0 := by exact_mod_cast hn
  have e : pi * (k : ℚ) / (ndata : ℚ) - pi * (j : ℚ) =
      pi * ((k : ℚ) - (j : ℚ) * (ndata : ℚ)) / (ndata : ℚ) := by
    field_simp
    ring
  rw [e, div_div_div_cancel_right₀ hn2, mul_div_mul_left _ _ hpi]

/-- The value `sum1` after the two loops of lines 1183-1192 as a sum. -/
theorem zetaSums_fst (pi : ℚ) (hpi : pi ≠ 0) (PmeOrder : Nat) (k ndata : Int)
    (hn : ndata ≠ 0) :
    (zetaSums pi PmeOrder (zetaFactor pi k ndata)).1 =
      1 + ∑ j ∈ Finset.range 50,
            ((k : ℚ) / ((k : ℚ) + ((j + 1 : Nat) : ℚ) * (ndata : ℚ))) ^ PmeOrder +
        ∑ j ∈ Finset.range 50,
            ((k : ℚ) / ((k : ℚ) - ((j + 1 : Nat) : ℚ) * (ndata : ℚ))) ^ PmeOrder := by
  unfold zetaSums
  rw [foldl_pair_fst, foldl_pair_fst, sum_map_range'_jcut, sum_map_range'_jcut]
  simp only [zeta_arg_plus pi hpi k ndata hn, zeta_arg_minus pi hpi k ndata hn]

/-- With an even spline order every term added to `sum1` is a non-negative
power, so `sum1` is at least `1`. -/
theorem zeta_sum1_even (P : Nat) (hP : Even P) (k n : ℚ) :
    1 ≤ 1 + ∑ j ∈ Finset.range 50, (k / (k + ((j + 1 : Nat) : ℚ) * n)) ^ P +
        ∑ j ∈ Finset.range 50, (k / (k - ((j + 1 : Nat) : ℚ) * n)) ^ P := by
  have h1 : 0 ≤ ∑ j ∈ Finset.range 50, (k / (k + ((j + 1 : Nat) : ℚ) * n)) ^ P :=
    Finset.sum_nonneg (fun j _ => hP.pow_nonneg _)
  have h2 : 0 ≤ ∑ j ∈ Finset.range 50, (k / (k - ((j + 1 : Nat) : ℚ) * n)) ^ P :=
    Finset.sum_nonneg (fun j _ => hP.pow_nonneg _)
  linarith

/-- The two series of `sum1` for an odd spline order and a frequency of at most
half the axis size: the negative terms are outweighed, term by term, by `1` and
the positive terms before them, which leaves the last positive term. -/
theorem zeta_sum1_core (a n : ℚ) (ha : 0 < a) (h : 2 * a ≤ n) (P : Nat) :
    0 < 1 + ∑ j ∈ Finset.range 50, (a / (a + ((j + 1 : Nat) : ℚ) * n)) ^ P -
        ∑ j ∈ Finset.range 50, (a / (((j + 1 : Nat) : ℚ) * n - a)) ^ P := by
  have hn : 0 < n := by linarith
  have hjn : ∀ j : Nat, n ≤ ((j + 1 : Nat) : ℚ) * n := by
    intro j
    have : (1 : ℚ) ≤ ((j + 1 : Nat) : ℚ) := by exact_mod_cast Nat.succ_le_succ (Nat.zero_le j)
    nlinarith
  rw [Finset.sum_range_succ (fun j => (a / (a + ((j + 1 : Nat) : ℚ) * n)) ^ P) 49,
    Finset.sum_range_succ' (fun j => (a / (((j + 1 : Nat) : ℚ) * n - a)) ^ P) 49]
  have hfirst : (a / (((0 + 1 : Nat) : ℚ) * n - a)) ^ P ≤ 1 := by
    apply pow_le_one₀
    · apply div_nonneg ha.le
      have := hjn 0
      linarith
    · rw [div_le_one (by have := hjn 0; linarith)]
      push_cast
      linarith
  have hterms : ∑ j ∈ Finset.range 49, (a / (((j + 1 + 1 : Nat) : ℚ) * n - a)) ^ P ≤
      ∑ j ∈ Finset.range 49, (a / (a + ((j + 1 : Nat) : ℚ) * n)) ^ P := by
    apply Finset.sum_le_sum
    intro j _
    apply pow_le_pow_left₀
    · apply div_nonneg ha.le
      have := hjn (j + 1)
      linarith
    · apply div_le_div_of_nonneg_left ha.le
      · have := hjn j
        linarith
      · push_cast
        linarith
  have hlast : 0 < (a / (a + ((49 + 1 : Nat) : ℚ) * n)) ^ P := by
    apply pow_pos
    apply div_pos ha
    have := hjn 49
    linarith
  linarith

/-- The value `sum1` is positive when the spline order is even, or when the
wrapped frequency is at most half the axis size in absolute value. -/
theorem zeta_sum1_pos (P : Nat) (k n : Int) (hk : k ≠ 0)
    (h : Even P ∨ (-n ≤ 2 * k ∧ 2 * k ≤ n)) :
    0 < 1 + ∑ j ∈ Finset.range 50,
            ((k : ℚ) / ((k : ℚ) + ((j + 1 : Nat) : ℚ) * (n : ℚ))) ^ P +
        ∑ j ∈ Finset.range 50,
            ((k : ℚ) / ((k : ℚ) - ((j + 1 : Nat) : ℚ) * (n : ℚ))) ^ P := by
  rcases Nat.even_or_odd P with hP | hP
  · exact lt_of_lt_of_le one_pos (zeta_sum1_even P hP _ _)
  · rcases h with h | ⟨h1, h2⟩
    · exact lt_of_lt_of_le one_pos (zeta_sum1_even P h _ _)
    · have h1q : -(n : ℚ) ≤ 2 * (k : ℚ) := by exact_mod_cast h1
      have h2q : 2 * (k : ℚ) ≤ (n : ℚ) := by exact_mod_cast h2
      rcases lt_or_gt_of_ne hk with hneg | hpos
      · have hkq : (k : ℚ) < 0 := by exact_mod_cast hneg
        have hcore := zeta_sum1_core (-(k : ℚ)) (n : ℚ) (by linarith) (by linarith) P
        have e1 : ∀ j : Nat, ((k : ℚ) / ((k : ℚ) + ((j + 1 : Nat) : ℚ) * (n : ℚ))) ^ P =
            -((-(k : ℚ)) / (((j + 1 : Nat) : ℚ) * (n : ℚ) - -(k : ℚ))) ^ P := by
          intro j
          rw [← hP.neg_pow]
          congr 1
          rw [neg_div, neg_neg, sub_neg_eq_add, add_comm]
        have e2 : ∀ j : Nat, ((k : ℚ) / ((k : ℚ) - ((j + 1 : Nat) : ℚ) * (n : ℚ))) ^ P =
            ((-(k : ℚ)) / (-(k : ℚ) + ((j + 1 : Nat) : ℚ) * (n : ℚ))) ^ P := by
          intro j
          congr 1
          rw [← neg_div_neg_eq, neg_sub, sub_eq_neg_add]
        simp only [e1, e2, Finset.sum_neg_distrib]
        linarith
      · have hkq : (0 : ℚ) < (k : ℚ) := by exact_mod_cast hpos
        have hcore := zeta_sum1_core (k : ℚ) (n : ℚ) hkq h2q P
        have e2 : ∀ j : Nat, ((k : ℚ) / ((k : ℚ) - ((j + 1 : Nat) : ℚ) * (n : ℚ))) ^ P =
            -((k : ℚ) / (((j + 1 : Nat) : ℚ) * (n : ℚ) - (k : ℚ))) ^ P := by
          intro j
          rw [← hP.neg_pow]
          congr 1
          rw [← div_neg, neg_sub]
        simp only [e2, Finset.sum_neg_distrib]
        linarith

/-- The two series of `sum1` for an odd spline order of at least 5 at the
frequency `-(n+1)/2` of an odd axis of `n` points (here `a = (n+1)/2`), for
`n` below `2^31`: the first negative term alone outweighs `1` and the last
positive term, and every other positive term is outweighed by the negative term
after it. -/
theorem zeta_sum1_core_neg (a n : ℚ) (hn3 : 3 ≤ n) (ha : 2 * a = n + 1)
    (hn : n ≤ 2147483648) (P : Nat) (hP : 5 ≤ P) :
    1 + ∑ j ∈ Finset.range 50, (a / (a + ((j + 1 : Nat) : ℚ) * n)) ^ P -
        ∑ j ∈ Finset.range 50, (a / (((j + 1 : Nat) : ℚ) * n - a)) ^ P < 0 := by
  have hapos : 0 < a := by linarith
  have han : a < n := by linarith
  have hjn : ∀ j : Nat, n ≤ ((j + 1 : Nat) : ℚ) * n := by
    intro j
    have : (1 : ℚ) ≤ ((j + 1 : Nat) : ℚ) := by exact_mod_cast Nat.succ_le_succ (Nat.zero_le j)
    nlinarith
  rw [Finset.sum_range_succ (fun j => (a / (a + ((j + 1 : Nat) : ℚ) * n)) ^ P) 49,
    Finset.sum_range_succ' (fun j => (a / (((j + 1 : Nat) : ℚ) * n - a)) ^ P) 49]
  have hterms : ∑ j ∈ Finset.range 49, (a / (a + ((j + 1 : Nat) : ℚ) * n)) ^ P ≤
      ∑ j ∈ Finset.range 49, (a / (((j + 1 + 1 : Nat) : ℚ) * n - a)) ^ P := by
    apply Finset.sum_le_sum
    intro j _
    apply pow_le_pow_left₀
    · apply div_nonneg hapos.le
      have := hjn j
      linarith
    · apply div_le_div_of_nonneg_left hapos.le
      · have := hjn (j + 1)
        linarith
      · push_cast
        linarith
  have hfirst : 1 + (P : ℚ) * (2 / (n - 1)) ≤ (a / (((0 + 1 : Nat) : ℚ) * n - a)) ^ P := by
    have e : a / (((0 + 1 : Nat) : ℚ) * n - a) = 1 + 2 / (n - 1) := by
      have ha2 : a = (n + 1) / 2 := by linarith
      have h1 : n - 1 ≠ 0 := by linarith
      have h2 : ((0 + 1 : Nat) : ℚ) * n - a ≠ 0 := by push_cast; linarith
      rw [div_eq_iff h2, ha2]
      push_cast
      field_simp
      ring
    rw [e]
    have hx : (-2 : ℚ) ≤ 2 / (n - 1) := by
      have : (0 : ℚ) ≤ 2 / (n - 1) := div_nonneg (by norm_num) (by linarith)
      linarith
    exact one_add_mul_le_pow hx P
  have hlast : (a / (a + ((49 + 1 : Nat) : ℚ) * n)) ^ P ≤ (1 / 76) ^ 5 := by
    have hu0 : 0 ≤ a / (a + ((49 + 1 : Nat) : ℚ) * n) := by
      apply div_nonneg hapos.le
      have := hjn 49
      linarith
    have hu : a / (a + ((49 + 1 : Nat) : ℚ) * n) ≤ 1 / 76 := by
      rw [div_le_div_iff₀ (by have := hjn 49; linarith) (by norm_num)]
      push_cast
      linarith
    calc (a / (a + ((49 + 1 : Nat) : ℚ) * n)) ^ P
        ≤ (1 / 76 : ℚ) ^ P := pow_le_pow_left₀ hu0 hu P
      _ ≤ (1 / 76 : ℚ) ^ 5 := pow_le_pow_of_le_one (by norm_num) (by norm_num) hP
  have hgap : (1 / 76 : ℚ) ^ 5 < (P : ℚ) * (2 / (n - 1)) := by
    have hP5 : (5 : ℚ) ≤ (P : ℚ) := by exact_mod_cast hP
    have hpos : (0 : ℚ) < n - 1 := by linarith
    have h1 : (5 : ℚ) * (2 / (n - 1)) ≤ (P : ℚ) * (2 / (n - 1)) :=
      mul_le_mul_of_nonneg_right hP5 (div_nonneg (by norm_num) hpos.le)
    have h2 : (1 / 76 : ℚ) ^ 5 < 5 * (2 / (n - 1)) := by
      rw [← mul_div_assoc, lt_div_iff₀ hpos]
      norm_num
      linarith
    linarith
  linarith

/-- The value `sum1` is negative for an odd spline order of at least 5 at the
wrapped frequency `-(ndata+1)/2` of an odd axis of fewer than `2^31` points. -/
theorem zeta_sum1_neg (P : Nat) (hP : Odd P) (h5 : 5 ≤ P) (k n : Int) (hn3 : 3 ≤ n)
    (hk : 2 * k = -(n + 1)) (hn : n < 2 ^ 31) :
    1 + ∑ j ∈ Finset.range 50,
            ((k : ℚ) / ((k : ℚ) + ((j + 1 : Nat) : ℚ) * (n : ℚ))) ^ P +
        ∑ j ∈ Finset.range 50,
            ((k : ℚ) / ((k : ℚ) - ((j + 1 : Nat) : ℚ) * (n : ℚ))) ^ P < 0 := by
  have hkq : 2 * (k : ℚ) = -((n : ℚ) + 1) := by exact_mod_cast hk
  have hn3q : (3 : ℚ) ≤ (n : ℚ) := by exact_mod_cast hn3
  have hnq : (n : ℚ) ≤ 2147483648 := by
    have : n ≤ 2147483648 := by norm_num at hn; omega
    exact_mod_cast this
  have hcore := zeta_sum1_core_neg (-(k : ℚ)) (n : ℚ) hn3q (by linarith) hnq P h5
  have e1 : ∀ j : Nat, ((k : ℚ) / ((k : ℚ) + ((j + 1 : Nat) : ℚ) * (n : ℚ))) ^ P =
      -((-(k : ℚ)) / (((j + 1 : Nat) : ℚ) * (n : ℚ) - -(k : ℚ))) ^ P := by
    intro j
    rw [← hP.neg_pow]
    congr 1
    rw [neg_div, neg_neg, sub_neg_eq_add, add_comm]
  have e2 : ∀ j : Nat, ((k : ℚ) / ((k : ℚ) - ((j + 1 : Nat) : ℚ) * (n : ℚ))) ^ P =
      ((-(k : ℚ)) / (-(k : ℚ) + ((j + 1 : Nat) : ℚ) * (n : ℚ))) ^ P := by
    intro j
    congr 1
    rw [← neg_div_neg_eq, neg_sub, sub_eq_neg_add]
  simp only [e1, e2, Finset.sum_neg_distrib]
  linarith

/-- C26 (as stated) fails for `sum1`: on an axis of `ndata = 3` points the
round `i = 2` has the wrapped frequency `k = -2`, and with spline order 1 or 5
the accumulated denominator `sum1` is negative, not positive (here with
`355/113` for `M_PI`; the value does not depend on it). -/
theorem zeta_sum1_negative :
    zetaWaveNumber 3 2 = -2 ∧
    (zetaSums (355/113) 1 (zetaFactor (355/113) (zetaWaveNumber 3 2) 3)).1 < 0 ∧
    (zetaSums (355/113) 5 (zetaFactor (355/113) (zetaWaveNumber 3 2) 3)).1 < 0 := by
  have hk : zetaWaveNumber 3 2 = -2 := by decide
  rw [hk, zetaSums_fst _ (by norm_num) 1 (-2) 3 (by norm_num),
    zetaSums_fst _ (by norm_num) 5 (-2) 3 (by norm_num)]
  refine ⟨rfl, ?_, ?_⟩
  · norm_num [Finset.sum_range_succ]
  · norm_num [Finset.sum_range_succ]

/-- The wrapped frequency of lines 1173-1175 on an axis of at least two points:
it is smaller than the axis size in absolute value, and at most half of it
except at the index `i = (ndata+1)/2` of an axis of odd size. -/
theorem zetaWaveNumber_bounds (ndata i : Int) (hn : 2 ≤ ndata) (h1 : 1 ≤ i) (h2 : i ≤ ndata) :
    -ndata < zetaWaveNumber ndata i ∧ zetaWaveNumber ndata i < ndata ∧
    ((ndata % 2 = 0 ∨ 2 * i ≠ ndata + 1) →
      -ndata ≤ 2 * zetaWaveNumber ndata i ∧ 2 * zetaWaveNumber ndata i ≤ ndata) := by
  unfold zetaWaveNumber
  rw [Int.tdiv_eq_ediv (by omega) (by omega)]
  split_ifs with h
  · refine ⟨by omega, by omega, ?_⟩
    intro hc
    omega
  · refine ⟨by omega, by omega, ?_⟩
    intro _
    omega

/-- The divisors of lines 1184 and 1189 are not zero when the wrapped frequency
is smaller than the axis size in absolute value. -/
theorem zeta_arg_divisors (pi : ℚ) (hpi : pi ≠ 0) (k ndata : Int) (hn : 2 ≤ ndata)
    (hk1 : -ndata < k) (hk2 : k < ndata) (j : Nat) (hj : 1 ≤ j) :
    zetaFactor pi k ndata + pi * (j : ℚ) ≠ 0 ∧ zetaFactor pi k ndata - pi * (j : ℚ) ≠ 0 := by
  have hn2 : (ndata : ℚ) ≠ 0 := by
    have : ndata ≠ 0 := by omega
    exact_mod_cast this
  have hjn : ndata ≤ (j : Int) * ndata := by
    have hj2 : (1 : Int) ≤ (j : Int) := by exact_mod_cast hj
    nlinarith
  have hp : ((k : ℚ) + (j : ℚ) * (ndata : ℚ)) ≠ 0 := by
    have : k + (j : Int) * ndata ≠ 0 := by omega
    exact_mod_cast this
  have hm : ((k : ℚ) - (j : ℚ) * (ndata : ℚ)) ≠ 0 := by
    have : k - (j : Int) * ndata ≠ 0 := by omega
    exact_mod_cast this
  unfold zetaFactor
  have e1 : pi * (k : ℚ) / (ndata : ℚ) + pi * (j : ℚ) =
      pi * ((k : ℚ) + (j : ℚ) * (ndata : ℚ)) / (ndata : ℚ) := by
    field_simp
    ring
  have e2 : pi * (k : ℚ) / (ndata : ℚ) - pi * (j : ℚ) =
      pi * ((k : ℚ) - (j : ℚ) * (ndata : ℚ)) / (ndata : ℚ) := by
    field_simp
    ring
  rw [e1, e2]
  exact ⟨div_ne_zero (mul_ne_zero hpi hp) hn2, div_ne_zero (mul_ne_zero hpi hm) hn2⟩

/-- C26 (amended): on an axis of `ndata ≥ 2` points, for every round
`i = 1 .. ndata` of the zeta loop and every spline order, the wrapped frequency
`k` is smaller than `ndata` in absolute value, so `factor + M_PI*j` and
`factor - M_PI*j` are non-zero for all `j = 1 .. 50`.  The accumulated
denominator `sum1` is positive when the spline order is even, or `ndata` is
even, or `i` is not the index `(ndata+1)/2` of an odd axis.  At that index it
is negative for every odd spline order of at least 5 (axis sizes below `2^31`).
In all these cases no divisor of the round is zero. -/
theorem zeta_divisors_nonzero (pi : ℚ) (hpi : pi ≠ 0) (PmeOrder : Nat) (ndata i : Int)
    (hn : 2 ≤ ndata) (h1 : 1 ≤ i) (h2 : i ≤ ndata) :
    (-ndata < zetaWaveNumber ndata i ∧ zetaWaveNumber ndata i < ndata) ∧
    (∀ j : Nat, 1 ≤ j → j ≤ jcut →
      zetaFactor pi (zetaWaveNumber ndata i) ndata + pi * (j : ℚ) ≠ 0 ∧
      zetaFactor pi (zetaWaveNumber ndata i) ndata - pi * (j : ℚ) ≠ 0) ∧
    ((Even PmeOrder ∨ ndata % 2 = 0 ∨ 2 * i ≠ ndata + 1) →
      zetaWaveNumber ndata i ≠ 0 →
        0 < (zetaSums pi PmeOrder (zetaFactor pi (zetaWaveNumber ndata i) ndata)).1) ∧
    ((Odd PmeOrder ∧ 5 ≤ PmeOrder ∧ 2 * i = ndata + 1 ∧ ndata < 2 ^ 31) →
      (zetaSums pi PmeOrder (zetaFactor pi (zetaWaveNumber ndata i) ndata)).1 < 0) ∧
    ((Even PmeOrder ∨ ndata % 2 = 0 ∨ 2 * i ≠ ndata + 1 ∨
        (5 ≤ PmeOrder ∧ ndata < 2 ^ 31)) →
      ∀ d ∈ zetaDivisors pi PmeOrder ndata i, d ≠ 0) := by
  obtain ⟨hk1, hk2, hhalf⟩ := zetaWaveNumber_bounds ndata i hn h1 h2
  have hargs : ∀ j : Nat, 1 ≤ j →
      zetaFactor pi (zetaWaveNumber ndata i) ndata + pi * (j : ℚ) ≠ 0 ∧
      zetaFactor pi (zetaWaveNumber ndata i) ndata - pi * (j : ℚ) ≠ 0 :=
    fun j hj => zeta_arg_divisors pi hpi _ ndata hn hk1 hk2 j hj
  have hpos : (Even PmeOrder ∨ ndata % 2 = 0 ∨ 2 * i ≠ ndata + 1) →
      zetaWaveNumber ndata i ≠ 0 →
      0 < (zetaSums pi PmeOrder (zetaFactor pi (zetaWaveNumber ndata i) ndata)).1 := by
    intro hcond hk0
    rw [zetaSums_fst pi hpi PmeOrder _ ndata (by omega)]
    apply zeta_sum1_pos PmeOrder _ ndata hk0
    rcases hcond with hE | hrest
    · exact Or.inl hE
    · exact Or.inr (hhalf hrest)
  have hneg : (Odd PmeOrder ∧ 5 ≤ PmeOrder ∧ 2 * i = ndata + 1 ∧ ndata < 2 ^ 31) →
      (zetaSums pi PmeOrder (zetaFactor pi (zetaWaveNumber ndata i) ndata)).1 < 0 := by
    rintro ⟨hodd, h5, hi, h31⟩
    rw [zetaSums_fst pi hpi PmeOrder _ ndata (by omega)]
    apply zeta_sum1_neg PmeOrder hodd h5 _ ndata (by omega) _ h31
    unfold zetaWaveNumber
    rw [Int.tdiv_eq_ediv (by omega) (by omega)]
    split_ifs with h <;> omega
  refine ⟨⟨hk1, hk2⟩, fun j hj _ => hargs j hj, hpos, hneg, ?_⟩
  intro hcond d hd
  unfold zetaDivisors at hd
  by_cases hk0 : zetaWaveNumber ndata i = 0
  · rw [if_pos hk0] at hd
    simp at hd
  · rw [if_neg hk0] at hd
    simp only [List.mem_append, List.mem_singleton, List.mem_map, List.mem_range'_1] at hd
    rcases hd with ((hd | ⟨j, ⟨hj1, _⟩, rfl⟩) | ⟨j, ⟨hj1, _⟩, rfl⟩) | hd
    · rw [hd]
      have : ndata ≠ 0 := by omega
      exact_mod_cast this
    · exact (hargs j hj1).1
    · exact (hargs j hj1).2
    · rw [hd]
      by_cases hc3 : Even PmeOrder ∨ ndata % 2 = 0 ∨ 2 * i ≠ ndata + 1
      · exact (hpos hc3 hk0).ne'
      · have hodd : Odd PmeOrder := by
          rcases Nat.even_or_odd PmeOrder with hE | hO
          · exact absurd (Or.inl hE) hc3
          · exact hO
        have hi : 2 * i = ndata + 1 := by
          by_contra hne
          exact hc3 (Or.inr (Or.inr hne))
        rcases hcond with hE | hE | hE | ⟨h5, h31⟩
        · exact absurd (Or.inl hE) hc3
        · exact absurd (Or.inr (Or.inl hE)) hc3
        · exact absurd hi hE
        · exact (hneg ⟨hodd, h5, hi, h31⟩).ne

/-- Witness for C26 (amended): spline order 5 on an axis of four points, round
`i = 3`, with `355/113` for `M_PI`. -/
theorem zeta_divisors_nonzero_witness :
    (355/113 : ℚ) ≠ 0 ∧ (2 : Int) ≤ 4 ∧ (1 : Int) ≤ 3 ∧ (3 : Int) ≤ 4 ∧
    (4 : Int) % 2 = 0 ∧ zetaWaveNumber 4 3 ≠ 0 ∧
    (-4 < zetaWaveNumber 4 3 ∧ zetaWaveNumber 4 3 < 4) ∧
    (∀ j : Nat, 1 ≤ j → j ≤ jcut →
      zetaFactor (355/113) (zetaWaveNumber 4 3) 4 + (355/113) * (j : ℚ) ≠ 0 ∧
      zetaFactor (355/113) (zetaWaveNumber 4 3) 4 - (355/113) * (j : ℚ) ≠ 0) ∧
    ((Even 5 ∨ (4 : Int) % 2 = 0 ∨ 2 * (3 : Int) ≠ 4 + 1) →
      zetaWaveNumber 4 3 ≠ 0 →
        0 < (zetaSums (355/113) 5 (zetaFactor (355/113) (zetaWaveNumber 4 3) 4)).1) ∧
    ((Odd 5 ∧ 5 ≤ 5 ∧ 2 * (3 : Int) = 4 + 1 ∧ (4 : Int) < 2 ^ 31) →
      (zetaSums (355/113) 5 (zetaFactor (355/113) (zetaWaveNumber 4 3) 4)).1 < 0) ∧
    ((Even 5 ∨ (4 : Int) % 2 = 0 ∨ 2 * (3 : Int) ≠ 4 + 1 ∨
        (5 ≤ 5 ∧ (4 : Int) < 2 ^ 31)) →
      ∀ d ∈ zetaDivisors (355/113) 5 4 3, d ≠ 0) :=
  ⟨by norm_num, by decide, by decide, by decide, by decide, by decide,
    zeta_divisors_nonzero (355/113) (by norm_num) 5 4 3 (by decide) (by decide) (by decide)⟩

/-! ## Index bounds of the B-spline modulus builder -/

/-- The vector `bsplines_data` has `maxSize+1` entries. -/
theorem bsplinesData_length (maxSize PmeOrder : Nat) (data : List ℚ) :
    (bsplinesData maxSize PmeOrder data).length = maxSize + 1 := by
  have h : ∀ (l : List Nat) (v : List ℚ),
      (l.foldl (fun (v : List ℚ) (i : Nat) => v.set i (data.getD (i - 2) 0)) v).length =
        v.length := by
    intro l
    induction l with
    | nil => intro v; rfl
    | cons a l ih => intro v; rw [List.foldl_cons, ih, List.length_set]
  unfold bsplinesData
  rw [h, List.length_replicate]

/-- The stores of lines 1138-1139 stay inside a vector of `maxSize+1` entries
exactly when `maxSize ≥ PmeOrder+1`, for `maxSize ≥ 1`. -/
theorem bsplinesStore_inBounds (PmeOrder maxSize : Nat) (h : 1 ≤ maxSize) :
    (bsplinesStoreIndices PmeOrder).all (inBounds (maxSize + 1)) = true ↔
      PmeOrder + 1 ≤ maxSize := by
  unfold bsplinesStoreIndices inBounds
  rw [List.all_eq_true]
  constructor
  · intro hall
    by_cases hP : PmeOrder = 0
    · omega
    · have hmem : ((PmeOrder + 1 : Nat) : Int) ∈
          (List.range' 2 PmeOrder).map (fun (i : Nat) => (i : Int)) :=
        List.mem_map.mpr ⟨PmeOrder + 1, List.mem_range'_1.mpr ⟨by omega, by omega⟩, rfl⟩
      have := of_decide_eq_true (hall _ hmem)
      omega
  · intro hle i hi
    obtain ⟨j, hj, rfl⟩ := List.mem_map.mp hi
    have := List.mem_range'_1.mp hj
    apply decide_eq_true
    omega

/-- The reads of lines 1152-1153 stay inside a vector longer than `ndata`. -/
theorem bsplinesRead_inBounds (ndata length : Nat) (h : ndata < length) :
    (bsplinesReadIndices ndata).all (inBounds length) = true := by
  unfold bsplinesReadIndices inBounds
  rw [List.all_eq_true]
  intro i hi
  obtain ⟨l, hl, hil⟩ := List.mem_flatten.mp hi
  obtain ⟨_, _, rfl⟩ := List.mem_map.mp hl
  obtain ⟨j, hj, rfl⟩ := List.mem_map.mp hil
  have := List.mem_range'_1.mp hj
  apply decide_eq_true
  omega

/-- The stores of line 1155 stay inside `moduli`. -/
theorem moduliStore_inBounds (ndata : Nat) :
    (moduliStoreIndices ndata).all (inBounds ndata) = true := by
  unfold moduliStoreIndices inBounds
  rw [List.all_eq_true]
  intro i hi
  obtain ⟨j, hj, rfl⟩ := List.mem_map.mp hi
  have := List.mem_range.mp hj
  apply decide_eq_true
  omega

/-- The near-zero pass on a vector of one entry reads outside it exactly when
the entry is below `eps`. -/
theorem substituteNearZero_single (a : ℚ) :
    (substituteNearZero [a]).isSome = true ↔ moduliEps ≤ a := by
  unfold substituteNearZero substituteFirst substituteLast readAt
  by_cases h : a < moduliEps
  · simp [h]
  · simp [h, List.foldlM, not_lt.mp h]

/-- The near-zero pass on a vector of at least one entry stays inside it
exactly when the vector has two entries or more, or no entry below `eps`. -/
theorem substituteNearZero_isSome (m : List ℚ) (h : 1 ≤ m.length) :
    (substituteNearZero m).isSome = true ↔
      (2 ≤ m.length ∨ ∀ a ∈ m, moduliEps ≤ a) := by
  by_cases h2 : 2 ≤ m.length
  · obtain ⟨w, hw, _⟩ := substituteNearZero_values m h2
    rw [hw]
    simp [h2]
  · obtain ⟨a, rfl⟩ : ∃ a, m = [a] := by
      match m, h, h2 with
      | [a], _, _ => exact ⟨a, rfl⟩
      | [], h, _ => simp at h
      | _ :: _ :: _, _, h2 => simp at h2
    rw [substituteNearZero_single]
    simp

/-- The vector `moduli` has `ndata` entries after the transform. -/
theorem transformModuli_length (cos sin : ℚ → ℚ) (pi : ℚ) (bsplines_data : List ℚ)
    (ndata : Nat) : (transformModuli cos sin pi bsplines_data ndata).length = ndata := by
  unfold transformModuli
  rw [List.length_map, List.length_range]

/-- C27: for grid sizes of at least `1`, every index lines 1136-1167 use on
`bsplines_data` (length `maxSize+1`) and on `moduli` (length `ndata`) is inside
the vector if and only if the largest grid size is at least `PmeOrder+1` and
every axis has `ndata ≥ 2` or no entry of `moduli` below `1e-7`; the stores
`bsplines_data[2 .. PmeOrder+1]` are all inside exactly when the largest grid
size is at least `PmeOrder+1`. -/
theorem moduli_builder_bounds (cos sin : ℚ → ℚ) (pi : ℚ) (data : List ℚ) (PmeOrder : Nat)
    (gridSizeX gridSizeY gridSizeZ : Nat)
    (hx : 1 ≤ gridSizeX) (hy : 1 ≤ gridSizeY) (hz : 1 ≤ gridSizeZ) :
    (moduliBuilderInBounds cos sin pi data PmeOrder gridSizeX gridSizeY gridSizeZ = true ↔
      (PmeOrder + 1 ≤ maxGridSize gridSizeX gridSizeY gridSizeZ ∧
        ∀ ndata ∈ [gridSizeX, gridSizeY, gridSizeZ],
          2 ≤ ndata ∨
          ∀ a ∈ transformModuli cos sin pi
              (bsplinesData (maxGridSize gridSizeX gridSizeY gridSizeZ) PmeOrder data) ndata,
            moduliEps ≤ a)) ∧
    ((bsplinesStoreIndices PmeOrder).all
        (inBounds (maxGridSize gridSizeX gridSizeY gridSizeZ + 1)) = true ↔
      PmeOrder + 1 ≤ maxGridSize gridSizeX gridSizeY gridSizeZ) := by
  have hmax : 1 ≤ maxGridSize gridSizeX gridSizeY gridSizeZ := by
    unfold maxGridSize
    omega
  have hle : ∀ ndata ∈ [gridSizeX, gridSizeY, gridSizeZ],
      1 ≤ ndata ∧ ndata ≤ maxGridSize gridSizeX gridSizeY gridSizeZ := by
    intro ndata hn
    unfold maxGridSize
    simp only [List.mem_cons, List.mem_singleton, List.not_mem_nil, or_false] at hn
    rcases hn with rfl | rfl | rfl <;> omega
  have hstores := bsplinesStore_inBounds PmeOrder _ hmax
  refine ⟨?_, hstores⟩
  unfold moduliBuilderInBounds
  rw [Bool.and_eq_true, hstores, List.all_eq_true]
  apply and_congr_right
  intro _
  apply forall_congr'
  intro ndata
  apply imp_congr_right
  intro hn
  obtain ⟨h1, h2⟩ := hle ndata hn
  have hr := bsplinesRead_inBounds ndata
    (bsplinesData (maxGridSize gridSizeX gridSizeY gridSizeZ) PmeOrder data).length
    (by rw [bsplinesData_length]; omega)
  have hs := substituteNearZero_isSome
    (transformModuli cos sin pi
      (bsplinesData (maxGridSize gridSizeX gridSizeY gridSizeZ) PmeOrder data) ndata)
    (by rw [transformModuli_length]; exact h1)
  rw [transformModuli_length] at hs
  unfold axisInBounds
  rw [Bool.and_eq_true, Bool.and_eq_true, hs]
  constructor
  · intro h
    exact h.2
  · intro h
    exact ⟨⟨hr, moduliStore_inBounds ndata⟩, h⟩

/-- Witness for C27: spline order 5 on a `6 x 8 x 10` grid, with constant
stand-ins for `cos` and `sin` and `355/113` for `M_PI`. -/
theorem moduli_builder_bounds_witness :
    1 ≤ 6 ∧ 1 ≤ 8 ∧ 1 ≤ 10 ∧
    (moduliBuilderInBounds (fun _ => 1) (fun _ => 0) (355/113) (originSplineData 5) 5 6 8 10 =
        true ↔
      (5 + 1 ≤ maxGridSize 6 8 10 ∧
        ∀ ndata ∈ [6, 8, 10],
          2 ≤ ndata ∨
          ∀ a ∈ transformModuli (fun _ => 1) (fun _ => 0) (355/113)
              (bsplinesData (maxGridSize 6 8 10) 5 (originSplineData 5)) ndata,
            moduliEps ≤ a)) ∧
    ((bsplinesStoreIndices 5).all (inBounds (maxGridSize 6 8 10 + 1)) = true ↔
      5 + 1 ≤ maxGridSize 6 8 10) :=
  ⟨by decide, by decide, by decide,
    moduli_builder_bounds (fun _ => 1) (fun _ => 0) (355/113) (originSplineData 5) 5 6 8 10
      (by decide) (by decide) (by decide)⟩

/-! ## Covalent and polarization flags -/

/-- The bits of a word after `word |= f << shift`, for `f` either `0` or `1`. -/
theorem testBit_orShifted (word f : Nat) (shift : Int) (p : Nat) (hf : f = 0 ∨ f = 1) :
    (orShifted word f shift).testBit p =
      (decide (p < 32) && (word.testBit p || (decide (f = 1) && decide (shift.toNat = p)))) := by
  unfold orShifted
  rw [Nat.testBit_mod_two_pow, Nat.testBit_lor]
  rcases hf with rfl | rfl
  · simp
  · rw [Nat.one_shiftLeft, Nat.testBit_two_pow]
    simp

/-- A loop that, for each entry, ORs one bit into one row: afterwards a bit is
set exactly when it was set before or some entry of the loop set it. -/
theorem foldl_flag_bits {σ ε : Type} (step : σ → ε → σ) (bit : σ → Int → Nat → Bool)
    (row : ε → Int) (pos : ε → Nat) (sets : ε → Bool)
    (hstep : ∀ s e r p, bit (step s e) r p =
      if row e = r then
        (decide (p < 32) && (bit s r p || (sets e && decide (pos e = p))))
      else bit s r p) :
    ∀ (l done : List ε) (s : σ),
      (∀ r p, bit s r p = true ↔
        p < 32 ∧ ∃ e ∈ done, row e = r ∧ pos e = p ∧ sets e = true) →
      ∀ r p, bit (l.foldl step s) r p = true ↔
        p < 32 ∧ ∃ e ∈ done ++ l, row e = r ∧ pos e = p ∧ sets e = true := by
  intro l
  induction l with
  | nil =>
    intro done s hs r p
    rw [List.foldl_nil, List.append_nil]
    exact hs r p
  | cons a l ih =>
    intro done s hs r p
    rw [List.foldl_cons]
    have hnext : ∀ r p, bit (step s a) r p = true ↔
        p < 32 ∧ ∃ e ∈ done ++ [a], row e = r ∧ pos e = p ∧ sets e = true := by
      intro r p
      rw [hstep]
      by_cases hr : row a = r
      · rw [if_pos hr]
        simp only [Bool.and_eq_true, Bool.or_eq_true, decide_eq_true_eq, hs r p,
          List.mem_append, List.mem_singleton]
        constructor
        · rintro ⟨hp, (⟨_, e, he, h1, h2, h3⟩ | ⟨h1, h2⟩)⟩
          · exact ⟨hp, e, Or.inl he, h1, h2, h3⟩
          · exact ⟨hp, a, Or.inr rfl, hr, h2, h1⟩
        · rintro ⟨hp, e, (he | he), h1, h2, h3⟩
          · exact ⟨hp, Or.inl ⟨hp, e, he, h1, h2, h3⟩⟩
          · subst he
            exact ⟨hp, Or.inr ⟨h3, h2⟩⟩
      · rw [if_neg hr, hs r p]
        simp only [List.mem_append, List.mem_singleton]
        constructor
        · rintro ⟨hp, e, he, h1, h2, h3⟩
          exact ⟨hp, e, Or.inl he, h1, h2, h3⟩
        · rintro ⟨hp, e, (he | he), h1, h2, h3⟩
          · exact ⟨hp, e, he, h1, h2, h3⟩
          · subst he
            exact absurd h1 hr
    have := ih (done ++ [a]) (step s a) hnext r p
    rw [List.append_assoc, List.singleton_append] at this
    exact this

/-- One round of the loop of lines 1238-1257 stores to the row and bit of its
pair: the first word gets the bit when the value is `0` or `1`. -/
theorem covalentFlagStep_x (TileSize : Int) (findExclusionIndex : Int → Int → Int)
    (vec : Int → Uint2) (e : Int3) (r : Int) (p : Nat) :
    ((covalentFlagStep TileSize findExclusionIndex vec e) r).x.testBit p =
      if flagRow TileSize findExclusionIndex e.x e.y = r then
        (decide (p < 32) && ((vec r).x.testBit p ||
          (decide (e.z = 0 ∨ e.z = 1) && decide (flagBit TileSize e.x e.y = p))))
      else (vec r).x.testBit p := by
  unfold covalentFlagStep flagRow flagBit
  simp only
  by_cases hxy : e.x.tdiv TileSize > e.y.tdiv TileSize
  · rw [if_pos hxy, if_pos hxy, if_pos hxy, max_eq_left hxy.le, min_eq_right hxy.le,
      Function.update_apply]
    by_cases hr : findExclusionIndex (e.x.tdiv TileSize) (e.y.tdiv TileSize) +
        (e.x - e.x.tdiv TileSize * TileSize) = r
    · rw [if_pos hr.symm, if_pos hr]
      simp only
      rw [hr, testBit_orShifted _ _ _ _ (by split_ifs <;> simp)]
      by_cases hv : e.z = 0 ∨ e.z = 1 <;> simp [hv]
    · rw [if_neg (fun h => hr h.symm), if_neg hr]
  · rw [if_neg hxy, if_neg hxy, if_neg hxy, max_eq_right (not_lt.mp hxy),
      min_eq_left (not_lt.mp hxy), Function.update_apply]
    by_cases hr : findExclusionIndex (e.y.tdiv TileSize) (e.x.tdiv TileSize) +
        (e.y - e.y.tdiv TileSize * TileSize) = r
    · rw [if_pos hr.symm, if_pos hr]
      simp only
      rw [hr, testBit_orShifted _ _ _ _ (by split_ifs <;> simp)]
      by_cases hv : e.z = 0 ∨ e.z = 1 <;> simp [hv]
    · rw [if_neg (fun h => hr h.symm), if_neg hr]

/-- One round of the loop of lines 1238-1257: the second word gets the bit when
the value is `0` or `2`. -/
theorem covalentFlagStep_y (TileSize : Int) (findExclusionIndex : Int → Int → Int)
    (vec : Int → Uint2) (e : Int3) (r : Int) (p : Nat) :
    ((covalentFlagStep TileSize findExclusionIndex vec e) r).y.testBit p =
      if flagRow TileSize findExclusionIndex e.x e.y = r then
        (decide (p < 32) && ((vec r).y.testBit p ||
          (decide (e.z = 0 ∨ e.z = 2) && decide (flagBit TileSize e.x e.y = p))))
      else (vec r).y.testBit p := by
  unfold covalentFlagStep flagRow flagBit
  simp only
  by_cases hxy : e.x.tdiv TileSize > e.y.tdiv TileSize
  · rw [if_pos hxy, if_pos hxy, if_pos hxy, max_eq_left hxy.le, min_eq_right hxy.le,
      Function.update_apply]
    by_cases hr : findExclusionIndex (e.x.tdiv TileSize) (e.y.tdiv TileSize) +
        (e.x - e.x.tdiv TileSize * TileSize) = r
    · rw [if_pos hr.symm, if_pos hr]
      simp only
      rw [hr, testBit_orShifted _ _ _ _ (by split_ifs <;> simp)]
      by_cases hv : e.z = 0 ∨ e.z = 2 <;> simp [hv]
    · rw [if_neg (fun h => hr h.symm), if_neg hr]
  · rw [if_neg hxy, if_neg hxy, if_neg hxy, max_eq_right (not_lt.mp hxy),
      min_eq_left (not_lt.mp hxy), Function.update_apply]
    by_cases hr : findExclusionIndex (e.y.tdiv TileSize) (e.x.tdiv TileSize) +
        (e.y - e.y.tdiv TileSize * TileSize) = r
    · rw [if_pos hr.symm, if_pos hr]
      simp only
      rw [hr, testBit_orShifted _ _ _ _ (by split_ifs <;> simp)]
      by_cases hv : e.z = 0 ∨ e.z = 2 <;> simp [hv]
    · rw [if_neg (fun h => hr h.symm), if_neg hr]

/-- One round of the loop of lines 1264-1279 sets the bit of its pair. -/
theorem polarizationFlagStep_bit (TileSize : Int) (findExclusionIndex : Int → Int → Int)
    (vec : Int → Nat) (e : Int2) (r : Int) (p : Nat) :
    ((polarizationFlagStep TileSize findExclusionIndex vec e) r).testBit p =
      if flagRow TileSize findExclusionIndex e.x e.y = r then
        (decide (p < 32) && ((vec r).testBit p ||
          (true && decide (flagBit TileSize e.x e.y = p))))
      else (vec r).testBit p := by
  unfold polarizationFlagStep flagRow flagBit
  simp only
  by_cases hxy : e.x.tdiv TileSize > e.y.tdiv TileSize
  · rw [if_pos hxy, if_pos hxy, if_pos hxy, max_eq_left hxy.le, min_eq_right hxy.le,
      Function.update_apply]
    by_cases hr : findExclusionIndex (e.x.tdiv TileSize) (e.y.tdiv TileSize) +
        (e.x - e.x.tdiv TileSize * TileSize) = r
    · rw [if_pos hr.symm, if_pos hr, hr, testBit_orShifted _ _ _ _ (Or.inr rfl)]
      simp
    · rw [if_neg (fun h => hr h.symm), if_neg hr]
  · rw [if_neg hxy, if_neg hxy, if_neg hxy, max_eq_right (not_lt.mp hxy),
      min_eq_left (not_lt.mp hxy), Function.update_apply]
    by_cases hr : findExclusionIndex (e.y.tdiv TileSize) (e.x.tdiv TileSize) +
        (e.y - e.y.tdiv TileSize * TileSize) = r
    · rw [if_pos hr.symm, if_pos hr, hr, testBit_orShifted _ _ _ _ (Or.inr rfl)]
      simp
    · rw [if_neg (fun h => hr h.symm), if_neg hr]

/-- The entries of `covalentFlagValues`: `(i, a, 0)` for `a = i` and the
`Covalent12` and `Covalent13` atoms of `i`, `(i, a, 1)` for its `Covalent14`
atoms and `(i, a, 2)` for its `Covalent15` atoms, for `i` below
`numMultipoles`. -/
theorem mem_covalentFlagValues (getCovalentMap : Nat → CovalentType → List Int)
    (numMultipoles : Nat) (e : Int3) :
    e ∈ covalentFlagValues getCovalentMap numMultipoles ↔
      ∃ i : Nat, i < numMultipoles ∧ e.x = (i : Int) ∧
        ((e.z = 0 ∧ (e.y = (i : Int) ∨ e.y ∈ getCovalentMap i CovalentType.Covalent12 ∨
            e.y ∈ getCovalentMap i CovalentType.Covalent13)) ∨
         (e.z = 1 ∧ e.y ∈ getCovalentMap i CovalentType.Covalent14) ∨
         (e.z = 2 ∧ e.y ∈ getCovalentMap i CovalentType.Covalent15)) := by
  unfold covalentFlagValues
  constructor
  · intro h
    obtain ⟨l, hl, hel⟩ := List.mem_flatten.mp h
    obtain ⟨i, hi, rfl⟩ := List.mem_map.mp hl
    have hi2 := List.mem_range.mp hi
    unfold covalentFlagValuesFor at hel
    simp only [List.mem_append, List.mem_map, Finset.mem_sort, Finset.mem_insert,
      Finset.mem_union, List.mem_toFinset] at hel
    rcases hel with (⟨a, ha, rfl⟩ | ⟨a, ha, rfl⟩) | ⟨a, ha, rfl⟩
    · exact ⟨i, hi2, rfl, Or.inl ⟨rfl, ha⟩⟩
    · exact ⟨i, hi2, rfl, Or.inr (Or.inl ⟨rfl, ha⟩)⟩
    · exact ⟨i, hi2, rfl, Or.inr (Or.inr ⟨rfl, ha⟩)⟩
  · rintro ⟨i, hi, hx, h⟩
    apply List.mem_flatten.mpr
    refine ⟨_, List.mem_map.mpr ⟨i, List.mem_range.mpr hi, rfl⟩, ?_⟩
    unfold covalentFlagValuesFor
    simp only [List.mem_append, List.mem_map, Finset.mem_sort, Finset.mem_insert,
      Finset.mem_union, List.mem_toFinset]
    obtain ⟨ex, ey, ez⟩ := e
    simp only at hx h
    subst hx
    rcases h with ⟨hz, hy⟩ | ⟨hz, hy⟩ | ⟨hz, hy⟩
    · subst hz
      exact Or.inl (Or.inl ⟨ey, hy, rfl⟩)
    · subst hz
      exact Or.inl (Or.inr ⟨ey, hy, rfl⟩)
    · subst hz
      exact Or.inr ⟨ey, hy, rfl⟩

/-- The entries of `polarizationFlagValues`: `(i, a)` for the
`PolarizationCovalent11` atoms `a` of `i`, for `i` below `numMultipoles`. -/
theorem mem_polarizationFlagValues (getCovalentMap : Nat → CovalentType → List Int)
    (numMultipoles : Nat) (e : Int2) :
    e ∈ polarizationFlagValues getCovalentMap numMultipoles ↔
      ∃ i : Nat, i < numMultipoles ∧ e.x = (i : Int) ∧
        e.y ∈ getCovalentMap i CovalentType.PolarizationCovalent11 := by
  unfold polarizationFlagValues
  constructor
  · intro h
    obtain ⟨l, hl, hel⟩ := List.mem_flatten.mp h
    obtain ⟨i, hi, rfl⟩ := List.mem_map.mp hl
    obtain ⟨a, ha, rfl⟩ := List.mem_map.mp hel
    exact ⟨i, List.mem_range.mp hi, rfl, ha⟩
  · rintro ⟨i, hi, hx, hy⟩
    apply List.mem_flatten.mpr
    refine ⟨_, List.mem_map.mpr ⟨i, List.mem_range.mpr hi, rfl⟩, List.mem_map.mpr ⟨e.y, hy, ?_⟩⟩
    obtain ⟨ex, ey⟩ := e
    simp only at hx
    subst hx
    rfl

/-- The offset of a non-negative atom index within its tile lies below the tile
size. -/
theorem tile_offset_range (TileSize atom : Int) (hT : 0 < TileSize) (ha : 0 ≤ atom) :
    0 ≤ atom - atom.tdiv TileSize * TileSize ∧
      atom - atom.tdiv TileSize * TileSize < TileSize := by
  rw [Int.tdiv_eq_ediv ha hT.le]
  have h1 := Int.emod_nonneg atom hT.ne'
  have h2 := Int.emod_lt_of_pos atom hT
  have h3 : atom % TileSize = atom - atom / TileSize * TileSize := by
    rw [Int.emod_def, mul_comm]
  rw [← h3]
  exact ⟨h1, h2⟩

/-- The bit of a pair of non-negative atom indices lies below the tile size. -/
theorem flagBit_lt (TileSize atom1 atom2 : Int) (hT : 0 < TileSize) (hT32 : TileSize ≤ 32)
    (h1 : 0 ≤ atom1) (h2 : 0 ≤ atom2) : flagBit TileSize atom1 atom2 < 32 := by
  unfold flagBit
  have o1 := tile_offset_range TileSize atom1 hT h1
  have o2 := tile_offset_range TileSize atom2 hT h2
  split_ifs <;> omega

/-- The bits of the first word of `covalentFlagsVec`. -/
theorem covalentFlagsVec_x (TileSize : Int) (findExclusionIndex : Int → Int → Int)
    (values : List Int3) (r : Int) (p : Nat) :
    ((covalentFlagsVec TileSize findExclusionIndex values) r).x.testBit p = true ↔
      p < 32 ∧ ∃ e ∈ values, flagRow TileSize findExclusionIndex e.x e.y = r ∧
        flagBit TileSize e.x e.y = p ∧ (e.z = 0 ∨ e.z = 1) := by
  have h := foldl_flag_bits (covalentFlagStep TileSize findExclusionIndex)
    (fun s r p => (s r).x.testBit p) (fun e => flagRow TileSize findExclusionIndex e.x e.y)
    (fun e => flagBit TileSize e.x e.y) (fun e => decide (e.z = 0 ∨ e.z = 1))
    (fun s e r p => covalentFlagStep_x TileSize findExclusionIndex s e r p)
    values [] (fun _ => { x := 0, y := 0 }) (by intro r p; simp) r p
  simp only [List.nil_append, decide_eq_true_eq] at h
  exact h

/-- The bits of the second word of `covalentFlagsVec`. -/
theorem covalentFlagsVec_y (TileSize : Int) (findExclusionIndex : Int → Int → Int)
    (values : List Int3) (r : Int) (p : Nat) :
    ((covalentFlagsVec TileSize findExclusionIndex values) r).y.testBit p = true ↔
      p < 32 ∧ ∃ e ∈ values, flagRow TileSize findExclusionIndex e.x e.y = r ∧
        flagBit TileSize e.x e.y = p ∧ (e.z = 0 ∨ e.z = 2) := by
  have h := foldl_flag_bits (covalentFlagStep TileSize findExclusionIndex)
    (fun s r p => (s r).y.testBit p) (fun e => flagRow TileSize findExclusionIndex e.x e.y)
    (fun e => flagBit TileSize e.x e.y) (fun e => decide (e.z = 0 ∨ e.z = 2))
    (fun s e r p => covalentFlagStep_y TileSize findExclusionIndex s e r p)
    values [] (fun _ => { x := 0, y := 0 }) (by intro r p; simp) r p
  simp only [List.nil_append, decide_eq_true_eq] at h
  exact h

/-- The bits of `polarizationGroupFlagsVec`. -/
theorem polarizationGroupFlagsVec_bit (TileSize : Int) (findExclusionIndex : Int → Int → Int)
    (values : List Int2) (r : Int) (p : Nat) :
    ((polarizationGroupFlagsVec TileSize findExclusionIndex values) r).testBit p = true ↔
      p < 32 ∧ ∃ e ∈ values, flagRow TileSize findExclusionIndex e.x e.y = r ∧
        flagBit TileSize e.x e.y = p := by
  have h := foldl_flag_bits (polarizationFlagStep TileSize findExclusionIndex)
    (fun s r p => (s r).testBit p) (fun e => flagRow TileSize findExclusionIndex e.x e.y)
    (fun e => flagBit TileSize e.x e.y) (fun _ => true)
    (fun s e r p => polarizationFlagStep_bit TileSize findExclusionIndex s e r p)
    values [] (fun _ => 0) (by intro r p; simp) r p
  simp only [List.nil_append, and_true] at h
  exact h

/-- C24, counterexample: with the covalent maps `overlappingCovalentMap` on 34
atoms and tiles of 32, the entry `(0, 1, 1)` has its bit set in the second flag
word although its value is neither `0` nor `2`, because the entry `(0, 1, 2)`
sets the same bit; and the polarization bit of the pair `(2, 33)` is set
although atom 33 is not in the `PolarizationCovalent11` map of atom 2, because
the entry `(33, 2)` sets the same bit. -/
theorem covalent_flag_overlap :
    ¬ (∀ e ∈ covalentFlagValues overlappingCovalentMap 34,
        (((covalentFlagsVec 32 sampleExclusionIndex
              (covalentFlagValues overlappingCovalentMap 34))
            (flagRow 32 sampleExclusionIndex e.x e.y)).y.testBit (flagBit 32 e.x e.y) = true ↔
          (e.z = 0 ∨ e.z = 2))) ∧
    ¬ (∀ (atom1 : Nat) (atom2 : Int), atom1 < 34 →
        (((polarizationGroupFlagsVec 32 sampleExclusionIndex
              (polarizationFlagValues overlappingCovalentMap 34))
            (flagRow 32 sampleExclusionIndex (atom1 : Int) atom2)).testBit
              (flagBit 32 (atom1 : Int) atom2) = true ↔
          atom2 ∈ overlappingCovalentMap atom1 CovalentType.PolarizationCovalent11)) := by
  have h14 : ({ x := 0, y := 1, z := 1 } : Int3) ∈
      covalentFlagValues overlappingCovalentMap 34 :=
    (mem_covalentFlagValues overlappingCovalentMap 34 _).mpr
      ⟨0, by decide, rfl, Or.inr (Or.inl ⟨rfl, by decide⟩)⟩
  have h15 : ({ x := 0, y := 1, z := 2 } : Int3) ∈
      covalentFlagValues overlappingCovalentMap 34 :=
    (mem_covalentFlagValues overlappingCovalentMap 34 _).mpr
      ⟨0, by decide, rfl, Or.inr (Or.inr ⟨rfl, by decide⟩)⟩
  have hpol : ({ x := 33, y := 2 } : Int2) ∈
      polarizationFlagValues overlappingCovalentMap 34 :=
    (mem_polarizationFlagValues overlappingCovalentMap 34 _).mpr
      ⟨33, by decide, rfl, by decide⟩
  refine ⟨?_, ?_⟩
  · intro hall
    have hbit := (covalentFlagsVec_y 32 sampleExclusionIndex
      (covalentFlagValues overlappingCovalentMap 34)
      (flagRow 32 sampleExclusionIndex 0 1) (flagBit 32 0 1)).mpr
      ⟨by decide, _, h15, rfl, rfl, Or.inr rfl⟩
    have hval := (hall _ h14).mp hbit
    revert hval
    decide
  · intro hall
    have hbit := (polarizationGroupFlagsVec_bit 32 sampleExclusionIndex
      (polarizationFlagValues overlappingCovalentMap 34)
      (flagRow 32 sampleExclusionIndex 2 33) (flagBit 32 2 33)).mpr
      ⟨by decide, _, hpol, by decide, by decide⟩
    have hmem := (hall 2 33 (by decide)).mp hbit
    revert hmem
    decide

/-- C24 (amended): with a tile size of at most 32 and non-negative atom indices
in the covalent maps, (1) `covalentFlagValues` holds `(i, a, 0)` for `a = i` and the
1-2 and 1-3 partners of `i`, `(i, a, 1)` for its 1-4 and `(i, a, 2)` for its
1-5 partners, and `polarizationFlagValues` holds `(i, a)` for the atoms of its
`PolarizationCovalent11` map; (2) for every entry the bit of its pair, in the
row of the tile (larger tile index, smaller tile index) at the offset of the
atom in the larger tile, is set in the first flag word when the value is `0`
or `1` and in the second when it is `0` or `2`, and the polarization bit of
every polarization entry is set; (3) no other bit is set: a bit of a flag word
is set only if an entry with such a value addresses it; (4) so for an entry
whose bit no entry of another value addresses, the bit is set in the first
word iff the value is `0` or `1` and in the second iff it is `0` or `2`, and
for a pair whose bit no other polarization entry addresses, the polarization
bit is set iff `atom2` is in the `PolarizationCovalent11` map of `atom1`. -/
theorem covalent_flag_bits (TileSize : Int) (findExclusionIndex : Int → Int → Int)
    (getCovalentMap : Nat → CovalentType → List Int) (numMultipoles : Nat)
    (hT : 0 < TileSize) (hT32 : TileSize ≤ 32)
    (hatoms : ∀ i t, ∀ a ∈ getCovalentMap i t, 0 ≤ a) :
    (∀ e : Int3, e ∈ covalentFlagValues getCovalentMap numMultipoles ↔
      ∃ i : Nat, i < numMultipoles ∧ e.x = (i : Int) ∧
        ((e.z = 0 ∧ (e.y = (i : Int) ∨ e.y ∈ getCovalentMap i CovalentType.Covalent12 ∨
            e.y ∈ getCovalentMap i CovalentType.Covalent13)) ∨
         (e.z = 1 ∧ e.y ∈ getCovalentMap i CovalentType.Covalent14) ∨
         (e.z = 2 ∧ e.y ∈ getCovalentMap i CovalentType.Covalent15))) ∧
    (∀ e : Int2, e ∈ polarizationFlagValues getCovalentMap numMultipoles ↔
      ∃ i : Nat, i < numMultipoles ∧ e.x = (i : Int) ∧
        e.y ∈ getCovalentMap i CovalentType.PolarizationCovalent11) ∧
    (∀ e ∈ covalentFlagValues getCovalentMap numMultipoles,
      flagBit TileSize e.x e.y < 32 ∧
      ((e.z = 0 ∨ e.z = 1) →
        ((covalentFlagsVec TileSize findExclusionIndex
            (covalentFlagValues getCovalentMap numMultipoles))
          (flagRow TileSize findExclusionIndex e.x e.y)).x.testBit
            (flagBit TileSize e.x e.y) = true) ∧
      ((e.z = 0 ∨ e.z = 2) →
        ((covalentFlagsVec TileSize findExclusionIndex
            (covalentFlagValues getCovalentMap numMultipoles))
          (flagRow TileSize findExclusionIndex e.x e.y)).y.testBit
            (flagBit TileSize e.x e.y) = true)) ∧
    (∀ e ∈ polarizationFlagValues getCovalentMap numMultipoles,
      ((polarizationGroupFlagsVec TileSize findExclusionIndex
          (polarizationFlagValues getCovalentMap numMultipoles))
        (flagRow TileSize findExclusionIndex e.x e.y)).testBit
          (flagBit TileSize e.x e.y) = true) ∧
    (∀ (r : Int) (p : Nat),
      ((covalentFlagsVec TileSize findExclusionIndex
          (covalentFlagValues getCovalentMap numMultipoles)) r).x.testBit p = true ↔
        ∃ e ∈ covalentFlagValues getCovalentMap numMultipoles,
          flagRow TileSize findExclusionIndex e.x e.y = r ∧ flagBit TileSize e.x e.y = p ∧
            (e.z = 0 ∨ e.z = 1)) ∧
    (∀ (r : Int) (p : Nat),
      ((covalentFlagsVec TileSize findExclusionIndex
          (covalentFlagValues getCovalentMap numMultipoles)) r).y.testBit p = true ↔
        ∃ e ∈ covalentFlagValues getCovalentMap numMultipoles,
          flagRow TileSize findExclusionIndex e.x e.y = r ∧ flagBit TileSize e.x e.y = p ∧
            (e.z = 0 ∨ e.z = 2)) ∧
    (∀ (r : Int) (p : Nat),
      ((polarizationGroupFlagsVec TileSize findExclusionIndex
          (polarizationFlagValues getCovalentMap numMultipoles)) r).testBit p = true ↔
        ∃ e ∈ polarizationFlagValues getCovalentMap numMultipoles,
          flagRow TileSize findExclusionIndex e.x e.y = r ∧ flagBit TileSize e.x e.y = p) ∧
    (∀ e ∈ covalentFlagValues getCovalentMap numMultipoles,
      (∀ e2 ∈ covalentFlagValues getCovalentMap numMultipoles,
        flagRow TileSize findExclusionIndex e2.x e2.y =
          flagRow TileSize findExclusionIndex e.x e.y →
        flagBit TileSize e2.x e2.y = flagBit TileSize e.x e.y → e2.z = e.z) →
      (((covalentFlagsVec TileSize findExclusionIndex
            (covalentFlagValues getCovalentMap numMultipoles))
          (flagRow TileSize findExclusionIndex e.x e.y)).x.testBit
            (flagBit TileSize e.x e.y) = true ↔ (e.z = 0 ∨ e.z = 1)) ∧
      (((covalentFlagsVec TileSize findExclusionIndex
            (covalentFlagValues getCovalentMap numMultipoles))
          (flagRow TileSize findExclusionIndex e.x e.y)).y.testBit
            (flagBit TileSize e.x e.y) = true ↔ (e.z = 0 ∨ e.z = 2))) ∧
    (∀ (atom1 : Nat) (atom2 : Int), atom1 < numMultipoles →
      (∀ e ∈ polarizationFlagValues getCovalentMap numMultipoles,
        flagRow TileSize findExclusionIndex e.x e.y =
          flagRow TileSize findExclusionIndex (atom1 : Int) atom2 →
        flagBit TileSize e.x e.y = flagBit TileSize (atom1 : Int) atom2 →
        e.x = (atom1 : Int) ∧ e.y = atom2) →
      (((polarizationGroupFlagsVec TileSize findExclusionIndex
            (polarizationFlagValues getCovalentMap numMultipoles))
          (flagRow TileSize findExclusionIndex (atom1 : Int) atom2)).testBit
            (flagBit TileSize (atom1 : Int) atom2) = true ↔
        atom2 ∈ getCovalentMap atom1 CovalentType.PolarizationCovalent11)) := by
  have hc := mem_covalentFlagValues getCovalentMap numMultipoles
  have hp := mem_polarizationFlagValues getCovalentMap numMultipoles
  have hbitc : ∀ e ∈ covalentFlagValues getCovalentMap numMultipoles,
      flagBit TileSize e.x e.y < 32 := by
    intro e he
    obtain ⟨i, _, hx, h⟩ := (hc e).mp he
    apply flagBit_lt TileSize e.x e.y hT hT32 (by rw [hx]; exact Int.natCast_nonneg i)
    rcases h with ⟨_, (h | h | h)⟩ | ⟨_, h⟩ | ⟨_, h⟩
    · rw [h]; exact Int.natCast_nonneg i
    · exact hatoms _ _ _ h
    · exact hatoms _ _ _ h
    · exact hatoms _ _ _ h
    · exact hatoms _ _ _ h
  have hbitp : ∀ e ∈ polarizationFlagValues getCovalentMap numMultipoles,
      flagBit TileSize e.x e.y < 32 := by
    intro e he
    obtain ⟨i, _, hx, h⟩ := (hp e).mp he
    exact flagBit_lt TileSize e.x e.y hT hT32 (by rw [hx]; exact Int.natCast_nonneg i)
      (hatoms _ _ _ h)
  refine ⟨hc, hp, ?_, ?_, ?_, ?_, ?_, ?_, ?_⟩
  · intro e he
    refine ⟨hbitc e he, ?_, ?_⟩
    · intro hv
      exact (covalentFlagsVec_x _ _ _ _ _).mpr ⟨hbitc e he, e, he, rfl, rfl, hv⟩
    · intro hv
      exact (covalentFlagsVec_y _ _ _ _ _).mpr ⟨hbitc e he, e, he, rfl, rfl, hv⟩
  · intro e he
    exact (polarizationGroupFlagsVec_bit _ _ _ _ _).mpr ⟨hbitp e he, e, he, rfl, rfl⟩
  · intro r p
    rw [covalentFlagsVec_x]
    constructor
    · rintro ⟨_, h⟩
      exact h
    · rintro ⟨e, he, h1, h2, h3⟩
      exact ⟨by rw [← h2]; exact hbitc e he, e, he, h1, h2, h3⟩
  · intro r p
    rw [covalentFlagsVec_y]
    constructor
    · rintro ⟨_, h⟩
      exact h
    · rintro ⟨e, he, h1, h2, h3⟩
      exact ⟨by rw [← h2]; exact hbitc e he, e, he, h1, h2, h3⟩
  · intro r p
    rw [polarizationGroupFlagsVec_bit]
    constructor
    · rintro ⟨_, h⟩
      exact h
    · rintro ⟨e, he, h1, h2⟩
      exact ⟨by rw [← h2]; exact hbitp e he, e, he, h1, h2⟩
  · intro e he hsame
    constructor
    · constructor
      · intro hb
        obtain ⟨_, e2, he2, h1, h2, h3⟩ := (covalentFlagsVec_x _ _ _ _ _).mp hb
        rw [← hsame e2 he2 h1 h2]
        exact h3
      · intro hv
        exact (covalentFlagsVec_x _ _ _ _ _).mpr ⟨hbitc e he, e, he, rfl, rfl, hv⟩
    · constructor
      · intro hb
        obtain ⟨_, e2, he2, h1, h2, h3⟩ := (covalentFlagsVec_y _ _ _ _ _).mp hb
        rw [← hsame e2 he2 h1 h2]
        exact h3
      · intro hv
        exact (covalentFlagsVec_y _ _ _ _ _).mpr ⟨hbitc e he, e, he, rfl, rfl, hv⟩
  · intro atom1 atom2 hlt hsame
    constructor
    · intro hb
      obtain ⟨_, e2, he2, h1, h2⟩ := (polarizationGroupFlagsVec_bit _ _ _ _ _).mp hb
      obtain ⟨hx, hy⟩ := hsame e2 he2 h1 h2
      obtain ⟨i, _, hi, hmem⟩ := (hp e2).mp he2
      have hia : i = atom1 := by
        have : (i : Int) = (atom1 : Int) := by rw [← hi, hx]
        exact_mod_cast this
      rw [← hy, ← hia]
      exact hmem
    · intro hmem
      have he : ({ x := (atom1 : Int), y := atom2 } : Int2) ∈
          polarizationFlagValues getCovalentMap numMultipoles :=
        (hp _).mpr ⟨atom1, hlt, rfl, hmem⟩
      exact (polarizationGroupFlagsVec_bit _ _ _ _ _).mpr ⟨hbitp _ he, _, he, rfl, rfl⟩

/-- The atom indices of the sample covalent maps are not negative. -/
theorem sampleCovalentMap_nonneg :
    ∀ i t, ∀ a ∈ sampleCovalentMap i t, (0 : Int) ≤ a := by
  intro i t a ha
  unfold sampleCovalentMap at ha
  split at ha <;> simp at ha <;> omega

/-- Witness for C24 (amended): three atoms in one tile of size 32, with the sample
covalent maps. -/
theorem covalent_flag_bits_witness :
    (0 : Int) < 32 ∧ (32 : Int) ≤ 32 ∧
    (∀ i t, ∀ a ∈ sampleCovalentMap i t, (0 : Int) ≤ a) ∧
    (∀ e : Int3, e ∈ covalentFlagValues sampleCovalentMap 3 ↔
      ∃ i : Nat, i < 3 ∧ e.x = (i : Int) ∧
        ((e.z = 0 ∧ (e.y = (i : Int) ∨ e.y ∈ sampleCovalentMap i CovalentType.Covalent12 ∨
            e.y ∈ sampleCovalentMap i CovalentType.Covalent13)) ∨
         (e.z = 1 ∧ e.y ∈ sampleCovalentMap i CovalentType.Covalent14) ∨
         (e.z = 2 ∧ e.y ∈ sampleCovalentMap i CovalentType.Covalent15))) ∧
    (∀ e : Int2, e ∈ polarizationFlagValues sampleCovalentMap 3 ↔
      ∃ i : Nat, i < 3 ∧ e.x = (i : Int) ∧
        e.y ∈ sampleCovalentMap i CovalentType.PolarizationCovalent11) ∧
    (∀ e ∈ covalentFlagValues sampleCovalentMap 3,
      flagBit 32 e.x e.y < 32 ∧
      ((e.z = 0 ∨ e.z = 1) →
        ((covalentFlagsVec 32 sampleExclusionIndex
            (covalentFlagValues sampleCovalentMap 3))
          (flagRow 32 sampleExclusionIndex e.x e.y)).x.testBit
            (flagBit 32 e.x e.y) = true) ∧
      ((e.z = 0 ∨ e.z = 2) →
        ((covalentFlagsVec 32 sampleExclusionIndex
            (covalentFlagValues sampleCovalentMap 3))
          (flagRow 32 sampleExclusionIndex e.x e.y)).y.testBit
            (flagBit 32 e.x e.y) = true)) ∧
    (∀ e ∈ polarizationFlagValues sampleCovalentMap 3,
      ((polarizationGroupFlagsVec 32 sampleExclusionIndex
          (polarizationFlagValues sampleCovalentMap 3))
        (flagRow 32 sampleExclusionIndex e.x e.y)).testBit
          (flagBit 32 e.x e.y) = true) ∧
    (∀ (r : Int) (p : Nat),
      ((covalentFlagsVec 32 sampleExclusionIndex
          (covalentFlagValues sampleCovalentMap 3)) r).x.testBit p = true ↔
        ∃ e ∈ covalentFlagValues sampleCovalentMap 3,
          flagRow 32 sampleExclusionIndex e.x e.y = r ∧ flagBit 32 e.x e.y = p ∧
            (e.z = 0 ∨ e.z = 1)) ∧
    (∀ (r : Int) (p : Nat),
      ((covalentFlagsVec 32 sampleExclusionIndex
          (covalentFlagValues sampleCovalentMap 3)) r).y.testBit p = true ↔
        ∃ e ∈ covalentFlagValues sampleCovalentMap 3,
          flagRow 32 sampleExclusionIndex e.x e.y = r ∧ flagBit 32 e.x e.y = p ∧
            (e.z = 0 ∨ e.z = 2)) ∧
    (∀ (r : Int) (p : Nat),
      ((polarizationGroupFlagsVec 32 sampleExclusionIndex
          (polarizationFlagValues sampleCovalentMap 3)) r).testBit p = true ↔
        ∃ e ∈ polarizationFlagValues sampleCovalentMap 3,
          flagRow 32 sampleExclusionIndex e.x e.y = r ∧ flagBit 32 e.x e.y = p) ∧
    (∀ e ∈ covalentFlagValues sampleCovalentMap 3,
      (∀ e2 ∈ covalentFlagValues sampleCovalentMap 3,
        flagRow 32 sampleExclusionIndex e2.x e2.y =
          flagRow 32 sampleExclusionIndex e.x e.y →
        flagBit 32 e2.x e2.y = flagBit 32 e.x e.y → e2.z = e.z) →
      (((covalentFlagsVec 32 sampleExclusionIndex
            (covalentFlagValues sampleCovalentMap 3))
          (flagRow 32 sampleExclusionIndex e.x e.y)).x.testBit
            (flagBit 32 e.x e.y) = true ↔ (e.z = 0 ∨ e.z = 1)) ∧
      (((covalentFlagsVec 32 sampleExclusionIndex
            (covalentFlagValues sampleCovalentMap 3))
          (flagRow 32 sampleExclusionIndex e.x e.y)).y.testBit
            (flagBit 32 e.x e.y) = true ↔ (e.z = 0 ∨ e.z = 2))) ∧
    (∀ (atom1 : Nat) (atom2 : Int), atom1 < 3 →
      (∀ e ∈ polarizationFlagValues sampleCovalentMap 3,
        flagRow 32 sampleExclusionIndex e.x e.y =
          flagRow 32 sampleExclusionIndex (atom1 : Int) atom2 →
        flagBit 32 e.x e.y = flagBit 32 (atom1 : Int) atom2 →
        e.x = (atom1 : Int) ∧ e.y = atom2) →
      (((polarizationGroupFlagsVec 32 sampleExclusionIndex
            (polarizationFlagValues sampleCovalentMap 3))
          (flagRow 32 sampleExclusionIndex (atom1 : Int) atom2)).testBit
            (flagBit 32 (atom1 : Int) atom2) = true ↔
        atom2 ∈ sampleCovalentMap atom1 CovalentType.PolarizationCovalent11)) :=
  ⟨by decide, by decide, sampleCovalentMap_nonneg,
    covalent_flag_bits 32 sampleExclusionIndex sampleCovalentMap 3 (by decide) (by decide)
      sampleCovalentMap_nonneg⟩

/-! ### Two evaluations in a row on the device -/

/-- A run over two sequences in a row. -/
theorem runEvents_append {V : Type} (d : Device V) (s : Arg → V) (xs ys : List Event) :
    runEvents d s (xs ++ ys) = runEvents d (runEvents d s xs) ys := by
  unfold runEvents
  rw [List.foldl_append]

/-- The agreed buffers after two sequences in a row. -/
theorem agreeRun_append (S : List Arg) (xs ys : List Event) :
    agreeRun S (xs ++ ys) = agreeRun (agreeRun S xs) ys := by
  unfold agreeRun
  rw [List.foldl_append]

/-- Same inputs over two sequences in a row. -/
theorem sameInputs_append {V : Type} (d : Device V) (xs ys : List Event) :
    ∀ s s' : Arg → V, SameInputs d s s' xs →
      SameInputs d (runEvents d s xs) (runEvents d s' xs) ys → SameInputs d s s' (xs ++ ys) := by
  induction xs with
  | nil => intro s s' _ h; exact h
  | cons e xs ih =>
    intro s s' h1 h2
    exact ⟨h1.1, ih _ _ h1.2 h2⟩

/-- An event that reads agreed buffers leaves the buffers of `agreeStep` agreed. -/
theorem agreeStep_sound {V : Type} (d : Device V) (S : List Arg) (s s' : Arg → V) (e : Event)
    (h : AgreeOn S s s') (hr : ∀ a ∈ e.reads, a ∈ S) :
    AgreeOn (agreeStep S e) (applyEvent d s e) (applyEvent d s' e) := by
  cases e with
  | initializeScaleFactors =>
    intro b hb
    simp only [applyEvent]
    by_cases hf : b = Arg.covalentFlags ∨ b = Arg.polarizationGroupFlags
    · rw [if_pos hf, if_pos hf]
    · rw [if_neg hf, if_neg hf]
      simp only [agreeStep, List.mem_cons] at hb
      rcases hb with hb | hb | hb
      · exact absurd (Or.inl hb) hf
      · exact absurd (Or.inr hb) hf
      · exact h b hb
  | executeKernel kernel args =>
    have hview : (fun a => if a ∈ args ∧ a ∉ kernel.overwrites then s a else d.zero) =
        (fun a => if a ∈ args ∧ a ∉ kernel.overwrites then s' a else d.zero) := by
      funext a
      by_cases ha : a ∈ args ∧ a ∉ kernel.overwrites
      · rw [if_pos ha, if_pos ha]
        apply h a
        apply hr a
        simp only [Event.reads, List.mem_filter, decide_eq_true_eq]
        exact ha
      · rw [if_neg ha, if_neg ha]
    intro b hb
    simp only [applyEvent]
    by_cases hw : b ∈ args ∧ b ∉ inputBuffers
    · rw [if_pos hw, if_pos hw, hview]
    · rw [if_neg hw, if_neg hw]
      simp only [agreeStep, List.mem_append, List.mem_filter, decide_eq_true_eq] at hb
      rcases hb with hb | hb
      · exact absurd hb hw
      · exact h b hb
  | clearBuffer buffer =>
    intro b hb
    simp only [applyEvent]
    by_cases hf : b = buffer
    · rw [if_pos hf, if_pos hf]
    · rw [if_neg hf, if_neg hf]
      simp only [agreeStep, List.mem_cons] at hb
      rcases hb with hb | hb
      · exact absurd hb hf
      · exact h b hb
  | sort data =>
    intro b hb
    simp only [applyEvent]
    by_cases hf : b = data
    · rw [if_pos hf, if_pos hf, h b hb]
    · rw [if_neg hf, if_neg hf]
      exact h b hb
  | cufftExec dp direction =>
    intro b hb
    simp only [applyEvent]
    by_cases hf : b = Arg.pmeGrid
    · rw [if_pos hf, if_pos hf, h b hb]
    · rw [if_neg hf, if_neg hf]
      exact h b hb
  | download buffer =>
    intro b hb
    exact h b hb

/-- A sequence each of whose events reads agreed buffers is fed the same inputs
from two states that agree on `S`, and leaves the buffers of `agreeRun` agreed. -/
theorem inputsAgree_sound {V : Type} (d : Device V) (events : List Event) :
    ∀ (S : List Arg) (s s' : Arg → V), AgreeOn S s s' → inputsAgree S events = true →
      SameInputs d s s' events ∧
      AgreeOn (agreeRun S events) (runEvents d s events) (runEvents d s' events) := by
  induction events with
  | nil => intro S s s' h _; exact ⟨trivial, h⟩
  | cons e events ih =>
    intro S s s' h hok
    simp only [inputsAgree, Bool.and_eq_true, List.all_eq_true, decide_eq_true_eq] at hok
    have hstep := agreeStep_sound d S s s' e h hok.1
    have hrest := ih (agreeStep S e) _ _ hstep hok.2
    exact ⟨⟨fun a ha => h a (hok.1 a ha), hrest.1⟩, hrest.2⟩

/-- Rounds of a loop body that reads agreed buffers and keeps the buffers of `S`
agreed: every round is fed the same inputs, `S` stays agreed, and after at
least one round so are the buffers the body leaves agreed. -/
theorem loop_agree {V : Type} (d : Device V) (body : List Event) (S : List Arg)
    (hbody : inputsAgree S body = true) (hsub : ∀ b ∈ S, b ∈ agreeRun S body) (n : Nat) :
    ∀ s s' : Arg → V, AgreeOn S s s' →
      SameInputs d s s' (List.replicate n body).flatten ∧
      AgreeOn S (runEvents d s (List.replicate n body).flatten)
        (runEvents d s' (List.replicate n body).flatten) ∧
      (0 < n → AgreeOn (agreeRun S body) (runEvents d s (List.replicate n body).flatten)
        (runEvents d s' (List.replicate n body).flatten)) := by
  induction n with
  | zero =>
    intro s s' h
    exact ⟨trivial, h, fun h0 => absurd h0 (by decide)⟩
  | succ n ih =>
    intro s s' h
    have hn := ih s s' h
    have hflat : (List.replicate (n + 1) body).flatten =
        (List.replicate n body).flatten ++ body := by
      rw [List.replicate_succ', List.flatten_append]
      simp
    rw [hflat, runEvents_append, runEvents_append]
    have hlast := inputsAgree_sound d body S _ _ hn.2.1 hbody
    exact ⟨sameInputs_append d _ _ s s' hn.1 hlast.1,
      fun b hb => hlast.2 b (hsub b hb), fun _ => hlast.2⟩

/-- Events that keep the input buffers leave their contents as they were. -/
theorem runEvents_keepsInputs {V : Type} (d : Device V) (events : List Event) :
    ∀ s : Arg → V, events.all Event.keepsInputs = true →
      ∀ b ∈ inputBuffers, runEvents d s events b = s b := by
  induction events with
  | nil => intro s _ b _; rfl
  | cons e events ih =>
    intro s hall b hb
    simp only [List.all_cons, Bool.and_eq_true] at hall
    have hrest := ih (applyEvent d s e) hall.2 b hb
    have hstep : applyEvent d s e b = s b := by
      cases e with
      | initializeScaleFactors => exact absurd hall.1 (by decide)
      | executeKernel kernel args =>
        simp only [applyEvent]
        rw [if_neg]
        exact fun hw => hw.2 hb
      | clearBuffer buffer =>
        simp only [applyEvent]
        rw [if_neg]
        intro hf
        have hk := hall.1
        simp only [Event.keepsInputs, decide_eq_true_eq] at hk
        exact hk (hf ▸ hb)
      | sort data =>
        simp only [applyEvent]
        rw [if_neg]
        intro hf
        have hk := hall.1
        simp only [Event.keepsInputs, decide_eq_true_eq] at hk
        exact hk (hf ▸ hb)
      | cufftExec dp direction =>
        simp only [applyEvent]
        rw [if_neg]
        intro hf
        rw [hf] at hb
        exact absurd hb (by decide)
      | download buffer => rfl
    show runEvents d (applyEvent d s e) events b = s b
    rw [hrest, hstep]

/-- A property of every event of a body holds for every event of its rounds. -/
theorem all_flatten_replicate (p : Event → Bool) (body : List Event) (n : Nat)
    (h : body.all p = true) : (List.replicate n body).flatten.all p = true := by
  induction n with
  | zero => rfl
  | succ n ih =>
    rw [List.replicate_succ, List.flatten_cons, List.all_append, h, ih]
    rfl

/-- An evaluation that passes `stagesAgree` yields, from two states that agree
on `S`, the same errors in every round, the same inputs for every event, and
the same results. -/
theorem stages_agree {V : Type} (d : Device V) (S : List Arg) (pre body post : List Event)
    (hok : stagesAgree S pre body post = true) (s s' : Arg → V) (h : AgreeOn S s s') :
    (∀ i, runEvents d s (pre ++ (List.replicate (i + 1) body).flatten) Arg.inducedDipoleErrors =
      runEvents d s' (pre ++ (List.replicate (i + 1) body).flatten) Arg.inducedDipoleErrors) ∧
    ∀ n, SameInputs d s s' (pre ++ (List.replicate n body).flatten ++ post) ∧
      ∀ b ∈ resultBuffers,
        runEvents d s (pre ++ (List.replicate n body).flatten ++ post) b =
          runEvents d s' (pre ++ (List.replicate n body).flatten ++ post) b := by
  simp only [stagesAgree, Bool.and_eq_true, List.all_eq_true, decide_eq_true_eq] at hok
  obtain ⟨⟨⟨⟨⟨hpre, hbody⟩, hsub⟩, herr⟩, hpost⟩, hres⟩ := hok
  have h1 := inputsAgree_sound d pre S s s' h hpre
  refine ⟨?_, ?_⟩
  · intro i
    rw [runEvents_append, runEvents_append]
    exact (loop_agree d body _ hbody hsub (i + 1) _ _ h1.2).2.2 (Nat.succ_pos i) _ herr
  · intro n
    have h2 := loop_agree d body _ hbody hsub n _ _ h1.2
    have h3 := inputsAgree_sound d post _ _ _ h2.2.1 hpost
    refine ⟨?_, ?_⟩
    · apply sameInputs_append
      · exact sameInputs_append d _ _ s s' h1.1 h2.1
      · rw [runEvents_append, runEvents_append]
        exact h3.1
    · intro b hb
      rw [runEvents_append, runEvents_append, runEvents_append, runEvents_append]
      exact h3.2 b (hres b hb)

/-- The evaluation without PME depends only on the input buffers and the
buffers the context clears. -/
theorem stagesAgree_direct :
    stagesAgree
      (inputBuffers ++ [Arg.force, Arg.energyBuffer, Arg.field, Arg.fieldPolar, Arg.torque])
      (labFrameMomentsEvent :: fixedFieldEvents) inducedBody forceEvents = true := by
  decide

/-- The evaluation with PME depends only on the input buffers and the buffers
the context clears. -/
theorem stagesAgree_pme (dp : Bool) :
    stagesAgree
      (inputBuffers ++
        [Arg.force, Arg.energyBuffer, Arg.field, Arg.fieldPolar, Arg.torque, Arg.pmeGrid])
      (labFrameMomentsEvent :: pmeFixedFieldEvents dp) (pmeInducedBody dp) pmeForceEvents
      = true := by
  cases dp <;> decide

/-- The events of `execute` by stage: before the loop, the rounds of the loop,
after the loop. -/
theorem execute_stages (k : MultipoleKernel) (input : ExecuteInput) :
    (execute k input).events =
      eventsBeforeLoop k input.useDoublePrecision ++
        (List.replicate (execute k input).loop.iterations
          (loopBody k input.useDoublePrecision)).flatten ++ eventsAfterLoop k := by
  rw [execute_events]
  unfold eventsBeforeLoop loopBody eventsAfterLoop
  by_cases hp : k.pmeGrid.isNone = true
  · simp only [hp, if_true, List.append_assoc]
  · have hp2 : k.pmeGrid.isNone = false := Bool.eq_false_iff.mpr hp
    simp only [hp2, Bool.false_eq_true, if_false, List.append_assoc]

/-- Once the scale factors are set up, no event of `execute` writes an input
buffer. -/
theorem execute_keepsInputs (k : MultipoleKernel) (input : ExecuteInput)
    (hinit : k.hasInitializedScaleFactors = true) :
    (execute k input).events.all Event.keepsInputs = true := by
  rw [execute_events]
  have hm : momentsEvents k = [labFrameMomentsEvent] := by
    unfold momentsEvents
    rw [hinit]
    rfl
  rw [hm]
  by_cases hp : k.pmeGrid.isNone = true
  · rw [if_pos hp]
    simp only [List.all_append]
    rw [all_flatten_replicate _ _ _ (by decide)]
    decide
  · rw [if_neg hp]
    simp only [List.all_append]
    rw [all_flatten_replicate _ _ _ (by cases input.useDoublePrecision <;> decide)]
    cases input.useDoublePrecision <;> decide

/-- The stages of `execute`, once the scale factors are set up, depend only on
the input buffers and the buffers the context clears. -/
theorem stagesAgree_execute (k : MultipoleKernel) (dp : Bool)
    (hinit : k.hasInitializedScaleFactors = true) :
    stagesAgree (inputBuffers ++ autoclearBuffers k) (eventsBeforeLoop k dp) (loopBody k dp)
      (eventsAfterLoop k) = true := by
  have hm : momentsEvents k = [labFrameMomentsEvent] := by
    unfold momentsEvents
    rw [hinit]
    rfl
  unfold autoclearBuffers eventsBeforeLoop loopBody eventsAfterLoop
  rw [hm]
  by_cases hp : k.pmeGrid.isNone = true
  · simp only [hp, if_true]
    exact stagesAgree_direct
  · have hp2 : k.pmeGrid.isNone = false := Bool.eq_false_iff.mpr hp
    simp only [hp2, Bool.false_eq_true, if_false]
    exact stagesAgree_pme dp

/-- Once the scale factors are set up, an evaluation from two device states
that agree on the input buffers and the buffers the context clears downloads
the same errors, feeds every event the same inputs, and leaves the same
results. -/
theorem device_agree {V : Type} (d : Device V) (k : MultipoleKernel) (dp : Bool)
    (numAtoms : Int) (sqrt : ℚ → ℚ) (hinit : k.hasInitializedScaleFactors = true)
    (s s' : Arg → V) (h : AgreeOn (inputBuffers ++ autoclearBuffers k) s s') :
    deviceInput d k dp numAtoms sqrt s = deviceInput d k dp numAtoms sqrt s' ∧
    SameInputs d s s' (execute k (deviceInput d k dp numAtoms sqrt s)).events ∧
    ∀ b ∈ resultBuffers,
      runEvents d s (execute k (deviceInput d k dp numAtoms sqrt s)).events b =
        runEvents d s' (execute k (deviceInput d k dp numAtoms sqrt s)).events b := by
  have hst := stages_agree d _ _ _ _ (stagesAgree_execute k dp hinit) s s' h
  refine ⟨?_, ?_⟩
  · unfold deviceInput
    congr 1
    funext i
    rw [hst.1 i]
  · rw [execute_stages]
    exact hst.2 _

/-- No input buffer is among the buffers the context clears. -/
theorem input_not_autoclear (k : MultipoleKernel) :
    ∀ b ∈ inputBuffers, b ∉ autoclearBuffers k := by
  have hall : inputBuffers.all (fun b => decide (b ∉
      [Arg.force, Arg.energyBuffer, Arg.field, Arg.fieldPolar, Arg.torque, Arg.pmeGrid]))
      = true := by decide
  intro b hb hauto
  have hnot := List.all_eq_true.mp hall b hb
  simp only [decide_eq_true_eq] at hnot
  apply hnot
  unfold autoclearBuffers at hauto
  by_cases hp : k.pmeGrid.isNone = true
  · simp only [hp, if_true, List.append_nil] at hauto
    simp only [List.mem_cons] at hauto ⊢
    tauto
  · have hp2 : k.pmeGrid.isNone = false := Bool.eq_false_iff.mpr hp
    simp only [hp2, Bool.false_eq_true, if_false] at hauto
    exact hauto

/-- The scale-factor tables are not among the buffers the context clears. -/
theorem flags_not_autoclear (k : MultipoleKernel) (b : Arg) (hb : b ∈ autoclearBuffers k) :
    ¬ (b = Arg.covalentFlags ∨ b = Arg.polarizationGroupFlags) := by
  intro hf
  have h1 := input_not_autoclear k Arg.covalentFlags (by decide)
  have h2 := input_not_autoclear k Arg.polarizationGroupFlags (by decide)
  rcases hf with hf | hf
  · exact h1 (hf ▸ hb)
  · exact h2 (hf ▸ hb)

/-- The state the second of two evaluations starts from agrees with the state
of the first, taken after its scale-factor set-up, on the input buffers and on
the buffers the context clears. -/
theorem second_start_agrees {V : Type} (d : Device V) (k : MultipoleKernel) (dp : Bool)
    (numAtoms : Int) (sqrt : ℚ → ℚ) (s : Arg → V) :
    AgreeOn (inputBuffers ++ autoclearBuffers (executeOnDevice d k dp numAtoms sqrt s).result.kernel)
      (runEvents d (autoclear d k s)
        (if k.hasInitializedScaleFactors then [] else [Event.initializeScaleFactors]))
      (autoclear d (executeOnDevice d k dp numAtoms sqrt s).result.kernel
        (executeOnDevice d k dp numAtoms sqrt s).state) := by
  have hauto : autoclearBuffers (executeOnDevice d k dp numAtoms sqrt s).result.kernel =
      autoclearBuffers k := rfl
  have hev := (execute_replay k (deviceInput d k dp numAtoms sqrt (autoclear d k s))).1
  have hkeep := execute_keepsInputs
    (execute k (deviceInput d k dp numAtoms sqrt (autoclear d k s))).kernel
    (deviceInput d k dp numAtoms sqrt (autoclear d k s)) rfl
  have hstate : (executeOnDevice d k dp numAtoms sqrt s).state =
      runEvents d (runEvents d (autoclear d k s)
        (if k.hasInitializedScaleFactors then [] else [Event.initializeScaleFactors]))
        (execute (execute k (deviceInput d k dp numAtoms sqrt (autoclear d k s))).kernel
          (deviceInput d k dp numAtoms sqrt (autoclear d k s))).events := by
    show runEvents d (autoclear d k s)
      (execute k (deviceInput d k dp numAtoms sqrt (autoclear d k s))).events = _
    rw [hev, runEvents_append]
  intro b hb
  rw [hauto] at hb
  rcases List.mem_append.mp hb with hin | hcl
  · have hnot := input_not_autoclear k b hin
    show _ = if b ∈ autoclearBuffers k then d.zero else _
    rw [if_neg hnot, hstate, runEvents_keepsInputs d _ _ hkeep b hin]
  · show _ = if b ∈ autoclearBuffers k then d.zero else _
    rw [if_pos hcl]
    have hzero : autoclear d k s b = d.zero := by
      show (if b ∈ autoclearBuffers k then d.zero else _) = _
      rw [if_pos hcl]
    cases k.hasInitializedScaleFactors with
    | true => exact hzero
    | false =>
      show (if b = Arg.covalentFlags ∨ b = Arg.polarizationGroupFlags then _ else _) = _
      rw [if_neg (flags_not_autoclear k b hcl)]
      exact hzero

/-- The errors the first evaluation downloads, seen from the state after its
scale-factor set-up. -/
theorem deviceInput_initialized {V : Type} (d : Device V) (k : MultipoleKernel) (dp : Bool)
    (numAtoms : Int) (sqrt : ℚ → ℚ) (s : Arg → V) :
    deviceInput d k dp numAtoms sqrt s =
      deviceInput d { k with hasInitializedScaleFactors := true } dp numAtoms sqrt
        (runEvents d s
          (if k.hasInitializedScaleFactors then [] else [Event.initializeScaleFactors])) := by
  unfold deviceInput
  congr 1
  funext i
  have hpre : eventsBeforeLoop k dp =
      (if k.hasInitializedScaleFactors then [] else [Event.initializeScaleFactors]) ++
        eventsBeforeLoop { k with hasInitializedScaleFactors := true } dp := by
    unfold eventsBeforeLoop momentsEvents
    simp
  have hbody : loopBody { k with hasInitializedScaleFactors := true } dp = loopBody k dp := rfl
  rw [hpre, hbody, List.append_assoc, runEvents_append]

/-- What the second of two evaluations does, in terms of the first: it runs
`execute` on the inputs of the first. -/
theorem second_result {V : Type} (d : Device V) (k : MultipoleKernel) (dp : Bool)
    (numAtoms : Int) (sqrt : ℚ → ℚ) (s : Arg → V) :
    (executeAgainOnDevice d k dp numAtoms sqrt s).result =
      execute (executeOnDevice d k dp numAtoms sqrt s).result.kernel
        (deviceInput d k dp numAtoms sqrt (autoclear d k s)) := by
  have hagree := second_start_agrees d k dp numAtoms sqrt s
  have hdev := (device_agree d (executeOnDevice d k dp numAtoms sqrt s).result.kernel dp
    numAtoms sqrt rfl _ _ hagree).1
  show execute _ (deviceInput d _ dp numAtoms sqrt _) = _
  rw [← hdev]
  exact congrArg _ (deviceInput_initialized d k dp numAtoms sqrt (autoclear d k s)).symm

/-- C17: two evaluations in a row on a device, nothing changed in between (the
second starts from the kernel object and the device state the first left, the
context having cleared its autoclear buffers): the first issues the events of
the second, preceded by the scale-factor set-up if that had not been done, so
the launches are the same; every event of the second finds in the buffers it
reads what the same event of the first found; both runs of the loop and both
return values agree; force, energy, torque and induced dipoles end up the
same; the second call leaves the kernel object as it found it, and the first
changed only `hasInitializedScaleFactors`; in the second call the first event
that touches `inducedDipole` or `inducedDipolePolar` is the
`recordInducedDipoles` launch that seeds them from `field` and `fieldPolar`;
and the second evaluation is the same from any device state that holds the
same input buffers, the induced dipoles not being among these. -/
theorem execute_twice_on_device {V : Type} (d : Device V) (k : MultipoleKernel) (dp : Bool)
    (numAtoms : Int) (sqrt : ℚ → ℚ) (s : Arg → V) :
    (executeOnDevice d k dp numAtoms sqrt s).result.events =
      (if k.hasInitializedScaleFactors then [] else [Event.initializeScaleFactors]) ++
        (executeAgainOnDevice d k dp numAtoms sqrt s).result.events ∧
    (executeAgainOnDevice d k dp numAtoms sqrt s).result.events.filter Event.isLaunch =
      (executeOnDevice d k dp numAtoms sqrt s).result.events.filter Event.isLaunch ∧
    SameInputs d
      (runEvents d (autoclear d k s)
        (if k.hasInitializedScaleFactors then [] else [Event.initializeScaleFactors]))
      (autoclear d (executeOnDevice d k dp numAtoms sqrt s).result.kernel
        (executeOnDevice d k dp numAtoms sqrt s).state)
      (executeAgainOnDevice d k dp numAtoms sqrt s).result.events ∧
    (executeAgainOnDevice d k dp numAtoms sqrt s).result.loop =
      (executeOnDevice d k dp numAtoms sqrt s).result.loop ∧
    (executeAgainOnDevice d k dp numAtoms sqrt s).result.returnValue =
      (executeOnDevice d k dp numAtoms sqrt s).result.returnValue ∧
    (∀ b ∈ resultBuffers,
      (executeAgainOnDevice d k dp numAtoms sqrt s).state b =
        (executeOnDevice d k dp numAtoms sqrt s).state b) ∧
    (executeAgainOnDevice d k dp numAtoms sqrt s).result.kernel =
      (executeOnDevice d k dp numAtoms sqrt s).result.kernel ∧
    (executeOnDevice d k dp numAtoms sqrt s).result.kernel =
      { k with hasInitializedScaleFactors := true } ∧
    (∃ pre post,
      (executeAgainOnDevice d k dp numAtoms sqrt s).result.events =
        pre ++ Event.executeKernel Kernel.recordInducedDipoles
          [Arg.field, Arg.fieldPolar, Arg.inducedDipole, Arg.inducedDipolePolar,
           Arg.polarizability] :: post ∧
      ∀ e ∈ pre, Arg.inducedDipole ∉ e.args ∧ Arg.inducedDipolePolar ∉ e.args) ∧
    Arg.inducedDipole ∉ inputBuffers ∧ Arg.inducedDipolePolar ∉ inputBuffers ∧
    ∀ t : Arg → V, (∀ b ∈ inputBuffers, t b = (executeOnDevice d k dp numAtoms sqrt s).state b) →
      (executeOnDevice d (executeOnDevice d k dp numAtoms sqrt s).result.kernel dp numAtoms
        sqrt t).result = (executeAgainOnDevice d k dp numAtoms sqrt s).result ∧
      ∀ b ∈ resultBuffers,
        (executeOnDevice d (executeOnDevice d k dp numAtoms sqrt s).result.kernel dp numAtoms
          sqrt t).state b = (executeAgainOnDevice d k dp numAtoms sqrt s).state b := by
  have hres := second_result d k dp numAtoms sqrt s
  have hrep := execute_replay k (deviceInput d k dp numAtoms sqrt (autoclear d k s))
  have hagree := second_start_agrees d k dp numAtoms sqrt s
  have hdev := device_agree d (executeOnDevice d k dp numAtoms sqrt s).result.kernel dp
    numAtoms sqrt rfl _ _ hagree
  have hin := deviceInput_initialized d k dp numAtoms sqrt (autoclear d k s)
  have hk2 : (executeOnDevice d k dp numAtoms sqrt s).result.kernel =
      { k with hasInitializedScaleFactors := true } := rfl
  have hr1 : (executeOnDevice d k dp numAtoms sqrt s).result =
      execute k (deviceInput d k dp numAtoms sqrt (autoclear d k s)) := rfl
  have hstate2 : ∀ b ∈ resultBuffers,
      (executeAgainOnDevice d k dp numAtoms sqrt s).state b =
        (executeOnDevice d k dp numAtoms sqrt s).state b := by
    intro b hb
    have hs2 : (executeAgainOnDevice d k dp numAtoms sqrt s).state =
        runEvents d (autoclear d (executeOnDevice d k dp numAtoms sqrt s).result.kernel
          (executeOnDevice d k dp numAtoms sqrt s).state)
          (executeAgainOnDevice d k dp numAtoms sqrt s).result.events := rfl
    have hs1 : (executeOnDevice d k dp numAtoms sqrt s).state =
        runEvents d (autoclear d k s)
          (execute k (deviceInput d k dp numAtoms sqrt (autoclear d k s))).events := rfl
    rw [hs2, hres]
    conv_rhs => rw [hs1, hrep.1, runEvents_append]
    have h3 := hdev.2.2 b hb
    rw [hk2, ← hin] at h3
    exact h3.symm
  refine ⟨?_, ?_, ?_, ?_, ?_, hstate2, ?_, rfl, ?_, by decide, by decide, ?_⟩
  · rw [hres, hr1]
    exact hrep.1
  · rw [hres, hr1]
    exact hrep.2.1
  · rw [hres]
    have h2 := hdev.2.1
    rw [hk2, ← hin] at h2
    exact h2
  · rw [hres, hr1]
    exact hrep.2.2.1
  · rw [hres]
    rfl
  · rw [hres]
    rfl
  · rw [hres]
    exact hrep.2.2.2.2.2.2
  · intro t ht
    have hagree2 : AgreeOn
        (inputBuffers ++ autoclearBuffers (executeOnDevice d k dp numAtoms sqrt s).result.kernel)
        (autoclear d (executeOnDevice d k dp numAtoms sqrt s).result.kernel t)
        (autoclear d (executeOnDevice d k dp numAtoms sqrt s).result.kernel
          (executeOnDevice d k dp numAtoms sqrt s).state) := by
      intro b hb
      show (if b ∈ autoclearBuffers _ then d.zero else t b) =
        (if b ∈ autoclearBuffers _ then d.zero else _)
      rcases List.mem_append.mp hb with hin | hcl
      · rw [if_neg (input_not_autoclear _ b hin), if_neg (input_not_autoclear _ b hin)]
        exact ht b hin
      · rw [if_pos hcl, if_pos hcl]
    have hdev2 := device_agree d (executeOnDevice d k dp numAtoms sqrt s).result.kernel dp
      numAtoms sqrt rfl _ _ hagree2
    have hinput : deviceInput d (executeOnDevice d k dp numAtoms sqrt s).result.kernel dp
        numAtoms sqrt (autoclear d (executeOnDevice d k dp numAtoms sqrt s).result.kernel t) =
        deviceInput d (executeOnDevice d k dp numAtoms sqrt s).result.kernel dp numAtoms sqrt
          (autoclear d (executeOnDevice d k dp numAtoms sqrt s).result.kernel
            (executeOnDevice d k dp numAtoms sqrt s).state) := hdev2.1
    refine ⟨?_, ?_⟩
    · show execute _ (deviceInput d _ dp numAtoms sqrt _) = execute _ (deviceInput d _ dp numAtoms sqrt _)
      rw [hinput]
    · intro b hb
      show runEvents d _ (execute _ (deviceInput d _ dp numAtoms sqrt _)).events b =
        runEvents d _ (execute _ (deviceInput d _ dp numAtoms sqrt _)).events b
      have h4 := hdev2.2.2 b hb
      rw [hinput] at h4 ⊢
      exact h4

/-- On the counting device the two evaluations of the direct-polarization kernel
leave the same force, and it is the clearing by the context that makes them:
the events of the second evaluation, run on the state the first left without
that clearing, leave another force. -/
theorem counting_device_twice :
    (executeOnDevice countingDevice directKernel false 1 (fun x => x) (fun _ => 0)).state
      Arg.force = 71 ∧
    (executeAgainOnDevice countingDevice directKernel false 1 (fun x => x) (fun _ => 0)).state
      Arg.force = 71 ∧
    runEvents countingDevice
      (executeOnDevice countingDevice directKernel false 1 (fun x => x) (fun _ => 0)).state
      (executeAgainOnDevice countingDevice directKernel false 1 (fun x => x)
        (fun _ => 0)).result.events Arg.force = 689 := by
  decide

end AmoebaCuda
